import Mathlib

/-!
# MSIMGoProto: the wire codec, embedded and verified

A shallow embedding of the Go package `msproto` (files `decoder.go`,
`protocol.go`, `send.go`, `recv.go`).

* A byte slice `[]byte` and a Go `string` are both a `List Nat`, one entry per byte;
  a nil slice and an empty slice are both `[]`.
* Machine integers are `Nat` (unsigned) or `Int` (signed); every place where Go
  truncates or reinterprets a bit pattern is written with an explicit `% 2 ^ w`
  (`toSigned`, `toUnsigned`).
* A Go function returning `(x, error)` returns an `Except Error x`; a method of the
  cursor `*Decoder` returns its result next to the cursor after the call, so that
  the offset after a failed read is part of the model.
* A Go run-time panic (an index out of range, a failed type assertion) is the
  outer `none` of an `Option`.
* Declarations of the package that live in files other than the four above
  (the cursor writer `Encoder`, the `Framer` header, the numeric constants) are
  either taken as parameters (`FrameTypes`, `SettingBits`, `PacketCodecs`) or
  modelled from the specification; each such definition says so.
-/

namespace msproto

/-! ## Bytes, errors, machine integers -/

/-- Go `[]byte` and Go `string`: a sequence of bytes. -/
abbrev ByteSlice := List Nat

/-- Go `p[lo:hi]` on a slice, for `lo ≤ hi ≤ len(p)`. -/
def slice (p : ByteSlice) (lo hi : Nat) : ByteSlice := (p.drop lo).take (hi - lo)

/-- The error values the package builds. `wrap` is `errors.Wrap(inner, msg)`. -/
inductive Error where
  /-- The sentinel `errDecodeLength = errors.New("decode length error")`. -/
  | errDecodeLength
  /-- From `fmt.Errorf("Decoder couldn't read expect bytes %d of %d", want, avail)`. -/
  | underrun (want avail : Nat)
  /-- From `fmt.Errorf("size is less than 0, size: %d", size)`. -/
  | negativeSize (size : Int)
  /-- The remaining length is above `MaxRemaingLength`. -/
  | tooLong (limit : Nat)
  /-- The SEND payload is above `PayloadMaxSize`. -/
  | payloadTooLarge (limit : Nat)
  /-- No decoder is registered for the frame type. -/
  | unsupported (frameType : Nat)
  /-- An error raised by a codec that is a parameter of the development. -/
  | external (msg : String)
  /-- The Go call `errors.Wrap(inner, msg)`. -/
  | wrap (inner : Error) (msg : String)
  /-- The wrapping of a per-type decoder's error by `DecodeFrame`, whose message names
  the frame type. -/
  | packet (frameType : Nat) (inner : Error)
  /-- The error `io.EOF` of the Go library. -/
  | eof
  /-- The error `io.ErrUnexpectedEOF` of the Go library. -/
  | unexpectedEOF
  deriving DecidableEq, Repr

deriving instance DecidableEq for Except

/-- The Go conversion from a `w`-bit pattern to the signed integer type of that width
(two's complement). -/
def toSigned (w u : Nat) : Int :=
  if u % 2 ^ w < 2 ^ (w - 1) then ((u % 2 ^ w : Nat) : Int) else ((u % 2 ^ w : Nat) : Int) - 2 ^ w

/-- The Go conversion of a signed integer to the unsigned type of width `w`. -/
def toUnsigned (w : Nat) (i : Int) : Nat := (i % 2 ^ w).toNat

/-! ## decoder.go: the cursor reader -/

/-- The Go struct `Decoder`: the bytes and the read offset. -/
structure Decoder where
  p : ByteSlice
  offset : Nat
  deriving DecidableEq, Repr

/-- The constructor `NewDecoder`. -/
def NewDecoder (p : ByteSlice) : Decoder := { p := p, offset := 0 }

/-- The method `Decoder.Len`. -/
def Decoder.Len (d : Decoder) : Nat := d.p.length - d.offset

/-- The method `Decoder.Uint8`. Every method of the cursor returns its result next to
the cursor after the call. -/
def Decoder.Uint8 (d : Decoder) : Except Error Nat × Decoder :=
  if d.offset + 1 > d.p.length then
    (.error (.underrun (d.offset + 1) d.p.length), d)
  else
    let b := d.p.getD d.offset 0
    (.ok b, { d with offset := d.offset + 1 })

/-- The method `Decoder.Int16`: `(int16(b[0]) << 8) | int16(b[1])`. -/
def Decoder.Int16 (d : Decoder) : Except Error Int × Decoder :=
  if d.offset + 2 > d.p.length then
    (.error (.underrun (d.offset + 2) d.p.length), d)
  else
    let b := slice d.p d.offset (d.offset + 2)
    (.ok (toSigned 16 (((b.getD 0 0 <<< 8) % 2 ^ 16) ||| b.getD 1 0)),
      { d with offset := d.offset + 2 })

/-- The method `Decoder.Uint16`. -/
def Decoder.Uint16 (d : Decoder) : Except Error Nat × Decoder :=
  match d.Int16 with
  | (.error err, d1) => (.error err, d1)
  | (.ok i, d1) => (.ok (toUnsigned 16 i), d1)

/-- The method `Decoder.Bytes`, for a count `num ≥ 0`. -/
def Decoder.Bytes (d : Decoder) (num : Nat) : Except Error ByteSlice × Decoder :=
  if d.offset + num > d.p.length then
    (.error (.underrun (d.offset + num) d.p.length), d)
  else
    let b := slice d.p d.offset (d.offset + num)
    (.ok b, { d with offset := d.offset + num })

/-- The 64-bit pattern assembled from eight bytes, most significant first: the
expression `x(b[0])<<56 | x(b[1])<<48 | ... | x(b[7])` of `Int64` and `Uint64`. -/
def pattern64 (b : ByteSlice) : Nat :=
  ((b.getD 0 0 <<< 56) % 2 ^ 64) ||| ((b.getD 1 0 <<< 48) % 2 ^ 64) |||
  ((b.getD 2 0 <<< 40) % 2 ^ 64) ||| ((b.getD 3 0 <<< 32) % 2 ^ 64) |||
  ((b.getD 4 0 <<< 24) % 2 ^ 64) ||| ((b.getD 5 0 <<< 16) % 2 ^ 64) |||
  ((b.getD 6 0 <<< 8) % 2 ^ 64) ||| b.getD 7 0

/-- The 32-bit pattern assembled from four bytes, most significant first: the
expression `int32(b[0])<<24 | int32(b[1])<<16 | int32(b[2])<<8 | int32(b[3])`. -/
def pattern32 (b : ByteSlice) : Nat :=
  ((b.getD 0 0 <<< 24) % 2 ^ 32) ||| ((b.getD 1 0 <<< 16) % 2 ^ 32) |||
  ((b.getD 2 0 <<< 8) % 2 ^ 32) ||| b.getD 3 0

/-- The method `Decoder.Int64`. -/
def Decoder.Int64 (d : Decoder) : Except Error Int × Decoder :=
  if d.offset + 8 > d.p.length then
    (.error (.underrun (d.offset + 8) d.p.length), d)
  else
    let b := slice d.p d.offset (d.offset + 8)
    (.ok (toSigned 64 (pattern64 b)), { d with offset := d.offset + 8 })

/-- The method `Decoder.Uint64`. -/
def Decoder.Uint64 (d : Decoder) : Except Error Nat × Decoder :=
  if d.offset + 8 > d.p.length then
    (.error (.underrun (d.offset + 8) d.p.length), d)
  else
    let b := slice d.p d.offset (d.offset + 8)
    (.ok (pattern64 b % 2 ^ 64), { d with offset := d.offset + 8 })

/-- The method `Decoder.Int32`. -/
def Decoder.Int32 (d : Decoder) : Except Error Int × Decoder :=
  if d.offset + 4 > d.p.length then
    (.error (.underrun (d.offset + 4) d.p.length), d)
  else
    let b := slice d.p d.offset (d.offset + 4)
    (.ok (toSigned 32 (pattern32 b)), { d with offset := d.offset + 4 })

/-- The method `Decoder.Uint32`. -/
def Decoder.Uint32 (d : Decoder) : Except Error Nat × Decoder :=
  match d.Int32 with
  | (.error err, d1) => (.error err, d1)
  | (.ok i, d1) => (.ok (toUnsigned 32 i), d1)

/-- The method `Decoder.Binary`: a signed 16-bit size, then that many bytes. -/
def Decoder.Binary (d : Decoder) : Except Error ByteSlice × Decoder :=
  match d.Int16 with
  | (.error err, d1) => (.error err, d1)
  | (.ok size, d1) =>
    if size < 0 then
      (.error (.negativeSize size), d1)
    else if d1.offset + size.toNat > d1.p.length then
      (.error (.underrun (d1.offset + size.toNat) d1.p.length), d1)
    else
      let b := slice d1.p d1.offset (d1.offset + size.toNat)
      (.ok b, { d1 with offset := d1.offset + size.toNat })

/-- The method `Decoder.String`. -/
def Decoder.String (d : Decoder) : Except Error ByteSlice × Decoder :=
  match d.Binary with
  | (.error err, d1) => (.error err, d1)
  | (.ok buf, d1) => (.ok buf, d1)

/-- The method `Decoder.BinaryAll`: every byte from the offset to the end. -/
def Decoder.BinaryAll (d : Decoder) : Except Error ByteSlice × Decoder :=
  let remains := d.Len
  let b := d.p.drop d.offset
  (.ok b, { d with offset := d.offset + remains })

/-- The method `Decoder.StringAll`. -/
def Decoder.StringAll (d : Decoder) : Except Error ByteSlice × Decoder :=
  match d.BinaryAll with
  | (.error err, d1) => (.error err, d1)
  | (.ok buf, d1) => (.ok buf, d1)

/-- The loop of `Decoder.Variable`, from the state `(size, mul)`; each turn reads one
byte as `Decoder.Uint8` does, and `size` and `mul` are `uint64`. -/
def Decoder.VariableLoop (d : Decoder) (size mul : Nat) : Except Error Nat × Decoder :=
  if h : d.offset + 1 > d.p.length then
    (.error (.underrun (d.offset + 1) d.p.length), d)
  else
    let i := d.p.getD d.offset 0
    let d1 : Decoder := { d with offset := d.offset + 1 }
    let size := (size + ((i &&& 0x7F) * mul) % 2 ^ 64) % 2 ^ 64
    let mul := (mul * 0x80) % 2 ^ 64
    if i &&& 0x80 = 0 then (.ok size, d1)
    else Decoder.VariableLoop d1 size mul
termination_by d.p.length - d.offset
decreasing_by
  show d.p.length - (d.offset + 1) < d.p.length - d.offset
  omega

/-- The method `Decoder.Variable`. -/
def Decoder.Variable (d : Decoder) : Except Error Nat × Decoder :=
  Decoder.VariableLoop d 0 1

/-! ## The cursor writer and the constants of files outside the sources -/

/-- Modelled from the spec: the cursor writer `Encoder` (its file is not among the
sources). It is an append-only byte sink (spec 4.2); the model is the sequence of
bytes written so far. -/
abbrev Encoder := ByteSlice

/-- Modelled from the spec: `Encoder.WriteByte` appends one byte. -/
def Encoder.WriteByte (e : Encoder) (b : Nat) : Encoder := e ++ [b % 256]

/-- Modelled from the spec: `Encoder.WriteUint8` appends one byte. -/
def Encoder.WriteUint8 (e : Encoder) (b : Nat) : Encoder := e ++ [b % 256]

/-- Modelled from the spec: `Encoder.WriteInt16` appends the 16-bit pattern of the
value, big-endian (spec 4.2: fixed-width big-endian integers). -/
def Encoder.WriteInt16 (e : Encoder) (v : Int) : Encoder :=
  e ++ [toUnsigned 16 v / 2 ^ 8 % 256, toUnsigned 16 v % 256]

/-- Modelled from the spec: `Encoder.WriteUint32` appends four bytes, big-endian. -/
def Encoder.WriteUint32 (e : Encoder) (v : Nat) : Encoder :=
  e ++ [v / 2 ^ 24 % 256, v / 2 ^ 16 % 256, v / 2 ^ 8 % 256, v % 256]

/-- Modelled from the spec: `Encoder.WriteInt32` appends the 32-bit pattern of the
value, big-endian. -/
def Encoder.WriteInt32 (e : Encoder) (v : Int) : Encoder :=
  Encoder.WriteUint32 e (toUnsigned 32 v)

/-- Modelled from the spec: `Encoder.WriteUint64` appends eight bytes, big-endian. -/
def Encoder.WriteUint64 (e : Encoder) (v : Nat) : Encoder :=
  e ++ [v / 2 ^ 56 % 256, v / 2 ^ 48 % 256, v / 2 ^ 40 % 256, v / 2 ^ 32 % 256,
        v / 2 ^ 24 % 256, v / 2 ^ 16 % 256, v / 2 ^ 8 % 256, v % 256]

/-- Modelled from the spec: `Encoder.WriteInt64` appends the 64-bit pattern of the
value, big-endian. -/
def Encoder.WriteInt64 (e : Encoder) (v : Int) : Encoder :=
  Encoder.WriteUint64 e (toUnsigned 64 v)

/-- Modelled from the spec: `Encoder.WriteBytes` appends raw bytes, no prefix
(spec 4.2: raw bytes unprefixed for the trailing payload). -/
def Encoder.WriteBytes (e : Encoder) (b : ByteSlice) : Encoder := e ++ b

/-- Modelled from the spec: `Encoder.WriteString` appends a 16-bit length prefix
followed by the bytes of the string (spec 4.2). -/
def Encoder.WriteString (e : Encoder) (s : ByteSlice) : Encoder :=
  Encoder.WriteBytes (Encoder.WriteInt16 e (s.length : Int)) s

/-- Modelled from the spec: the byte-size constants used by the size functions
are declared in a file outside the sources; each equals the width of the field it
is named after (spec 4.5: the size function is the exact encoded body length). -/
def SettingByteSize : Nat := 1

/-- Modelled from the spec: the width of the 16-bit length prefix of a string. -/
def StringFixLenByteSize : Nat := 2

/-- Modelled from the spec: the width of the client sequence on the wire (32 bits). -/
def ClientSeqByteSize : Nat := 4

/-- Modelled from the spec: the width of the channel type (8 bits). -/
def ChannelTypeByteSize : Nat := 1

/-- Modelled from the spec: the width of the expiry (32 bits). -/
def ExpireByteSize : Nat := 4

/-- Modelled from the spec: the width of the message id (64 bits). -/
def MessageIDByteSize : Nat := 8

/-- Modelled from the spec: the width of the message sequence (32 bits). -/
def MessageSeqByteSize : Nat := 4

/-- Modelled from the spec: the width of the timestamp (32 bits). -/
def TimestampByteSize : Nat := 4

/-- Modelled from the spec: the width of the stream id (64 bits). -/
def StreamIdByteSize : Nat := 8

/-- Modelled from the spec: the width of the stream flag (8 bits). -/
def StreamFlagByteSize : Nat := 1

/-- The two bit masks of `Setting` the codecs test. Their values are declared in a
file outside the sources and the spec does not fix them, so they are a parameter. -/
structure SettingBits where
  SettingStream : Nat
  SettingTopic : Nat
  deriving DecidableEq, Repr

/-- Modelled from the spec: `Setting.IsSet`, the test of a bit of the mask
(spec 3: `Setting` is a bitmask whose bits gate the optional fields). -/
def Setting.IsSet (s v : Nat) : Bool := (s &&& v) != 0

/-- Modelled from the spec: `Setting.Uint8`, the mask as a byte. -/
def Setting.Uint8 (s : Nat) : Nat := s % 256

/-- Modelled from the spec: the header state `Framer` (spec 3). The five flag bits
are kept as the low nibble of the first byte, whose bit assignment the spec leaves
to the implementation. -/
structure Framer where
  FrameType : Nat
  Flags : Nat
  RemainingLength : Nat
  FrameSize : Int
  deriving DecidableEq, Repr

/-- The Go zero value `Framer{}`. -/
def Framer.zero : Framer := { FrameType := 0, Flags := 0, RemainingLength := 0, FrameSize := 0 }

/-- Modelled from the spec: `FramerFromUint8` (spec 4.3: byte 0 packs the frame-type
discriminant in the high nibble and the flag bits in the low nibble). -/
def FramerFromUint8 (v : Nat) : Framer :=
  { FrameType := v >>> 4, Flags := v % 16, RemainingLength := 0, FrameSize := 0 }

/-! ## send.go -/

/-- The Go struct `SendPacket`. -/
structure SendPacket where
  Framer : Framer
  Setting : Nat
  MsgKey : ByteSlice
  Expire : Nat
  ClientSeq : Nat
  ClientMsgNo : ByteSlice
  StreamNo : ByteSlice
  ChannelID : ByteSlice
  ChannelType : Nat
  Topic : ByteSlice
  Payload : ByteSlice
  deriving DecidableEq, Repr

/-- The function `decodeSend`. Each step that fails returns its error wrapped in
the message of the source. -/
def decodeSend (S : SettingBits) (frame : Framer) (data : ByteSlice) (version : Nat) :
    Except Error SendPacket :=
  let dec := NewDecoder data
  match dec.Uint8 with
  | (.error err, _) => .error (.wrap err "解码消息设置失败！")
  | (.ok setting, dec) =>
  match dec.Uint32 with
  | (.error err, _) => .error (.wrap err "解码ClientSeq失败！")
  | (.ok clientSeq, dec) =>
  match dec.String with
  | (.error err, _) => .error (.wrap err "解码ClientMsgNo失败！")
  | (.ok clientMsgNo, dec) =>
  match (if version ≥ 2 && Setting.IsSet setting S.SettingStream then dec.String
         else (.ok [], dec)) with
  | (.error err, _) => .error (.wrap err "解码StreamNo失败！")
  | (.ok streamNo, dec) =>
  match dec.String with
  | (.error err, _) => .error (.wrap err "解码ChannelId失败！")
  | (.ok channelID, dec) =>
  match dec.Uint8 with
  | (.error err, _) => .error (.wrap err "解码ChannelType失败！")
  | (.ok channelType, dec) =>
  match (if version ≥ 3 then dec.Uint32 else (.ok 0, dec)) with
  | (.error err, _) => .error (.wrap err "解码Expire失败！")
  | (.ok expire, dec) =>
  match dec.String with
  | (.error err, _) => .error (.wrap err "解码MsgKey失败！")
  | (.ok msgKey, dec) =>
  match (if Setting.IsSet setting S.SettingTopic then dec.String else (.ok [], dec)) with
  | (.error err, _) => .error (.wrap err "解密topic消息失败！")
  | (.ok topic, dec) =>
  match dec.BinaryAll with
  | (.error err, _) => .error (.wrap err "解码payload失败！")
  | (.ok payload, _) =>
    .ok { Framer := frame, Setting := setting, MsgKey := msgKey, Expire := expire,
          ClientSeq := clientSeq, ClientMsgNo := clientMsgNo, StreamNo := streamNo,
          ChannelID := channelID, ChannelType := channelType, Topic := topic,
          Payload := payload }

/-- The function `encodeSend`; it always returns a nil error, so the model returns
the writer alone. -/
def encodeSend (S : SettingBits) (sendPacket : SendPacket) (enc : Encoder) (version : Nat) :
    Encoder :=
  let enc := enc.WriteByte (Setting.Uint8 sendPacket.Setting)
  let enc := enc.WriteUint32 (sendPacket.ClientSeq % 2 ^ 32)
  let enc := enc.WriteString sendPacket.ClientMsgNo
  let enc := if version ≥ 2 && Setting.IsSet sendPacket.Setting S.SettingStream then
      enc.WriteString sendPacket.StreamNo else enc
  let enc := enc.WriteString sendPacket.ChannelID
  let enc := enc.WriteUint8 sendPacket.ChannelType
  let enc := if version ≥ 3 then enc.WriteUint32 sendPacket.Expire else enc
  let enc := enc.WriteString sendPacket.MsgKey
  let enc := if Setting.IsSet sendPacket.Setting S.SettingTopic then
      enc.WriteString sendPacket.Topic else enc
  enc.WriteBytes sendPacket.Payload

/-- The function `encodeSendSize`. -/
def encodeSendSize (S : SettingBits) (sendPacket : SendPacket) (version : Nat) : Nat :=
  let size := 0
  let size := size + SettingByteSize
  let size := size + ClientSeqByteSize
  let size := size + (sendPacket.ClientMsgNo.length + StringFixLenByteSize)
  let size := if version ≥ 2 && Setting.IsSet sendPacket.Setting S.SettingStream then
      size + (sendPacket.StreamNo.length + StringFixLenByteSize) else size
  let size := size + (sendPacket.ChannelID.length + StringFixLenByteSize)
  let size := size + ChannelTypeByteSize
  let size := if version ≥ 3 then size + ExpireByteSize else size
  let size := size + (sendPacket.MsgKey.length + StringFixLenByteSize)
  let size := if Setting.IsSet sendPacket.Setting S.SettingTopic then
      size + (sendPacket.Topic.length + StringFixLenByteSize) else size
  size + sendPacket.Payload.length

/-! ## recv.go -/

/-- The Go struct `RecvPacket`. `ClientSeq` is not part of the encoding. -/
structure RecvPacket where
  Framer : Framer
  Setting : Nat
  MsgKey : ByteSlice
  Expire : Nat
  MessageID : Int
  MessageSeq : Nat
  ClientMsgNo : ByteSlice
  StreamNo : ByteSlice
  StreamId : Nat
  StreamFlag : Nat
  Timestamp : Int
  ChannelID : ByteSlice
  ChannelType : Nat
  Topic : ByteSlice
  FromUID : ByteSlice
  Payload : ByteSlice
  ClientSeq : Nat
  deriving DecidableEq, Repr

/-- The stream block of `decodeRecv`: the stream flag, the stream number and the
stream id, read only when the version is at least 2 and the stream bit is set. -/
def decodeRecvStream (S : SettingBits) (setting version : Nat) (dec : Decoder) :
    Except Error ((Nat × ByteSlice × Nat) × Decoder) :=
  if version ≥ 2 && Setting.IsSet setting S.SettingStream then
    match dec.Uint8 with
    | (.error err, _) => .error (.wrap err "解码StreamFlag失败！")
    | (.ok streamFlag, dec) =>
    match dec.String with
    | (.error err, _) => .error (.wrap err "解码StreamNo失败！")
    | (.ok streamNo, dec) =>
    match dec.Uint64 with
    | (.error err, _) => .error (.wrap err "解码StreamId失败！")
    | (.ok streamId, dec) => .ok ((streamFlag, streamNo, streamId), dec)
  else .ok ((0, [], 0), dec)

/-- The function `decodeRecv`. Each step that fails returns its error wrapped in
the message of the source. -/
def decodeRecv (S : SettingBits) (frame : Framer) (data : ByteSlice) (version : Nat) :
    Except Error RecvPacket :=
  let dec := NewDecoder data
  match dec.Uint8 with
  | (.error err, _) => .error (.wrap err "解码消息设置失败！")
  | (.ok setting, dec) =>
  match dec.String with
  | (.error err, _) => .error (.wrap err "解码MsgKey失败！")
  | (.ok msgKey, dec) =>
  match dec.String with
  | (.error err, _) => .error (.wrap err "解码FromUID失败！")
  | (.ok fromUID, dec) =>
  match dec.String with
  | (.error err, _) => .error (.wrap err "解码ChannelId失败！")
  | (.ok channelID, dec) =>
  match dec.Uint8 with
  | (.error err, _) => .error (.wrap err "解码ChannelType失败！")
  | (.ok channelType, dec) =>
  match (if version ≥ 3 then dec.Uint32 else (.ok 0, dec)) with
  | (.error err, _) => .error (.wrap err "解码Expire失败！")
  | (.ok expire, dec) =>
  match dec.String with
  | (.error err, _) => .error (.wrap err "解码ClientMsgNo失败！")
  | (.ok clientMsgNo, dec) =>
  match decodeRecvStream S setting version dec with
  | .error err => .error err
  | .ok ((streamFlag, streamNo, streamId), dec) =>
  match dec.Int64 with
  | (.error err, _) => .error (.wrap err "解码MessageId失败！")
  | (.ok messageID, dec) =>
  match dec.Uint32 with
  | (.error err, _) => .error (.wrap err "解码MessageSeq失败！")
  | (.ok messageSeq, dec) =>
  match dec.Int32 with
  | (.error err, _) => .error (.wrap err "解码Timestamp失败！")
  | (.ok timestamp, dec) =>
  match (if Setting.IsSet setting S.SettingTopic then dec.String else (.ok [], dec)) with
  | (.error err, _) => .error (.wrap err "解密topic消息失败！")
  | (.ok topic, dec) =>
  match dec.BinaryAll with
  | (.error err, _) => .error (.wrap err "解码payload失败！")
  | (.ok payload, _) =>
    .ok { Framer := frame, Setting := setting, MsgKey := msgKey, Expire := expire,
          MessageID := messageID, MessageSeq := messageSeq, ClientMsgNo := clientMsgNo,
          StreamNo := streamNo, StreamId := streamId, StreamFlag := streamFlag,
          Timestamp := timestamp, ChannelID := channelID, ChannelType := channelType,
          Topic := topic, FromUID := fromUID, Payload := payload, ClientSeq := 0 }

/-- The function `encodeRecv`; it always returns a nil error, so the model returns
the writer alone. -/
def encodeRecv (S : SettingBits) (recvPacket : RecvPacket) (enc : Encoder) (version : Nat) :
    Encoder :=
  let enc := enc.WriteByte (Setting.Uint8 recvPacket.Setting)
  let enc := enc.WriteString recvPacket.MsgKey
  let enc := enc.WriteString recvPacket.FromUID
  let enc := enc.WriteString recvPacket.ChannelID
  let enc := enc.WriteUint8 recvPacket.ChannelType
  let enc := if version ≥ 3 then enc.WriteUint32 recvPacket.Expire else enc
  let enc := enc.WriteString recvPacket.ClientMsgNo
  let enc := if version ≥ 2 && Setting.IsSet recvPacket.Setting S.SettingStream then
      ((enc.WriteUint8 recvPacket.StreamFlag).WriteString recvPacket.StreamNo).WriteUint64
        recvPacket.StreamId
    else enc
  let enc := enc.WriteInt64 recvPacket.MessageID
  let enc := enc.WriteUint32 recvPacket.MessageSeq
  let enc := enc.WriteInt32 recvPacket.Timestamp
  let enc := if Setting.IsSet recvPacket.Setting S.SettingTopic then
      enc.WriteString recvPacket.Topic else enc
  enc.WriteBytes recvPacket.Payload

/-- The function `encodeRecvSize`. -/
def encodeRecvSize (S : SettingBits) (packet : RecvPacket) (version : Nat) : Nat :=
  let size := 0
  let size := size + SettingByteSize
  let size := size + (packet.MsgKey.length + StringFixLenByteSize)
  let size := size + (packet.FromUID.length + StringFixLenByteSize)
  let size := size + (packet.ChannelID.length + StringFixLenByteSize)
  let size := size + ChannelTypeByteSize
  let size := if version ≥ 3 then size + ExpireByteSize else size
  let size := size + (packet.ClientMsgNo.length + StringFixLenByteSize)
  let size := if version ≥ 2 && Setting.IsSet packet.Setting S.SettingStream then
      size + StreamFlagByteSize + (packet.StreamNo.length + StringFixLenByteSize)
        + StreamIdByteSize
    else size
  let size := size + MessageIDByteSize
  let size := size + MessageSeqByteSize
  let size := size + TimestampByteSize
  let size := if Setting.IsSet packet.Setting S.SettingTopic then
      size + (packet.Topic.length + StringFixLenByteSize) else size
  size + packet.Payload.length

/-! ## protocol.go -/

/-- The constant `LatestVersion`. -/
def LatestVersion : Nat := 4

/-- The constant `MaxRemaingLength`, `1024 * 1024`. -/
def MaxRemaingLength : Nat := 1024 * 1024

/-- The constant `PayloadMaxSize`, `math.MaxInt16`. -/
def PayloadMaxSize : Nat := 32767

/-- The frame-type discriminants. Their declaration is in a file outside the
sources and the spec does not give their numbers, so they are a parameter. -/
structure FrameTypes where
  UNKNOWN : Nat
  CONNECT : Nat
  CONNACK : Nat
  SEND : Nat
  SENDACK : Nat
  RECV : Nat
  RECVACK : Nat
  PING : Nat
  PONG : Nat
  DISCONNECT : Nat
  SUB : Nat
  SUBACK : Nat
  deriving DecidableEq, Repr

/-- The twelve discriminants, in the order of their declaration in `FrameTypes`. -/
def FrameTypes.all (T : FrameTypes) : List Nat :=
  [T.UNKNOWN, T.CONNECT, T.CONNACK, T.SEND, T.SENDACK, T.RECV, T.RECVACK, T.PING, T.PONG,
    T.DISCONNECT, T.SUB, T.SUBACK]

/-- What the code relies on about the discriminants: `UNKNOWN` is the zero value of
the type (the type of the empty `Framer`), and the twelve are pairwise distinct
(Go rejects a map literal or a `switch` with a repeated constant). -/
def FrameTypes.WellFormed (T : FrameTypes) : Prop :=
  T.UNKNOWN = 0 ∧ T.all.Nodup

instance (T : FrameTypes) : Decidable T.WellFormed :=
  inferInstanceAs (Decidable (T.UNKNOWN = 0 ∧ T.all.Nodup))

/-- The seven packet codecs whose files are not among the sources, as a parameter:
`X` stands for their packet types, and every function for the Go function of its name. -/
structure PacketCodecs (X : Type) where
  GetFrameType : X → Nat
  Flags : X → Nat
  decodeConnect : Framer → ByteSlice → Nat → Except Error X
  decodeConnack : Framer → ByteSlice → Nat → Except Error X
  decodeSendack : Framer → ByteSlice → Nat → Except Error X
  decodeRecvack : Framer → ByteSlice → Nat → Except Error X
  decodeDisConnect : Framer → ByteSlice → Nat → Except Error X
  decodeSub : Framer → ByteSlice → Nat → Except Error X
  decodeSuback : Framer → ByteSlice → Nat → Except Error X
  encodeConnectSize : X → Nat → Nat
  encodeConnackSize : X → Nat → Nat
  encodeSendackSize : X → Nat → Nat
  encodeRecvackSize : X → Nat → Nat
  encodeDisConnectSize : X → Nat → Nat
  encodeSubSize : X → Nat → Nat
  encodeSubackSize : X → Nat → Nat
  encodeConnect : X → Encoder → Nat → Encoder × Option Error
  encodeConnack : X → Encoder → Nat → Encoder × Option Error
  encodeSendack : X → Encoder → Nat → Encoder × Option Error
  encodeRecvack : X → Encoder → Nat → Encoder × Option Error
  encodeDisConnect : X → Encoder → Nat → Encoder × Option Error
  encodeSub : X → Encoder → Nat → Encoder × Option Error
  encodeSuback : X → Encoder → Nat → Encoder × Option Error

/-- Modelled from the spec: the Go interface `Frame` (declared outside the sources),
as the closed set of the types that implement it (spec 3): the bare header `Framer`,
the two heartbeat packets, the SEND and RECV packets, and the packets of the codecs
taken as a parameter. -/
inductive Frame (X : Type) where
  | framer (f : Framer)
  | ping (f : Framer)
  | pong (f : Framer)
  | send (p : SendPacket)
  | recv (p : RecvPacket)
  | other (x : X)

/-- Modelled from the spec: the method `GetFrameType` of the implementations declared
outside the sources: a `Framer` returns its field and a heartbeat packet its own
discriminant. For a `SendPacket` it returns `SEND` and for a `RecvPacket` it returns
`RECV`, as in send.go and recv.go. -/
def Frame.GetFrameType {X : Type} (T : FrameTypes) (C : PacketCodecs X) : Frame X → Nat
  | .framer f => f.FrameType
  | .ping _ => T.PING
  | .pong _ => T.PONG
  | .send _ => T.SEND
  | .recv _ => T.RECV
  | .other x => C.GetFrameType x

/-- Modelled from the spec: the flag bits of a frame, those of its embedded `Framer`. -/
def Frame.Flags {X : Type} (C : PacketCodecs X) : Frame X → Nat
  | .framer f => f.Flags
  | .ping f => f.Flags
  | .pong f => f.Flags
  | .send p => p.Framer.Flags
  | .recv p => p.Framer.Flags
  | .other x => C.Flags x

/-- Modelled from the spec: `ToFixHeaderUint8`, the first byte of a frame (spec 4.3:
the discriminant in the high nibble, the flag bits in the low nibble). -/
def ToFixHeaderUint8 {X : Type} (T : FrameTypes) (C : PacketCodecs X) (f : Frame X) : Nat :=
  ((f.GetFrameType T C <<< 4) ||| (f.Flags C % 16)) % 256

/-- The type `PacketDecodeFunc`. The frame argument is the `Framer` that the callers
pass. -/
abbrev PacketDecodeFunc (X : Type) := Framer → ByteSlice → Nat → Except Error (Frame X)

/-- The table `packetDecodeMap`, as its lookup: `none` is the absent key. -/
def packetDecodeMap {X : Type} (T : FrameTypes) (S : SettingBits) (C : PacketCodecs X)
    (frameType : Nat) : Option (PacketDecodeFunc X) :=
  if frameType = T.CONNECT then some (fun f d v => (C.decodeConnect f d v).map Frame.other)
  else if frameType = T.CONNACK then some (fun f d v => (C.decodeConnack f d v).map Frame.other)
  else if frameType = T.SEND then some (fun f d v => (decodeSend S f d v).map Frame.send)
  else if frameType = T.SENDACK then some (fun f d v => (C.decodeSendack f d v).map Frame.other)
  else if frameType = T.RECV then some (fun f d v => (decodeRecv S f d v).map Frame.recv)
  else if frameType = T.RECVACK then some (fun f d v => (C.decodeRecvack f d v).map Frame.other)
  else if frameType = T.DISCONNECT then
    some (fun f d v => (C.decodeDisConnect f d v).map Frame.other)
  else if frameType = T.SUB then some (fun f d v => (C.decodeSub f d v).map Frame.other)
  else if frameType = T.SUBACK then some (fun f d v => (C.decodeSuback f d v).map Frame.other)
  else none

/-- The loop of `decodeLength`, from the state `(rLength, multiplier, offset)`. -/
def decodeLengthLoop (data : ByteSlice) (rLength multiplier offset : Nat) :
    Except Error (Nat × Nat) :=
  if multiplier < 27 then
    if offset ≥ data.length then
      .error .errDecodeLength
    else
      let digit := data.getD offset 0
      let rLength := rLength ||| (((digit &&& 127) <<< multiplier) % 2 ^ 32)
      if digit &&& 128 = 0 then
        .ok (rLength, offset + 1)
      else
        decodeLengthLoop data rLength (multiplier + 7) (offset + 1)
  else
    .ok (rLength, offset + 1)
termination_by 27 - multiplier

/-- The function `decodeLength`: the remaining length and the size of its field. -/
def decodeLength (data : ByteSlice) : Except Error (Nat × Nat) :=
  decodeLengthLoop data 0 0 0

/-- The loop of `encodeVariable`, from the state `(size, ret)`. -/
def encodeVariableLoop (size : Nat) (ret : ByteSlice) : ByteSlice :=
  if size > 0 then
    let digit := size % 0x80
    let size1 := size / 0x80
    let digit := if size1 > 0 then digit ||| 0x80 else digit
    encodeVariableLoop size1 (ret ++ [digit])
  else ret
termination_by size
decreasing_by omega

/-- The function `encodeVariable`. -/
def encodeVariable (size : Nat) : ByteSlice := encodeVariableLoop size []

/-- The function `encodeVariable2`, writing to the cursor writer. -/
def encodeVariable2 (size : Nat) (enc : Encoder) : Encoder :=
  if size > 0 then
    let digit := size % 0x80
    let size1 := size / 0x80
    let digit := if size1 > 0 then digit ||| 0x80 else digit
    encodeVariable2 size1 (enc.WriteByte digit)
  else enc
termination_by size
decreasing_by omega

/-- The method `MSProto.decodeFramer`; the outer `none` is the panic of `data[0]` on
an empty slice. The result is the framer, the size of the length field and the error. -/
def decodeFramer (T : FrameTypes) (data : ByteSlice) : Option (Framer × Nat × Option Error) :=
  match data with
  | [] => none
  | typeAndFlags :: _ =>
    let p := FramerFromUint8 typeAndFlags
    if p.FrameType ≠ T.PING ∧ p.FrameType ≠ T.PONG then
      match decodeLength (data.drop 1) with
      | .error err =>
        if err = Error.errDecodeLength then some (Framer.zero, 0, none)
        else some (Framer.zero, 0, some err)
      | .ok (rl, rll) =>
        some ({ p with RemainingLength := rl, FrameSize := (data.length : Int) }, rll, none)
    else
      some ({ p with FrameSize := (data.length : Int) }, 0, none)

/-- The method `MSProto.DecodeFrame`: the frame (if any), the bytes consumed and the
error (if any); the outer `none` is a panic. -/
def DecodeFrame {X : Type} (T : FrameTypes) (S : SettingBits) (C : PacketCodecs X)
    (data : ByteSlice) (version : Nat) : Option (Option (Frame X) × Nat × Option Error) :=
  match decodeFramer T data with
  | none => none
  | some (framer, remainingLengthLength, err) =>
    if err.isSome then some (none, 0, none)
    else
      let frameType := framer.FrameType
      if frameType = T.UNKNOWN then some (none, 0, none)
      else if frameType = T.PING then some (some (.ping framer), 1, none)
      else if frameType = T.PONG then some (some (.pong framer), 1, none)
      else if framer.RemainingLength > MaxRemaingLength then
        some (none, 0, some (.tooLong MaxRemaingLength))
      else
        let msgLen := framer.RemainingLength + 1 + remainingLengthLength
        if data.length < msgLen then some (none, 0, none)
        else
          let body := slice data (1 + remainingLengthLength) msgLen
          match packetDecodeMap T S C frameType with
          | none => some (none, 0, some (.unsupported frameType))
          | some decodeFunc =>
            match decodeFunc framer body version with
            | .error err => some (none, 0, some (.packet frameType err))
            | .ok frame =>
              some (some frame, 1 + remainingLengthLength + framer.RemainingLength, none)

/-- An `io.Reader` over a stream that yields exactly these bytes and then ends. -/
abbrev Reader := ByteSlice

/-- The Go library call `io.ReadFull(r, buf)` for a fresh buffer `buf` of `n` zero
bytes: the buffer after the call, the error and the stream that is left. When the
stream holds fewer than `n` bytes, the bytes read are followed by the zeros of the
buffer and the error is `io.EOF` if no byte was read and `io.ErrUnexpectedEOF`
otherwise. -/
def ReadFull (r : Reader) (n : Nat) : ByteSlice × Option Error × Reader :=
  if n ≤ r.length then (r.take n, none, r.drop n)
  else
    (r ++ List.replicate (n - r.length) 0,
      some (if r.length = 0 then Error.eof else Error.unexpectedEOF), [])

/-- The loop of `decodeLengthWithConn`, from the state `(rLength, multiplier)`; the
error of `io.ReadFull` is dropped, as in the source. -/
def decodeLengthWithConnLoop (r : Reader) (rLength multiplier : Nat) : Nat × Reader :=
  if multiplier < 27 then
    let res := ReadFull r 1
    let digit := res.1.getD 0 0
    let rLength := rLength ||| (((digit &&& 127) <<< multiplier) % 2 ^ 32)
    if digit &&& 128 = 0 then
      (rLength, res.2.2)
    else
      decodeLengthWithConnLoop res.2.2 rLength (multiplier + 7)
  else
    (rLength, r)
termination_by 27 - multiplier

/-- The function `decodeLengthWithConn`: the remaining length and the stream left. -/
def decodeLengthWithConn (r : Reader) : Nat × Reader :=
  decodeLengthWithConnLoop r 0 0

/-- The method `MSProto.decodeFramerWithConn`: the framer, the error and the stream
left. -/
def decodeFramerWithConn (T : FrameTypes) (conn : Reader) : Framer × Option Error × Reader :=
  let res := ReadFull conn 1
  if res.2.1.isSome then (Framer.zero, res.2.1, res.2.2)
  else
    let typeAndFlags := res.1.getD 0 0
    let p := FramerFromUint8 typeAndFlags
    if p.FrameType ≠ T.PING ∧ p.FrameType ≠ T.PONG then
      let len := decodeLengthWithConn res.2.2
      ({ p with RemainingLength := len.1 % 2 ^ 32 }, none, len.2)
    else
      (p, none, res.2.2)

/-- The method `MSProto.DecodePacketWithConn`: the frame (if any), the error (if any)
and the stream left. -/
def DecodePacketWithConn {X : Type} (T : FrameTypes) (S : SettingBits) (C : PacketCodecs X)
    (conn : Reader) (version : Nat) : Option (Frame X) × Option Error × Reader :=
  let res := decodeFramerWithConn T conn
  let framer := res.1
  let conn := res.2.2
  if res.2.1.isSome then (none, res.2.1, conn)
  else if framer.FrameType = T.PING then (some (.ping Framer.zero), none, conn)
  else if framer.FrameType = T.PONG then (some (.pong Framer.zero), none, conn)
  else if framer.RemainingLength > MaxRemaingLength then
    (none, some (.tooLong MaxRemaingLength), conn)
  else
    let read := ReadFull conn framer.RemainingLength
    let body := read.1
    let conn := read.2.2
    if read.2.1.isSome then (none, read.2.1, conn)
    else
      match packetDecodeMap T S C framer.FrameType with
      | none => (none, some (.unsupported framer.FrameType), conn)
      | some decodeFunc =>
        match decodeFunc framer body version with
        | .error err => (none, some (.packet framer.FrameType err), conn)
        | .ok frame => (some frame, none, conn)

/-- The method `MSProto.encodeFrame`: the header byte, then the remaining length. -/
def encodeFrame {X : Type} (T : FrameTypes) (C : PacketCodecs X) (f : Frame X) (enc : Encoder)
    (remainingLength : Nat) : Encoder :=
  encodeVariable2 remainingLength (enc.WriteByte (ToFixHeaderUint8 T C f))

/-- One `case` of the `switch` of `encodeFrameWithWriter` for a packet of the codecs
taken as a parameter: the type assertion (it holds for a packet of these codecs and
panics on the other implementations), the header with the size cast to `uint32`,
then the body. -/
def encodeOther {X : Type} (T : FrameTypes) (C : PacketCodecs X) (frame : Frame X)
    (enc : Encoder) (version : Nat) (size : X → Nat → Nat)
    (encode : X → Encoder → Nat → Encoder × Option Error) : Option (Encoder × Option Error) :=
  match frame with
  | .other packet =>
    some (encode packet (encodeFrame T C frame enc (size packet version % 2 ^ 32)) version)
  | _ => none

/-- The method `MSProto.encodeFrameWithWriter`: the writer after the call and the
error (if any); the outer `none` is the panic of a failed type assertion. -/
def encodeFrameWithWriter {X : Type} (T : FrameTypes) (S : SettingBits) (C : PacketCodecs X)
    (w : Encoder) (frame : Frame X) (version : Nat) : Option (Encoder × Option Error) :=
  let frameType := frame.GetFrameType T C
  let enc := w
  if frameType = T.PING ∨ frameType = T.PONG then
    some (enc.WriteByte ((frameType <<< 4) % 256), none)
  else if frameType = T.CONNECT then
    encodeOther T C frame enc version C.encodeConnectSize C.encodeConnect
  else if frameType = T.CONNACK then
    encodeOther T C frame enc version C.encodeConnackSize C.encodeConnack
  else if frameType = T.SEND then
    match frame with
    | .send packet =>
      if packet.Payload.length > PayloadMaxSize then
        some (enc, some (.payloadTooLarge PayloadMaxSize))
      else
        let enc := encodeFrame T C frame enc (encodeSendSize S packet version % 2 ^ 32)
        some (encodeSend S packet enc version, none)
    | _ => none
  else if frameType = T.SENDACK then
    encodeOther T C frame enc version C.encodeSendackSize C.encodeSendack
  else if frameType = T.RECV then
    match frame with
    | .recv packet =>
      let enc := encodeFrame T C frame enc (encodeRecvSize S packet version % 2 ^ 32)
      some (encodeRecv S packet enc version, none)
    | _ => none
  else if frameType = T.RECVACK then
    encodeOther T C frame enc version C.encodeRecvackSize C.encodeRecvack
  else if frameType = T.DISCONNECT then
    encodeOther T C frame enc version C.encodeDisConnectSize C.encodeDisConnect
  else if frameType = T.SUB then
    encodeOther T C frame enc version C.encodeSubSize C.encodeSub
  else if frameType = T.SUBACK then
    encodeOther T C frame enc version C.encodeSubackSize C.encodeSuback
  else
    some (enc, none)

/-- The method `MSProto.EncodeFrame`: the bytes (nil on an error) and the error. -/
def EncodeFrame {X : Type} (T : FrameTypes) (S : SettingBits) (C : PacketCodecs X)
    (frame : Frame X) (version : Nat) : Option (Option ByteSlice × Option Error) :=
  match encodeFrameWithWriter T S C [] frame version with
  | none => none
  | some (_, some err) => some (none, some err)
  | some (buffer, none) => some (some buffer, none)

/-- The method `MSProto.WriteFrame`. -/
def WriteFrame {X : Type} (T : FrameTypes) (S : SettingBits) (C : PacketCodecs X)
    (w : Encoder) (packet : Frame X) (version : Nat) : Option (Encoder × Option Error) :=
  encodeFrameWithWriter T S C w packet version

/-! ## Definitions used by the statements and proofs -/

/-- The cursor `d` is inside its buffer and the bytes it has not read yet are `l`. -/
def Decoder.At (d : Decoder) (l : ByteSlice) : Prop :=
  d.offset ≤ d.p.length ∧ d.p.drop d.offset = l

/-- The fields of a `SendPacket` hold values of their Go types (`uint8`, `uint32`,
`uint64`). -/
def SendPacket.WellTyped (f : SendPacket) : Prop :=
  f.Setting < 2 ^ 8 ∧ f.Expire < 2 ^ 32 ∧ f.ClientSeq < 2 ^ 64 ∧ f.ChannelType < 2 ^ 8

instance (f : SendPacket) : Decidable f.WellTyped :=
  inferInstanceAs (Decidable (_ ∧ _ ∧ _ ∧ _))

/-- The fields that the setting bits and the version keep off the wire hold their
zero value. -/
def SendPacket.GatedZero (S : SettingBits) (f : SendPacket) (version : Nat) : Prop :=
  ((version ≥ 2 && Setting.IsSet f.Setting S.SettingStream) = false → f.StreamNo = []) ∧
  (¬ version ≥ 3 → f.Expire = 0) ∧
  (Setting.IsSet f.Setting S.SettingTopic = false → f.Topic = [])

instance (S : SettingBits) (f : SendPacket) (version : Nat) : Decidable (f.GatedZero S version) :=
  inferInstanceAs (Decidable (_ ∧ _ ∧ _))

/-- Every length-prefixed string of the packet fits the signed 16-bit prefix. -/
def SendPacket.StringsFit (f : SendPacket) : Prop :=
  f.ClientMsgNo.length ≤ 32767 ∧ f.StreamNo.length ≤ 32767 ∧ f.ChannelID.length ≤ 32767 ∧
  f.MsgKey.length ≤ 32767 ∧ f.Topic.length ≤ 32767

instance (f : SendPacket) : Decidable f.StringsFit :=
  inferInstanceAs (Decidable (_ ∧ _ ∧ _ ∧ _ ∧ _))

/-- The bytes `encodeSend` appends, field by field. -/
def sendBody (S : SettingBits) (f : SendPacket) (version : Nat) : ByteSlice :=
  (f.Setting % 256) :: (Encoder.WriteUint32 [] (f.ClientSeq % 2 ^ 32) ++
    (Encoder.WriteString [] f.ClientMsgNo ++
    ((if version ≥ 2 && Setting.IsSet f.Setting S.SettingStream then
        Encoder.WriteString [] f.StreamNo else []) ++
    (Encoder.WriteString [] f.ChannelID ++
    ((f.ChannelType % 256) ::
    ((if version ≥ 3 then Encoder.WriteUint32 [] f.Expire else []) ++
    (Encoder.WriteString [] f.MsgKey ++
    ((if Setting.IsSet f.Setting S.SettingTopic then Encoder.WriteString [] f.Topic else []) ++
    f.Payload))))))))

/-- The fields of a `RecvPacket` hold values of their Go types. -/
def RecvPacket.WellTyped (f : RecvPacket) : Prop :=
  f.Setting < 2 ^ 8 ∧ f.Expire < 2 ^ 32 ∧ (-2 ^ 63 ≤ f.MessageID ∧ f.MessageID < 2 ^ 63) ∧
  f.MessageSeq < 2 ^ 32 ∧ f.StreamId < 2 ^ 64 ∧ f.StreamFlag < 2 ^ 8 ∧
  (-2 ^ 31 ≤ f.Timestamp ∧ f.Timestamp < 2 ^ 31) ∧ f.ChannelType < 2 ^ 8 ∧ f.ClientSeq < 2 ^ 64

instance (f : RecvPacket) : Decidable f.WellTyped :=
  inferInstanceAs (Decidable (_ ∧ _ ∧ (_ ∧ _) ∧ _ ∧ _ ∧ _ ∧ (_ ∧ _) ∧ _ ∧ _))

/-- The fields that the setting bits and the version keep off the wire, and the
client sequence that is never encoded, hold their zero value. -/
def RecvPacket.GatedZero (S : SettingBits) (f : RecvPacket) (version : Nat) : Prop :=
  ((version ≥ 2 && Setting.IsSet f.Setting S.SettingStream) = false →
    f.StreamFlag = 0 ∧ f.StreamNo = [] ∧ f.StreamId = 0) ∧
  (¬ version ≥ 3 → f.Expire = 0) ∧
  (Setting.IsSet f.Setting S.SettingTopic = false → f.Topic = []) ∧
  f.ClientSeq = 0

instance (S : SettingBits) (f : RecvPacket) (version : Nat) : Decidable (f.GatedZero S version) :=
  inferInstanceAs (Decidable (_ ∧ _ ∧ _ ∧ _))

/-- Every length-prefixed string of the packet fits the signed 16-bit prefix. -/
def RecvPacket.StringsFit (f : RecvPacket) : Prop :=
  f.MsgKey.length ≤ 32767 ∧ f.FromUID.length ≤ 32767 ∧ f.ChannelID.length ≤ 32767 ∧
  f.ClientMsgNo.length ≤ 32767 ∧ f.StreamNo.length ≤ 32767 ∧ f.Topic.length ≤ 32767

instance (f : RecvPacket) : Decidable f.StringsFit :=
  inferInstanceAs (Decidable (_ ∧ _ ∧ _ ∧ _ ∧ _ ∧ _))

/-- The bytes `encodeRecv` appends, field by field. -/
def recvBody (S : SettingBits) (f : RecvPacket) (version : Nat) : ByteSlice :=
  (f.Setting % 256) :: (Encoder.WriteString [] f.MsgKey ++
    (Encoder.WriteString [] f.FromUID ++
    (Encoder.WriteString [] f.ChannelID ++
    ((f.ChannelType % 256) ::
    ((if version ≥ 3 then Encoder.WriteUint32 [] f.Expire else []) ++
    (Encoder.WriteString [] f.ClientMsgNo ++
    ((if version ≥ 2 && Setting.IsSet f.Setting S.SettingStream then
        (f.StreamFlag % 256) ::
          (Encoder.WriteString [] f.StreamNo ++ Encoder.WriteUint64 [] f.StreamId)
      else []) ++
    (Encoder.WriteInt64 [] f.MessageID ++
    (Encoder.WriteUint32 [] f.MessageSeq ++
    (Encoder.WriteInt32 [] f.Timestamp ++
    ((if Setting.IsSet f.Setting S.SettingTopic then Encoder.WriteString [] f.Topic else []) ++
    f.Payload)))))))))))

/-- The framer `decodeFramer` builds from the first byte `b` of `data`, once the
length field has given the remaining length `r`. -/
def framerOf (b r : Nat) (data : ByteSlice) : Framer :=
  { FrameType := b >>> 4, Flags := b % 16, RemainingLength := r,
    FrameSize := (data.length : Int) }

/-- The nine frame types with a body, those of `packetDecodeMap`. -/
def FrameTypes.isBodyType (T : FrameTypes) (ft : Nat) : Prop :=
  ft ∈ [T.CONNECT, T.CONNACK, T.SEND, T.SENDACK, T.RECV, T.RECVACK, T.DISCONNECT, T.SUB, T.SUBACK]

instance (T : FrameTypes) (ft : Nat) : Decidable (T.isBodyType ft) :=
  inferInstanceAs (Decidable (_ ∈ _))

/-- Example masks for the two setting bits. -/
def exampleBits : SettingBits := { SettingStream := 2, SettingTopic := 8 }

/-- Example discriminants, numbered in the order of their declaration. -/
def exampleTypes : FrameTypes :=
  { UNKNOWN := 0, CONNECT := 1, CONNACK := 2, SEND := 3, SENDACK := 4, RECV := 5, RECVACK := 6,
    PING := 7, PONG := 8, DISCONNECT := 9, SUB := 10, SUBACK := 11 }

/-- Example codecs for the seven other packets: every decoder refuses, every
encoder writes nothing. -/
def exampleCodecs : PacketCodecs Unit :=
  { GetFrameType := fun _ => 1, Flags := fun _ => 0,
    decodeConnect := fun _ _ _ => .error (.external "absent"),
    decodeConnack := fun _ _ _ => .error (.external "absent"),
    decodeSendack := fun _ _ _ => .error (.external "absent"),
    decodeRecvack := fun _ _ _ => .error (.external "absent"),
    decodeDisConnect := fun _ _ _ => .error (.external "absent"),
    decodeSub := fun _ _ _ => .error (.external "absent"),
    decodeSuback := fun _ _ _ => .error (.external "absent"),
    encodeConnectSize := fun _ _ => 0, encodeConnackSize := fun _ _ => 0,
    encodeSendackSize := fun _ _ => 0, encodeRecvackSize := fun _ _ => 0,
    encodeDisConnectSize := fun _ _ => 0, encodeSubSize := fun _ _ => 0,
    encodeSubackSize := fun _ _ => 0,
    encodeConnect := fun _ e _ => (e, none), encodeConnack := fun _ e _ => (e, none),
    encodeSendack := fun _ e _ => (e, none), encodeRecvack := fun _ e _ => (e, none),
    encodeDisConnect := fun _ e _ => (e, none), encodeSub := fun _ e _ => (e, none),
    encodeSuback := fun _ e _ => (e, none) }

/-- An example SEND packet with the stream and topic bits set. -/
def exampleSend : SendPacket :=
  { Framer := Framer.zero, Setting := 10, MsgKey := [107, 101, 121], Expire := 3600,
    ClientSeq := 7, ClientMsgNo := [110, 111], StreamNo := [115], ChannelID := [99, 104],
    ChannelType := 2, Topic := [116], Payload := [104, 105] }

/-- An example SEND packet whose client sequence needs 33 bits. -/
def wideSeqSend : SendPacket :=
  { Framer := Framer.zero, Setting := 0, MsgKey := [], Expire := 0, ClientSeq := 2 ^ 32,
    ClientMsgNo := [], StreamNo := [], ChannelID := [], ChannelType := 1, Topic := [],
    Payload := [] }

/-- An example RECV packet with the stream and topic bits set. -/
def exampleRecv : RecvPacket :=
  { Framer := Framer.zero, Setting := 10, MsgKey := [107], Expire := 60, MessageID := -5,
    MessageSeq := 9, ClientMsgNo := [110], StreamNo := [115], StreamId := 2 ^ 63 + 1,
    StreamFlag := 2, Timestamp := -1, ChannelID := [99], ChannelType := 2, Topic := [116],
    FromUID := [117], Payload := [104, 105], ClientSeq := 0 }

/-- An example RECV packet whose message key is 32768 bytes long. -/
def longKeyRecv : RecvPacket :=
  { Framer := Framer.zero, Setting := 0, MsgKey := List.replicate 32768 0, Expire := 0,
    MessageID := 0, MessageSeq := 0, ClientMsgNo := [], StreamNo := [], StreamId := 0,
    StreamFlag := 0, Timestamp := 0, ChannelID := [], ChannelType := 1, Topic := [],
    FromUID := [], Payload := [], ClientSeq := 0 }

/-- The twelve body bytes of a minimal SEND packet at version 1: setting 0, client
sequence 7, three empty strings and channel type 1. -/
def minimalSendBody : ByteSlice := [0, 0, 0, 0, 7, 0, 0, 0, 0, 1, 0, 0]

/-- The packet `minimalSendBody` decodes to, inside the framer `fr`. -/
def minimalSend (fr : Framer) : SendPacket :=
  { Framer := fr, Setting := 0, MsgKey := [], Expire := 0, ClientSeq := 7, ClientMsgNo := [],
    StreamNo := [], ChannelID := [], ChannelType := 1, Topic := [], Payload := [] }

/-- The value `decodeLength` assembles from the low seven bits of four bytes. -/
def lengthOfFour (b0 b1 b2 b3 : Nat) : Nat :=
  (b0 &&& 127) ||| ((b1 &&& 127) <<< 7) ||| ((b2 &&& 127) <<< 14) ||| ((b3 &&& 127) <<< 21)

/-- A length field as the spec describes it: every byte but the last has the
continuation bit set and the last has it clear. -/
def WellTerminated (l : ByteSlice) : Prop :=
  ∃ init last, l = init ++ [last] ∧ (∀ b ∈ init, b &&& 128 ≠ 0) ∧ last &&& 128 = 0

/-- The bytes a cursor has not read yet: `d.p[d.offset:]`, and nothing when the offset
is past the end. -/
def Decoder.remaining (d : Decoder) : ByteSlice := d.p.drop d.offset

/-- The cursor `d` moved `n` bytes further. -/
def Decoder.advance (d : Decoder) (n : Nat) : Decoder := { d with offset := d.offset + n }

/-- Every entry of the buffer is a byte. -/
def IsBytes (l : ByteSlice) : Prop := ∀ b ∈ l, b < 256

instance (l : ByteSlice) : Decidable (IsBytes l) :=
  inferInstanceAs (Decidable (∀ b ∈ l, b < 256))

/-- The big-endian value of a byte sequence: the first byte is the most significant. -/
def bigEndian (bs : ByteSlice) : Nat := bs.foldl (fun acc b => acc * 256 + b) 0

/-- The value of a varint as the spec words it: the sum over `k` of
`(b_k & 0x7F) * 128 ^ k`. -/
def varintSum (bs : ByteSlice) : Nat :=
  ((List.range bs.length).map (fun k => (bs.getD k 0 &&& 0x7F) * 128 ^ k)).sum

/-- The bytes of a SEND body up to and including the channel-type byte, for a packet
with the stream bit clear; the expiry is no part of them. -/
def sendHead (f : SendPacket) : ByteSlice :=
  (f.Setting % 256) :: (Encoder.WriteUint32 [] (f.ClientSeq % 2 ^ 32) ++
    (Encoder.WriteString [] f.ClientMsgNo ++
    (Encoder.WriteString [] f.ChannelID ++ [f.ChannelType % 256])))

/-- The bytes of a SEND body from the length prefix of the message key on; the expiry
is no part of them. -/
def sendTail (S : SettingBits) (f : SendPacket) : ByteSlice :=
  Encoder.WriteString [] f.MsgKey ++
    ((if Setting.IsSet f.Setting S.SettingTopic then Encoder.WriteString [] f.Topic else []) ++
    f.Payload)

/-- The framer a frame carries; a packet of the codecs taken as a parameter shows
none. -/
def Frame.header {X : Type} : Frame X → Option Framer
  | .framer f => some f
  | .ping f => some f
  | .pong f => some f
  | .send p => some p.Framer
  | .recv p => some p.Framer
  | .other _ => none

/-- The cursor `d1` is the cursor `d` after exactly the bytes `enc` have been read:
same buffer, and the bytes left to `d` are `enc` followed by the bytes left to `d1`. -/
def Decoder.Reads (d : Decoder) (enc : ByteSlice) (d1 : Decoder) : Prop :=
  d1.p = d.p ∧ d.remaining = enc ++ d1.remaining

/-! # Theorems -/

/-! ## Bit patterns -/

theorem orShift (hi lo i : Nat) (h : lo < 2 ^ i) : (hi <<< i) ||| lo = hi * 2 ^ i + lo := by
  rw [Nat.shiftLeft_eq, Nat.mul_comm, Nat.mul_add_lt_is_or h]

theorem shl_mod (b s w : Nat) (h : b * 2 ^ s < 2 ^ w) : (b <<< s) % 2 ^ w = b <<< s := by
  rw [Nat.shiftLeft_eq]; exact Nat.mod_eq_of_lt h

theorem pattern32_bytes (b0 b1 b2 b3 : Nat) (h0 : b0 < 256) (h1 : b1 < 256) (h2 : b2 < 256)
    (h3 : b3 < 256) :
    pattern32 [b0, b1, b2, b3] = b0 * 2 ^ 24 + b1 * 2 ^ 16 + b2 * 2 ^ 8 + b3 := by
  simp only [pattern32, List.getD_cons_zero, List.getD_cons_succ]
  rw [shl_mod b0 24 32 (by omega), shl_mod b1 16 32 (by omega), shl_mod b2 8 32 (by omega)]
  rw [Nat.lor_assoc, Nat.lor_assoc]
  rw [orShift b2 b3 8 (by omega), orShift b1 _ 16 (by omega), orShift b0 _ 24 (by omega)]
  omega

theorem pattern64_bytes (b0 b1 b2 b3 b4 b5 b6 b7 : Nat) (h0 : b0 < 256) (h1 : b1 < 256)
    (h2 : b2 < 256) (h3 : b3 < 256) (h4 : b4 < 256) (h5 : b5 < 256) (h6 : b6 < 256)
    (h7 : b7 < 256) :
    pattern64 [b0, b1, b2, b3, b4, b5, b6, b7] =
      b0 * 2 ^ 56 + b1 * 2 ^ 48 + b2 * 2 ^ 40 + b3 * 2 ^ 32 + b4 * 2 ^ 24 + b5 * 2 ^ 16
        + b6 * 2 ^ 8 + b7 := by
  simp only [pattern64, List.getD_cons_zero, List.getD_cons_succ]
  rw [shl_mod b0 56 64 (by omega), shl_mod b1 48 64 (by omega), shl_mod b2 40 64 (by omega),
    shl_mod b3 32 64 (by omega), shl_mod b4 24 64 (by omega), shl_mod b5 16 64 (by omega),
    shl_mod b6 8 64 (by omega)]
  simp only [Nat.lor_assoc]
  rw [orShift b6 b7 8 (by omega), orShift b5 _ 16 (by omega), orShift b4 _ 24 (by omega),
    orShift b3 _ 32 (by omega), orShift b2 _ 40 (by omega), orShift b1 _ 48 (by omega),
    orShift b0 _ 56 (by omega)]
  omega

/-- Reading back the four big-endian bytes of `v` gives the low 32 bits of `v`. -/
theorem pattern32_be (v : Nat) :
    pattern32 [v / 2 ^ 24 % 256, v / 2 ^ 16 % 256, v / 2 ^ 8 % 256, v % 256] = v % 2 ^ 32 := by
  rw [pattern32_bytes _ _ _ _ (Nat.mod_lt _ (by norm_num)) (Nat.mod_lt _ (by norm_num))
    (Nat.mod_lt _ (by norm_num)) (Nat.mod_lt _ (by norm_num))]
  omega

/-- Reading back the eight big-endian bytes of `v` gives the low 64 bits of `v`. -/
theorem pattern64_be (v : Nat) :
    pattern64 [v / 2 ^ 56 % 256, v / 2 ^ 48 % 256, v / 2 ^ 40 % 256, v / 2 ^ 32 % 256,
      v / 2 ^ 24 % 256, v / 2 ^ 16 % 256, v / 2 ^ 8 % 256, v % 256] = v % 2 ^ 64 := by
  rw [pattern64_bytes _ _ _ _ _ _ _ _ (Nat.mod_lt _ (by norm_num)) (Nat.mod_lt _ (by norm_num))
    (Nat.mod_lt _ (by norm_num)) (Nat.mod_lt _ (by norm_num)) (Nat.mod_lt _ (by norm_num))
    (Nat.mod_lt _ (by norm_num)) (Nat.mod_lt _ (by norm_num)) (Nat.mod_lt _ (by norm_num))]
  omega

theorem toUnsigned_toSigned32 (u : Nat) : toUnsigned 32 (toSigned 32 u) = u % 2 ^ 32 := by
  unfold toUnsigned toSigned
  split <;> omega

theorem toSigned_toUnsigned32 (i : Int) (h1 : -2 ^ 31 ≤ i) (h2 : i < 2 ^ 31) :
    toSigned 32 (toUnsigned 32 i % 2 ^ 32) = i := by
  unfold toUnsigned toSigned
  split <;> omega

theorem toSigned_toUnsigned64 (i : Int) (h1 : -2 ^ 63 ≤ i) (h2 : i < 2 ^ 63) :
    toSigned 64 (toUnsigned 64 i % 2 ^ 64) = i := by
  unfold toUnsigned toSigned
  split <;> omega

/-- The 16-bit length prefix of a length `n`, read back as a signed 16-bit integer. -/
theorem lengthField16 (n : Nat) :
    toSigned 16 ((((toUnsigned 16 (n : Int) / 2 ^ 8 % 256) <<< 8) % 2 ^ 16)
      ||| (toUnsigned 16 (n : Int) % 256)) = toSigned 16 n := by
  have hu : toUnsigned 16 (n : Int) = n % 2 ^ 16 := by unfold toUnsigned; omega
  rw [hu, shl_mod _ 8 16 (by omega), orShift _ _ 8 (by omega)]
  have hx : n % 2 ^ 16 / 2 ^ 8 % 256 * 2 ^ 8 + n % 2 ^ 16 % 256 = n % 2 ^ 16 := by omega
  rw [hx]
  unfold toSigned
  rw [Nat.mod_mod]

/-! ## The cursor reader on a known remainder -/

theorem NewDecoder_at (data : ByteSlice) : (NewDecoder data).At data :=
  ⟨Nat.zero_le _, rfl⟩

theorem at_room {d : Decoder} {enc tl : ByteSlice} (h : d.At (enc ++ tl)) :
    d.offset + enc.length ≤ d.p.length := by
  have hl := congrArg List.length h.2
  have h1 := h.1
  simp only [List.length_drop, List.length_append] at hl
  omega

theorem at_slice {d : Decoder} {enc tl : ByteSlice} (h : d.At (enc ++ tl)) :
    slice d.p d.offset (d.offset + enc.length) = enc := by
  unfold slice
  rw [Nat.add_sub_cancel_left, h.2]
  exact List.take_left' rfl

theorem at_advance {d : Decoder} {enc tl : ByteSlice} (h : d.At (enc ++ tl)) :
    ({ d with offset := d.offset + enc.length } : Decoder).At tl := by
  refine ⟨at_room h, ?_⟩
  simp only
  rw [← List.drop_drop, h.2]
  exact List.drop_left' rfl

theorem Decoder.Uint8_at {d : Decoder} {b : Nat} {tl : ByteSlice} (h : d.At (b :: tl)) :
    ∃ d1, d.Uint8 = (.ok b, d1) ∧ d1.At tl := by
  have h1 : d.At ([b] ++ tl) := h
  refine ⟨{ d with offset := d.offset + 1 }, ?_, at_advance h1⟩
  have hroom := at_room h1
  simp only [List.length_singleton] at hroom
  have hb : d.p.getD d.offset 0 = b := by
    have := congrArg (fun l => l.getD 0 0) h.2
    simpa [List.getD_eq_getElem?_getD, List.getElem?_drop] using this
  unfold Decoder.Uint8
  rw [if_neg (by omega), hb]

theorem Decoder.Uint32_at {d : Decoder} {v : Nat} {tl : ByteSlice}
    (h : d.At (Encoder.WriteUint32 [] v ++ tl)) :
    ∃ d1, d.Uint32 = (.ok (v % 2 ^ 32), d1) ∧ d1.At tl := by
  simp only [Encoder.WriteUint32, List.nil_append] at h
  refine ⟨{ d with offset := d.offset + 4 }, ?_, at_advance h⟩
  have hroom := at_room h
  have hs := at_slice h
  simp only [List.length_cons, List.length_nil] at hroom hs
  unfold Decoder.Uint32 Decoder.Int32
  rw [if_neg (by omega)]
  simp only [hs, pattern32_be, toUnsigned_toSigned32, Nat.mod_mod]

theorem Decoder.Int32_at {d : Decoder} {i : Int} {tl : ByteSlice}
    (h1 : -2 ^ 31 ≤ i) (h2 : i < 2 ^ 31)
    (h : d.At (Encoder.WriteInt32 [] i ++ tl)) :
    ∃ d1, d.Int32 = (.ok i, d1) ∧ d1.At tl := by
  simp only [Encoder.WriteInt32, Encoder.WriteUint32, List.nil_append] at h
  refine ⟨{ d with offset := d.offset + 4 }, ?_, at_advance h⟩
  have hroom := at_room h
  have hs := at_slice h
  simp only [List.length_cons, List.length_nil] at hroom hs
  unfold Decoder.Int32
  rw [if_neg (by omega)]
  simp only [hs, pattern32_be, toSigned_toUnsigned32 i h1 h2]

theorem Decoder.Uint64_at {d : Decoder} {v : Nat} {tl : ByteSlice}
    (h : d.At (Encoder.WriteUint64 [] v ++ tl)) :
    ∃ d1, d.Uint64 = (.ok (v % 2 ^ 64), d1) ∧ d1.At tl := by
  simp only [Encoder.WriteUint64, List.nil_append] at h
  refine ⟨{ d with offset := d.offset + 8 }, ?_, at_advance h⟩
  have hroom := at_room h
  have hs := at_slice h
  simp only [List.length_cons, List.length_nil] at hroom hs
  unfold Decoder.Uint64
  rw [if_neg (by omega)]
  simp only [hs, pattern64_be, Nat.mod_mod]

theorem Decoder.Int64_at {d : Decoder} {i : Int} {tl : ByteSlice}
    (h1 : -2 ^ 63 ≤ i) (h2 : i < 2 ^ 63)
    (h : d.At (Encoder.WriteInt64 [] i ++ tl)) :
    ∃ d1, d.Int64 = (.ok i, d1) ∧ d1.At tl := by
  simp only [Encoder.WriteInt64, Encoder.WriteUint64, List.nil_append] at h
  refine ⟨{ d with offset := d.offset + 8 }, ?_, at_advance h⟩
  have hroom := at_room h
  have hs := at_slice h
  simp only [List.length_cons, List.length_nil] at hroom hs
  unfold Decoder.Int64
  rw [if_neg (by omega)]
  simp only [hs, pattern64_be, toSigned_toUnsigned64 i h1 h2]

/-- The signed 16-bit prefix of a length-prefixed field, read back. -/
theorem Decoder.Int16_at {d : Decoder} {n : Nat} {tl : ByteSlice}
    (h : d.At (Encoder.WriteInt16 [] (n : Int) ++ tl)) :
    ∃ d1, d.Int16 = (.ok (toSigned 16 n), d1) ∧ d1.At tl := by
  simp only [Encoder.WriteInt16, List.nil_append] at h
  refine ⟨{ d with offset := d.offset + 2 }, ?_, at_advance h⟩
  have hroom := at_room h
  have hs := at_slice h
  simp only [List.length_cons, List.length_nil] at hroom hs
  unfold Decoder.Int16
  rw [if_neg (by omega)]
  simp only [hs, List.getD_cons_zero, List.getD_cons_succ, lengthField16]

/-- A length-prefixed field of at most 32767 bytes is read back whole. -/
theorem Decoder.String_at {d : Decoder} {s tl : ByteSlice} (hs : s.length ≤ 32767)
    (h : d.At (Encoder.WriteString [] s ++ tl)) :
    ∃ d1, d.String = (.ok s, d1) ∧ d1.At tl := by
  simp only [Encoder.WriteString, Encoder.WriteBytes, List.append_assoc] at h
  obtain ⟨d1, e1, r1⟩ := Decoder.Int16_at h
  have hsz : toSigned 16 s.length = (s.length : Int) := by
    unfold toSigned
    rw [if_pos (by omega)]
    congr 1
    omega
  refine ⟨{ d1 with offset := d1.offset + s.length }, ?_, at_advance r1⟩
  have hroom := at_room r1
  have hsl := at_slice r1
  unfold Decoder.String Decoder.Binary
  simp only [e1, hsz]
  rw [if_neg (by omega)]
  simp only [Int.toNat_ofNat]
  rw [if_neg (by omega), hsl]

/-- A length-prefixed field of 32768 to 65535 bytes is refused: its prefix reads as
a negative size. -/
theorem Decoder.String_at_negative {d : Decoder} {s tl : ByteSlice} (h1 : 32767 < s.length)
    (h2 : s.length < 65536) (h : d.At (Encoder.WriteString [] s ++ tl)) :
    ∃ d1, d.String = (.error (.negativeSize ((s.length : Int) - 65536)), d1) := by
  simp only [Encoder.WriteString, Encoder.WriteBytes, List.append_assoc] at h
  obtain ⟨d1, e1, _⟩ := Decoder.Int16_at h
  have hsz : toSigned 16 s.length = (s.length : Int) - 65536 := by
    unfold toSigned
    rw [if_neg (by omega)]
    omega
  refine ⟨d1, ?_⟩
  unfold Decoder.String Decoder.Binary
  simp only [e1, hsz]
  rw [if_pos (by omega)]

theorem Decoder.BinaryAll_at {d : Decoder} {l : ByteSlice} (h : d.At l) :
    ∃ d1, d.BinaryAll = (.ok l, d1) := ⟨_, by unfold Decoder.BinaryAll; rw [h.2]⟩

/-! ## The writer appends -/

theorem WriteUint32_append (e : Encoder) (v : Nat) :
    Encoder.WriteUint32 e v = e ++ Encoder.WriteUint32 [] v := rfl

theorem WriteUint64_append (e : Encoder) (v : Nat) :
    Encoder.WriteUint64 e v = e ++ Encoder.WriteUint64 [] v := rfl

theorem WriteInt32_append (e : Encoder) (v : Int) :
    Encoder.WriteInt32 e v = e ++ Encoder.WriteInt32 [] v := rfl

theorem WriteInt64_append (e : Encoder) (v : Int) :
    Encoder.WriteInt64 e v = e ++ Encoder.WriteInt64 [] v := rfl

theorem WriteString_append (e : Encoder) (s : ByteSlice) :
    Encoder.WriteString e s = e ++ Encoder.WriteString [] s := by
  simp [Encoder.WriteString, Encoder.WriteBytes, Encoder.WriteInt16]

theorem WriteString_length (s : ByteSlice) :
    (Encoder.WriteString [] s).length = s.length + 2 := by
  simp [Encoder.WriteString, Encoder.WriteBytes, Encoder.WriteInt16]

theorem encodeSend_eq (S : SettingBits) (f : SendPacket) (enc : Encoder) (version : Nat) :
    encodeSend S f enc version = enc ++ sendBody S f version := by
  unfold encodeSend sendBody
  split <;> split <;> split <;>
    simp only [Setting.Uint8, Encoder.WriteByte, Encoder.WriteUint8, Encoder.WriteBytes,
      Encoder.WriteString, Encoder.WriteInt16, Encoder.WriteUint32, Nat.mod_mod,
      List.append_assoc, List.cons_append, List.nil_append, List.append_nil,
      List.singleton_append]

/-- An optional length-prefixed field: read when the gate is open, and empty when
the gate is shut. -/
theorem optString_at {d : Decoder} {c : Bool} {s tl : ByteSlice} (hs : s.length ≤ 32767)
    (hz : c = false → s = [])
    (h : d.At ((if c then Encoder.WriteString [] s else []) ++ tl)) :
    ∃ d1, (if c then d.String else (.ok [], d)) = (.ok s, d1) ∧ d1.At tl := by
  cases c with
  | true => simpa using Decoder.String_at hs (by simpa using h)
  | false => exact ⟨d, by simp [hz rfl], by simpa using h⟩

/-- The optional expiry: read from version 3 on, and zero before. -/
theorem optUint32_at {d : Decoder} {c : Prop} [Decidable c] {v : Nat} {tl : ByteSlice}
    (hv : v < 2 ^ 32) (hz : ¬ c → v = 0)
    (h : d.At ((if c then Encoder.WriteUint32 [] v else []) ++ tl)) :
    ∃ d1, (if c then d.Uint32 else (.ok 0, d)) = (.ok v, d1) ∧ d1.At tl := by
  by_cases hc : c
  · simp only [hc, if_true] at h ⊢
    obtain ⟨d1, e1, a1⟩ := Decoder.Uint32_at h
    exact ⟨d1, by rw [e1, Nat.mod_eq_of_lt hv], a1⟩
  · simp only [hc, if_false, List.nil_append] at h ⊢
    exact ⟨d, by rw [hz hc], h⟩

/-- The SEND body round trip, with the client sequence carried as 32 bits. -/
theorem decodeSend_sendBody (S : SettingBits) (fr : Framer) (f : SendPacket) (version : Nat)
    (hT : f.WellTyped) (hG : f.GatedZero S version) (hF : f.StringsFit) :
    decodeSend S fr (sendBody S f version) version =
      .ok { f with Framer := fr, ClientSeq := f.ClientSeq % 2 ^ 32 } := by
  obtain ⟨hSet, hExp, -, hCt⟩ := hT
  obtain ⟨gS, gE, gT⟩ := hG
  obtain ⟨f1, f2, f3, f4, f5⟩ := hF
  have hSet1 : f.Setting % 256 = f.Setting := Nat.mod_eq_of_lt hSet
  have hCt1 : f.ChannelType % 256 = f.ChannelType := Nat.mod_eq_of_lt hCt
  have a0 : (NewDecoder (sendBody S f version)).At (_ :: _) := NewDecoder_at _
  obtain ⟨d1, e1, a1⟩ := Decoder.Uint8_at a0
  obtain ⟨d2, e2, a2⟩ := Decoder.Uint32_at a1
  obtain ⟨d3, e3, a3⟩ := Decoder.String_at f1 a2
  obtain ⟨d4, e4, a4⟩ := optString_at f2 gS a3
  obtain ⟨d5, e5, a5⟩ := Decoder.String_at f3 a4
  obtain ⟨d6, e6, a6⟩ := Decoder.Uint8_at a5
  obtain ⟨d7, e7, a7⟩ := optUint32_at hExp gE a6
  obtain ⟨d8, e8, a8⟩ := Decoder.String_at f4 a7
  obtain ⟨d9, e9, a9⟩ := optString_at f5 gT a8
  obtain ⟨d10, e10⟩ := Decoder.BinaryAll_at a9
  rw [hSet1] at e1
  rw [hCt1] at e6
  unfold decodeSend
  simp only [e1, e2, e3, e4, e5, e6, e7, e8, e9, e10, Nat.mod_mod]

theorem encodeRecv_eq (S : SettingBits) (f : RecvPacket) (enc : Encoder) (version : Nat) :
    encodeRecv S f enc version = enc ++ recvBody S f version := by
  unfold encodeRecv recvBody
  split <;> split <;> split <;>
    simp only [Setting.Uint8, Encoder.WriteByte, Encoder.WriteUint8, Encoder.WriteBytes,
      Encoder.WriteString, Encoder.WriteInt16, Encoder.WriteUint32, Encoder.WriteUint64,
      Encoder.WriteInt32, Encoder.WriteInt64, Nat.mod_mod,
      List.append_assoc, List.cons_append, List.nil_append, List.append_nil,
      List.singleton_append]

/-- The stream block: read when the gate is open, and zero when the gate is shut. -/
theorem decodeRecvStream_at {d : Decoder} (S : SettingBits) (setting version : Nat)
    {flag id : Nat} {no tl : ByteSlice} (hf : flag < 2 ^ 8) (hi : id < 2 ^ 64)
    (hs : no.length ≤ 32767)
    (hz : (version ≥ 2 && Setting.IsSet setting S.SettingStream) = false →
      flag = 0 ∧ no = [] ∧ id = 0)
    (h : d.At ((if version ≥ 2 && Setting.IsSet setting S.SettingStream then
        (flag % 256) :: (Encoder.WriteString [] no ++ Encoder.WriteUint64 [] id)
      else []) ++ tl)) :
    ∃ d1, decodeRecvStream S setting version d = .ok ((flag, no, id), d1) ∧ d1.At tl := by
  unfold decodeRecvStream
  cases hc : (version ≥ 2 && Setting.IsSet setting S.SettingStream) with
  | true =>
    rw [hc] at h
    simp only [if_true, List.cons_append, List.append_assoc] at h ⊢
    obtain ⟨d1, e1, a1⟩ := Decoder.Uint8_at h
    obtain ⟨d2, e2, a2⟩ := Decoder.String_at hs a1
    obtain ⟨d3, e3, a3⟩ := Decoder.Uint64_at a2
    refine ⟨d3, ?_, a3⟩
    simp only [e1, e2, e3]
    rw [Nat.mod_eq_of_lt (by omega : flag < 256), Nat.mod_eq_of_lt hi]
  | false =>
    rw [hc] at h hz
    obtain ⟨z1, z2, z3⟩ := hz rfl
    subst z1 z2 z3
    exact ⟨d, by simp, by simpa using h⟩

/-- The RECV body round trip. -/
theorem decodeRecv_recvBody (S : SettingBits) (fr : Framer) (f : RecvPacket) (version : Nat)
    (hT : f.WellTyped) (hG : f.GatedZero S version) (hF : f.StringsFit) :
    decodeRecv S fr (recvBody S f version) version = .ok { f with Framer := fr } := by
  obtain ⟨hSet, hExp, ⟨hId1, hId2⟩, hSeq, hSid, hSf, ⟨hTs1, hTs2⟩, hCt, -⟩ := hT
  obtain ⟨gS, gE, gT, gC⟩ := hG
  obtain ⟨f1, f2, f3, f4, f5, f6⟩ := hF
  have hSet1 : f.Setting % 256 = f.Setting := Nat.mod_eq_of_lt hSet
  have hCt1 : f.ChannelType % 256 = f.ChannelType := Nat.mod_eq_of_lt hCt
  have a0 : (NewDecoder (recvBody S f version)).At (_ :: _) := NewDecoder_at _
  obtain ⟨d1, e1, a1⟩ := Decoder.Uint8_at a0
  obtain ⟨d2, e2, a2⟩ := Decoder.String_at f1 a1
  obtain ⟨d3, e3, a3⟩ := Decoder.String_at f2 a2
  obtain ⟨d4, e4, a4⟩ := Decoder.String_at f3 a3
  obtain ⟨d5, e5, a5⟩ := Decoder.Uint8_at a4
  obtain ⟨d6, e6, a6⟩ := optUint32_at hExp gE a5
  obtain ⟨d7, e7, a7⟩ := Decoder.String_at f4 a6
  obtain ⟨d8, e8, a8⟩ := decodeRecvStream_at S f.Setting version hSf hSid f5 gS a7
  obtain ⟨d9, e9, a9⟩ := Decoder.Int64_at hId1 hId2 a8
  obtain ⟨d10, e10, a10⟩ := Decoder.Uint32_at a9
  obtain ⟨d11, e11, a11⟩ := Decoder.Int32_at hTs1 hTs2 a10
  obtain ⟨d12, e12, a12⟩ := optString_at f6 gT a11
  obtain ⟨d13, e13⟩ := Decoder.BinaryAll_at a12
  rw [hSet1] at e1
  rw [hCt1] at e5
  rw [Nat.mod_eq_of_lt hSeq] at e10
  unfold decodeRecv
  simp only [e1, e2, e3, e4, e5, e6, e7, e8, e9, e10, e11, e12, e13, gC]

/-- A RECV packet whose message key is 32768 to 65535 bytes long is refused when its
encoding is decoded. -/
theorem decodeRecv_longKey (S : SettingBits) (fr : Framer) (f : RecvPacket) (version : Nat)
    (h1 : 32767 < f.MsgKey.length) (h2 : f.MsgKey.length < 65536) :
    decodeRecv S fr (recvBody S f version) version =
      .error (.wrap (.negativeSize ((f.MsgKey.length : Int) - 65536)) "解码MsgKey失败！") := by
  have a0 : (NewDecoder (recvBody S f version)).At (_ :: _) := NewDecoder_at _
  obtain ⟨d1, e1, a1⟩ := Decoder.Uint8_at a0
  obtain ⟨d2, e2⟩ := Decoder.String_at_negative h1 h2 a1
  unfold decodeRecv
  simp only [e1, e2]

/-! ## Size agreement -/

theorem sendBody_length (S : SettingBits) (f : SendPacket) (version : Nat) :
    (sendBody S f version).length = encodeSendSize S f version := by
  unfold sendBody encodeSendSize
  split <;> split <;> split <;>
    simp [WriteString_length, Encoder.WriteUint32, SettingByteSize, ClientSeqByteSize,
      StringFixLenByteSize, ChannelTypeByteSize, ExpireByteSize] <;> omega

theorem recvBody_length (S : SettingBits) (f : RecvPacket) (version : Nat) :
    (recvBody S f version).length = encodeRecvSize S f version := by
  unfold recvBody encodeRecvSize
  split <;> split <;> split <;>
    simp [WriteString_length, Encoder.WriteUint32, Encoder.WriteUint64, Encoder.WriteInt32,
      Encoder.WriteInt64, SettingByteSize, StringFixLenByteSize, ChannelTypeByteSize,
      ExpireByteSize, StreamFlagByteSize, StreamIdByteSize, MessageIDByteSize,
      MessageSeqByteSize, TimestampByteSize] <;> omega

/-! ## The frame decoder, step by step -/

/-- `DecodeFrame` on a buffer whose length field is incomplete. -/
theorem DecodeFrame_of_lengthError {X : Type} (T : FrameTypes) (S : SettingBits)
    (C : PacketCodecs X) (b : Nat) (rest : ByteSlice) (version : Nat) (hU : T.UNKNOWN = 0)
    (hPi : b >>> 4 ≠ T.PING) (hPo : b >>> 4 ≠ T.PONG)
    (hlen : decodeLength rest = .error .errDecodeLength) :
    DecodeFrame T S C (b :: rest) version = some (none, 0, none) := by
  simp [DecodeFrame, decodeFramer, FramerFromUint8, hPi, hPo, hlen, Framer.zero, hU]

/-- `DecodeFrame` on a buffer whose length field is complete: the checks it makes,
in their order. -/
theorem DecodeFrame_of_length {X : Type} (T : FrameTypes) (S : SettingBits)
    (C : PacketCodecs X) (b : Nat) (rest : ByteSlice) (version r k : Nat)
    (hPi : b >>> 4 ≠ T.PING) (hPo : b >>> 4 ≠ T.PONG)
    (hlen : decodeLength rest = .ok (r, k)) :
    DecodeFrame T S C (b :: rest) version =
      if b >>> 4 = T.UNKNOWN then some (none, 0, none)
      else if r > MaxRemaingLength then some (none, 0, some (.tooLong MaxRemaingLength))
      else if (b :: rest).length < r + 1 + k then some (none, 0, none)
      else
        match packetDecodeMap T S C (b >>> 4) with
        | none => some (none, 0, some (.unsupported (b >>> 4)))
        | some decodeFunc =>
          match decodeFunc (framerOf b r (b :: rest)) (slice (b :: rest) (1 + k) (r + 1 + k))
              version with
          | .error err => some (none, 0, some (.packet (b >>> 4) err))
          | .ok frame => some (some frame, 1 + k + r, none) := by
  simp only [DecodeFrame, decodeFramer, FramerFromUint8, hPi, hPo, hlen, List.drop_succ_cons,
    List.drop_zero, ne_eq, not_false_eq_true, and_self, if_true, Option.isSome_none,
    Bool.false_eq_true, if_false, framerOf]

/-- Two discriminants at different places of the list of twelve differ. -/
theorem FrameTypes.ne_of_wellFormed {T : FrameTypes} (hT : T.WellFormed) (i j : Fin 12)
    (hij : i ≠ j) : T.all.get i ≠ T.all.get j := by
  intro h
  exact hij ((List.Nodup.get_inj_iff hT.2).1 h)

theorem registered_iff {X : Type} (T : FrameTypes) (S : SettingBits) (C : PacketCodecs X)
    (ft : Nat) : (packetDecodeMap T S C ft).isSome ↔ T.isBodyType ft := by
  unfold FrameTypes.isBodyType packetDecodeMap
  simp only [List.mem_cons, List.mem_singleton, List.not_mem_nil, or_false]
  split_ifs <;> simp [*]

/-- A frame type with a body is none of `UNKNOWN`, `PING`, `PONG`. -/
theorem bodyType_ne (T : FrameTypes) (hT : T.WellFormed) (ft : Nat) (h : T.isBodyType ft) :
    ft ≠ T.UNKNOWN ∧ ft ≠ T.PING ∧ ft ≠ T.PONG := by
  unfold FrameTypes.isBodyType at h
  simp only [List.mem_cons, List.mem_singleton, List.not_mem_nil, or_false] at h
  rcases h with h | h | h | h | h | h | h | h | h <;> subst h
  · exact ⟨T.ne_of_wellFormed hT 1 0 (by decide), T.ne_of_wellFormed hT 1 7 (by decide),
      T.ne_of_wellFormed hT 1 8 (by decide)⟩
  · exact ⟨T.ne_of_wellFormed hT 2 0 (by decide), T.ne_of_wellFormed hT 2 7 (by decide),
      T.ne_of_wellFormed hT 2 8 (by decide)⟩
  · exact ⟨T.ne_of_wellFormed hT 3 0 (by decide), T.ne_of_wellFormed hT 3 7 (by decide),
      T.ne_of_wellFormed hT 3 8 (by decide)⟩
  · exact ⟨T.ne_of_wellFormed hT 4 0 (by decide), T.ne_of_wellFormed hT 4 7 (by decide),
      T.ne_of_wellFormed hT 4 8 (by decide)⟩
  · exact ⟨T.ne_of_wellFormed hT 5 0 (by decide), T.ne_of_wellFormed hT 5 7 (by decide),
      T.ne_of_wellFormed hT 5 8 (by decide)⟩
  · exact ⟨T.ne_of_wellFormed hT 6 0 (by decide), T.ne_of_wellFormed hT 6 7 (by decide),
      T.ne_of_wellFormed hT 6 8 (by decide)⟩
  · exact ⟨T.ne_of_wellFormed hT 9 0 (by decide), T.ne_of_wellFormed hT 9 7 (by decide),
      T.ne_of_wellFormed hT 9 8 (by decide)⟩
  · exact ⟨T.ne_of_wellFormed hT 10 0 (by decide), T.ne_of_wellFormed hT 10 7 (by decide),
      T.ne_of_wellFormed hT 10 8 (by decide)⟩
  · exact ⟨T.ne_of_wellFormed hT 11 0 (by decide), T.ne_of_wellFormed hT 11 7 (by decide),
      T.ne_of_wellFormed hT 11 8 (by decide)⟩

theorem decodeLength_nil : decodeLength [] = .error .errDecodeLength := by
  simp [decodeLength, decodeLengthLoop]

/-- Fewer than four bytes, each with the continuation bit: the length is incomplete. -/
theorem decodeLength_incomplete (rest : ByteSlice) (hlen : rest.length < 4)
    (hc : ∀ x ∈ rest, x &&& 128 ≠ 0) : decodeLength rest = .error .errDecodeLength := by
  match rest, hlen, hc with
  | [], _, _ => exact decodeLength_nil
  | [a], _, hc =>
    have ha := hc a (by simp)
    unfold decodeLength
    rw [decodeLengthLoop]; simp [ha]
    rw [decodeLengthLoop]; simp
  | [a, b], _, hc =>
    have ha := hc a (by simp)
    have hb := hc b (by simp)
    unfold decodeLength
    rw [decodeLengthLoop]; simp [ha]
    rw [decodeLengthLoop]; simp [hb]
    rw [decodeLengthLoop]; simp
  | [a, b, c], _, hc =>
    have ha := hc a (by simp)
    have hb := hc b (by simp)
    have hcc := hc c (by simp)
    unfold decodeLength
    rw [decodeLengthLoop]; simp [ha]
    rw [decodeLengthLoop]; simp [hb]
    rw [decodeLengthLoop]; simp [hcc]
    rw [decodeLengthLoop]; simp
  | _ :: _ :: _ :: _ :: _, h, _ => simp at h; omega

/-- C1 (amended): the SEND body round trip. For every SendPacket `f` with fields of
their Go types and every version, where the gated-off fields hold their zero value,
every length-prefixed string is at most 32767 bytes long and `ClientSeq < 2^32`,
`decodeSend` applied to the bytes `encodeSend` writes succeeds and returns `f`
(with the framer it was given), so all ten body fields are those of `f`. -/
theorem send_round_trip (S : SettingBits) (fr : Framer) (f : SendPacket) (version : Nat)
    (hT : f.WellTyped) (hG : f.GatedZero S version) (hF : f.StringsFit)
    (hSeq : f.ClientSeq < 2 ^ 32) :
    decodeSend S fr (encodeSend S f [] version) version = .ok { f with Framer := fr } := by
  rw [encodeSend_eq, List.nil_append, decodeSend_sendBody S fr f version hT hG hF,
    Nat.mod_eq_of_lt hSeq]

/-- Witness of C1 (amended): `exampleSend` at version 4. -/
theorem send_round_trip_witness :
    exampleSend.WellTyped ∧ exampleSend.GatedZero exampleBits 4 ∧ exampleSend.StringsFit ∧
    exampleSend.ClientSeq < 2 ^ 32 ∧
    decodeSend exampleBits Framer.zero (encodeSend exampleBits exampleSend [] 4) 4
      = .ok exampleSend :=
  ⟨by decide, by decide, by decide, by decide,
    send_round_trip exampleBits Framer.zero exampleSend 4 (by decide) (by decide) (by decide)
      (by decide)⟩

/-- Counterexample to C1 as stated: `wideSeqSend` meets every premise of the claim at
version 1, yet the packet decoded from its encoding has `ClientSeq = 0`, not `2^32`. -/
theorem send_round_trip_as_stated_fails :
    wideSeqSend.WellTyped ∧ wideSeqSend.GatedZero exampleBits 1 ∧
    decodeSend exampleBits Framer.zero (encodeSend exampleBits wideSeqSend [] 1) 1
      = .ok { wideSeqSend with ClientSeq := 0 } ∧
    wideSeqSend.ClientSeq ≠ 0 := by
  refine ⟨by decide, by decide, ?_, by decide⟩
  rw [encodeSend_eq, List.nil_append,
    decodeSend_sendBody exampleBits Framer.zero wideSeqSend 1 (by decide) (by decide) (by decide)]
  rfl

/-- C2 (amended): the RECV body round trip. For every RecvPacket `f` with fields of
their Go types and every version, where the gated-off fields and `ClientSeq` hold
their zero value and every length-prefixed string is at most 32767 bytes long,
`decodeRecv` applied to the bytes `encodeRecv` writes succeeds and returns `f` (with
the framer it was given), so all fifteen body fields are those of `f`. -/
theorem recv_round_trip (S : SettingBits) (fr : Framer) (f : RecvPacket) (version : Nat)
    (hT : f.WellTyped) (hG : f.GatedZero S version) (hF : f.StringsFit) :
    decodeRecv S fr (encodeRecv S f [] version) version = .ok { f with Framer := fr } := by
  rw [encodeRecv_eq, List.nil_append, decodeRecv_recvBody S fr f version hT hG hF]

/-- Witness of C2 (amended): `exampleRecv` at version 4. -/
theorem recv_round_trip_witness :
    exampleRecv.WellTyped ∧ exampleRecv.GatedZero exampleBits 4 ∧ exampleRecv.StringsFit ∧
    decodeRecv exampleBits Framer.zero (encodeRecv exampleBits exampleRecv [] 4) 4
      = .ok exampleRecv :=
  ⟨by decide, by decide, by decide,
    recv_round_trip exampleBits Framer.zero exampleRecv 4 (by decide) (by decide) (by decide)⟩

/-- Counterexample to C2 as stated: `longKeyRecv` meets every premise of the claim at
version 1, yet `decodeRecv` refuses its encoding: the 16-bit prefix of the 32768-byte
message key reads as the negative size -32768. -/
theorem recv_round_trip_as_stated_fails :
    longKeyRecv.WellTyped ∧ longKeyRecv.GatedZero exampleBits 1 ∧
    decodeRecv exampleBits Framer.zero (encodeRecv exampleBits longKeyRecv [] 1) 1
      = .error (.wrap (.negativeSize (-32768)) "解码MsgKey失败！") := by
  have hT : longKeyRecv.WellTyped := by
    simp only [RecvPacket.WellTyped, longKeyRecv]; norm_num
  have hG : longKeyRecv.GatedZero exampleBits 1 := by
    simp only [RecvPacket.GatedZero, longKeyRecv]; norm_num
  have hlen : longKeyRecv.MsgKey.length = 32768 := List.length_replicate 32768 0
  refine ⟨hT, hG, ?_⟩
  rw [encodeRecv_eq, List.nil_append,
    decodeRecv_longKey exampleBits Framer.zero longKeyRecv 1 (by omega) (by omega), hlen]
  norm_num

/-- C3: size agreement. For every SendPacket and every version, `encodeSendSize` is
the number of bytes `encodeSend` appends to the writer, and for every RecvPacket and
every version `encodeRecvSize` is the number of bytes `encodeRecv` appends. -/
theorem size_agreement (S : SettingBits) (f : SendPacket) (g : RecvPacket) (enc : Encoder)
    (version : Nat) :
    (encodeSend S f enc version).length = enc.length + encodeSendSize S f version ∧
    (encodeRecv S g enc version).length = enc.length + encodeRecvSize S g version := by
  rw [encodeSend_eq, encodeRecv_eq, List.length_append, List.length_append, sendBody_length,
    recvBody_length]
  exact ⟨rfl, rfl⟩

theorem decodeLength_one (b : Nat) (tl : ByteSlice) (h : b &&& 128 = 0) :
    decodeLength (b :: tl) = .ok (b &&& 127, 1) := by
  unfold decodeLength
  rw [decodeLengthLoop]
  have hb : (b &&& 127) % 4294967296 = b &&& 127 :=
    Nat.mod_eq_of_lt (lt_of_le_of_lt Nat.and_le_right (by norm_num))
  simp [h, hb]

/-- C4: the consumed count on success. For a buffer `b :: rest` whose header byte
carries a frame type with the registered decoder `decodeFunc`, whose length field
decodes to `r ≤ MaxRemaingLength` in `k` bytes and which holds at least `1 + k + r`
bytes, `DecodeFrame` calls `decodeFunc` on the body `data[1+k : 1+k+r]`; when that
succeeds it returns the frame, no error and the consumed count `1 + k + r`. -/
theorem decodeFrame_consumed {X : Type} (T : FrameTypes) (S : SettingBits)
    (C : PacketCodecs X) (hT : T.WellFormed) (b : Nat) (rest : ByteSlice) (version r k : Nat)
    (decodeFunc : PacketDecodeFunc X)
    (hreg : packetDecodeMap T S C (b >>> 4) = some decodeFunc)
    (hlen : decodeLength rest = .ok (r, k)) (hr : r ≤ MaxRemaingLength)
    (hfull : (b :: rest).length ≥ 1 + k + r) :
    DecodeFrame T S C (b :: rest) version =
      match decodeFunc (framerOf b r (b :: rest)) (slice (b :: rest) (1 + k) (1 + k + r))
          version with
      | .error err => some (none, 0, some (.packet (b >>> 4) err))
      | .ok frame => some (some frame, 1 + k + r, none) := by
  have hb : T.isBodyType (b >>> 4) := (registered_iff T S C _).1 (by rw [hreg]; rfl)
  obtain ⟨hU, hPi, hPo⟩ := bodyType_ne T hT _ hb
  rw [DecodeFrame_of_length T S C b rest version r k hPi hPo hlen, if_neg hU,
    if_neg (by omega), if_neg (by omega), hreg]
  have : r + 1 + k = 1 + k + r := by omega
  simp only [this]

/-- Witness of C4: a SEND frame of 14 bytes followed by two more bytes. -/
theorem decodeFrame_consumed_witness :
    exampleTypes.WellFormed ∧
    (packetDecodeMap exampleTypes exampleBits exampleCodecs (48 >>> 4)).isSome ∧
    decodeLength (12 :: (minimalSendBody ++ [112, 16])) = .ok (12, 1) ∧
    12 ≤ MaxRemaingLength ∧ (48 :: 12 :: (minimalSendBody ++ [112, 16])).length ≥ 1 + 1 + 12 ∧
    DecodeFrame exampleTypes exampleBits exampleCodecs (48 :: 12 :: (minimalSendBody ++ [112, 16])) 1
      = some (some (.send (minimalSend (framerOf 48 12 (48 :: 12 :: (minimalSendBody ++ [112, 16]))))),
          14, none) :=
  ⟨by decide, by decide, decodeLength_one 12 _ (by decide), by decide, by decide,
    (decodeFrame_consumed exampleTypes exampleBits exampleCodecs (by decide) 48
      (12 :: (minimalSendBody ++ [112, 16])) 1 12 1
      (fun f d v => (decodeSend exampleBits f d v).map Frame.send) rfl
      (decodeLength_one 12 _ (by decide)) (by decide) (by decide)).trans rfl⟩

/-- C5: the incomplete buffer. For a non-empty buffer `b :: rest` whose header byte
carries neither PING nor PONG, if the length field is incomplete (fewer than four
bytes follow the header and each has the continuation bit set; in particular when
none follows), or if it is complete with `r ≤ MaxRemaingLength` in `k` bytes and the
buffer is shorter than `1 + k + r`, `DecodeFrame` returns no frame, `0` consumed and a
nil error, at every version. -/
theorem decodeFrame_incomplete {X : Type} (T : FrameTypes) (S : SettingBits)
    (C : PacketCodecs X) (hU : T.UNKNOWN = 0) (b : Nat) (rest : ByteSlice) (version : Nat)
    (hPi : b >>> 4 ≠ T.PING) (hPo : b >>> 4 ≠ T.PONG)
    (h : (rest.length < 4 ∧ ∀ x ∈ rest, x &&& 128 ≠ 0) ∨
      (∃ r k, decodeLength rest = .ok (r, k) ∧ r ≤ MaxRemaingLength ∧
        (b :: rest).length < 1 + k + r)) :
    DecodeFrame T S C (b :: rest) version = some (none, 0, none) := by
  rcases h with ⟨h1, h2⟩ | ⟨r, k, hlen, hr, hshort⟩
  · exact DecodeFrame_of_lengthError T S C b rest version hU hPi hPo
      (decodeLength_incomplete rest h1 h2)
  · rw [DecodeFrame_of_length T S C b rest version r k hPi hPo hlen]
    split
    · rfl
    · rw [if_neg (by omega), if_pos (by omega)]

/-- Witness of C5: a SEND header, a length field of 12 and only eleven body bytes. -/
theorem decodeFrame_incomplete_witness :
    exampleTypes.UNKNOWN = 0 ∧ 48 >>> 4 ≠ exampleTypes.PING ∧ 48 >>> 4 ≠ exampleTypes.PONG ∧
    decodeLength (12 :: [0, 0, 0, 0, 7, 0, 0, 0, 0, 1, 0]) = .ok (12, 1) ∧
    (48 :: 12 :: [0, 0, 0, 0, 7, 0, 0, 0, 0, 1, 0]).length < 1 + 1 + 12 ∧
    DecodeFrame exampleTypes exampleBits exampleCodecs
      (48 :: 12 :: [0, 0, 0, 0, 7, 0, 0, 0, 0, 1, 0]) 1 = some (none, 0, none) :=
  ⟨rfl, by decide, by decide, decodeLength_one 12 _ (by decide), by decide,
    decodeFrame_incomplete exampleTypes exampleBits exampleCodecs rfl 48
      (12 :: [0, 0, 0, 0, 7, 0, 0, 0, 0, 1, 0]) 1 (by decide) (by decide)
      (Or.inr ⟨12, 1, decodeLength_one 12 _ (by decide), by decide, by decide⟩)⟩

/-- C6: the cap. For a buffer whose header byte carries one of the nine frame types
with a body and whose length field decodes to more than `MaxRemaingLength`,
`DecodeFrame` returns the too-long error, no frame and `0` consumed, whatever follows
the length field and whatever the per-type decoders are. -/
theorem decodeFrame_cap {X : Type} (T : FrameTypes) (S : SettingBits) (C : PacketCodecs X)
    (hT : T.WellFormed) (b : Nat) (rest : ByteSlice) (version r k : Nat)
    (hb : T.isBodyType (b >>> 4)) (hlen : decodeLength rest = .ok (r, k))
    (hr : r > MaxRemaingLength) :
    DecodeFrame T S C (b :: rest) version = some (none, 0, some (.tooLong MaxRemaingLength)) := by
  obtain ⟨hU, hPi, hPo⟩ := bodyType_ne T hT _ hb
  rw [DecodeFrame_of_length T S C b rest version r k hPi hPo hlen, if_neg hU, if_pos hr]

theorem digit_shift_mod (d m : Nat) (hm : m ≤ 21) :
    ((d &&& 127) <<< m) % 2 ^ 32 = (d &&& 127) <<< m := by
  apply Nat.mod_eq_of_lt
  rw [Nat.shiftLeft_eq]
  have h1 : d &&& 127 ≤ 127 := Nat.and_le_right
  have h2 : 2 ^ m ≤ 2 ^ 21 := Nat.pow_le_pow_right (by norm_num) hm
  calc (d &&& 127) * 2 ^ m ≤ 127 * 2 ^ 21 := Nat.mul_le_mul h1 h2
    _ < 2 ^ 32 := by norm_num

/-- Four bytes with the continuation bit: the loop of `decodeLength` stops at its
bound and returns their value, without an error. -/
theorem decodeLength_four (b0 b1 b2 b3 : Nat) (tl : ByteSlice) (h0 : b0 &&& 128 ≠ 0)
    (h1 : b1 &&& 128 ≠ 0) (h2 : b2 &&& 128 ≠ 0) (h3 : b3 &&& 128 ≠ 0) :
    decodeLength (b0 :: b1 :: b2 :: b3 :: tl) = .ok (lengthOfFour b0 b1 b2 b3, 5) := by
  unfold decodeLength lengthOfFour
  rw [decodeLengthLoop]
  simp only [show (0 : Nat) < 27 by norm_num, if_true, List.length_cons, ge_iff_le,
    Nat.le_zero_eq, Nat.add_one_ne_zero, if_false, List.getD_cons_zero, h0, Nat.zero_or,
    digit_shift_mod b0 0 (by norm_num), Nat.shiftLeft_zero]
  rw [decodeLengthLoop]
  simp only [show (0 + 7 : Nat) < 27 by norm_num, if_true, List.length_cons, ge_iff_le,
    if_false, List.getD_cons_zero, List.getD_cons_succ, h1,
    digit_shift_mod b1 7 (by norm_num), Nat.zero_add,
    show ¬ (tl.length + 1 + 1 + 1 + 1 ≤ 1) by omega]
  rw [decodeLengthLoop]
  simp only [show (7 + 7 : Nat) < 27 by norm_num, if_true, List.length_cons, ge_iff_le,
    if_false, List.getD_cons_zero, List.getD_cons_succ, h2,
    digit_shift_mod b2 14 (by norm_num), Nat.reduceAdd,
    show ¬ (tl.length + 1 + 1 + 1 + 1 ≤ 2) by omega]
  rw [decodeLengthLoop]
  simp only [show (14 + 7 : Nat) < 27 by norm_num, if_true, List.length_cons, ge_iff_le,
    if_false, List.getD_cons_zero, List.getD_cons_succ, h3,
    digit_shift_mod b3 21 (by norm_num), Nat.reduceAdd,
    show ¬ (tl.length + 1 + 1 + 1 + 1 ≤ 3) by omega]
  rw [decodeLengthLoop]
  have hb : (b0 &&& 127) % 4294967296 = b0 &&& 127 :=
    Nat.mod_eq_of_lt (lt_of_le_of_lt Nat.and_le_right (by norm_num))
  simp [hb]

/-- Three bytes with the continuation bit and a fourth without: the length field has
four bytes. -/
theorem decodeLength_fourEnd (b0 b1 b2 b3 : Nat) (tl : ByteSlice) (h0 : b0 &&& 128 ≠ 0)
    (h1 : b1 &&& 128 ≠ 0) (h2 : b2 &&& 128 ≠ 0) (h3 : b3 &&& 128 = 0) :
    decodeLength (b0 :: b1 :: b2 :: b3 :: tl) = .ok (lengthOfFour b0 b1 b2 b3, 4) := by
  unfold decodeLength lengthOfFour
  rw [decodeLengthLoop]
  simp only [show (0 : Nat) < 27 by norm_num, if_true, List.length_cons, ge_iff_le,
    Nat.le_zero_eq, Nat.add_one_ne_zero, if_false, List.getD_cons_zero, h0, Nat.zero_or,
    digit_shift_mod b0 0 (by norm_num), Nat.shiftLeft_zero]
  rw [decodeLengthLoop]
  simp only [show (0 + 7 : Nat) < 27 by norm_num, if_true, List.length_cons, ge_iff_le,
    if_false, List.getD_cons_zero, List.getD_cons_succ, h1,
    digit_shift_mod b1 7 (by norm_num), Nat.zero_add,
    show ¬ (tl.length + 1 + 1 + 1 + 1 ≤ 1) by omega]
  rw [decodeLengthLoop]
  simp only [show (7 + 7 : Nat) < 27 by norm_num, if_true, List.length_cons, ge_iff_le,
    if_false, List.getD_cons_zero, List.getD_cons_succ, h2,
    digit_shift_mod b2 14 (by norm_num), Nat.reduceAdd,
    show ¬ (tl.length + 1 + 1 + 1 + 1 ≤ 2) by omega]
  rw [decodeLengthLoop]
  have hb : (b0 &&& 127) % 2 ^ 32 = b0 &&& 127 :=
    Nat.mod_eq_of_lt (lt_of_le_of_lt Nat.and_le_right (by norm_num))
  simp only [show (14 + 7 : Nat) < 27 by norm_num, if_true, List.length_cons, ge_iff_le,
    if_false, List.getD_cons_zero, List.getD_cons_succ, h3,
    digit_shift_mod b3 21 (by norm_num), Nat.reduceAdd,
    show ¬ (tl.length + 1 + 1 + 1 + 1 ≤ 3) by omega, hb]

/-- Witness of C6: a SEND header whose length field declares 2^28 - 1 bytes. -/
theorem decodeFrame_cap_witness :
    exampleTypes.WellFormed ∧ exampleTypes.isBodyType (48 >>> 4) ∧
    decodeLength [255, 255, 255, 127] = .ok (268435455, 4) ∧ 268435455 > MaxRemaingLength ∧
    DecodeFrame exampleTypes exampleBits exampleCodecs [48, 255, 255, 255, 127] 4
      = some (none, 0, some (.tooLong MaxRemaingLength)) :=
  ⟨by decide, by decide,
    decodeLength_fourEnd 255 255 255 127 [] (by decide) (by decide) (by decide) (by decide),
    by decide,
    decodeFrame_cap exampleTypes exampleBits exampleCodecs (by decide) 48 [255, 255, 255, 127] 4
      (lengthOfFour 255 255 255 127) 4 (by decide)
      (decodeLength_fourEnd 255 255 255 127 [] (by decide) (by decide) (by decide) (by decide))
      (by decide)⟩

/-- The discriminant `SEND` is none of the four tested before it when encoding. -/
theorem send_ne (T : FrameTypes) (hT : T.WellFormed) :
    T.SEND ≠ T.PING ∧ T.SEND ≠ T.PONG ∧ T.SEND ≠ T.CONNECT ∧ T.SEND ≠ T.CONNACK :=
  ⟨T.ne_of_wellFormed hT 3 7 (by decide), T.ne_of_wellFormed hT 3 8 (by decide),
    T.ne_of_wellFormed hT 3 1 (by decide), T.ne_of_wellFormed hT 3 2 (by decide)⟩

/-- C7: the payload cap. Encoding a SendPacket fails if and only if its payload is
longer than `PayloadMaxSize`: then `encodeFrameWithWriter` returns the error and
leaves the writer as it was (not even the header byte is written) and `EncodeFrame`
returns the error and no bytes; otherwise both succeed with the header, the length
field and the body. -/
theorem encodeFrame_payload_cap {X : Type} (T : FrameTypes) (S : SettingBits)
    (C : PacketCodecs X) (hT : T.WellFormed) (f : SendPacket) (version : Nat) (w : Encoder) :
    encodeFrameWithWriter T S C w (.send f) version =
      (if f.Payload.length > PayloadMaxSize then
        some (w, some (.payloadTooLarge PayloadMaxSize))
      else
        some (encodeSend S f (encodeFrame T C (.send f) w (encodeSendSize S f version % 2 ^ 32))
          version, none)) ∧
    EncodeFrame T S C (.send f) version =
      (if f.Payload.length > PayloadMaxSize then
        some (none, some (.payloadTooLarge PayloadMaxSize))
      else
        some (some (encodeSend S f
          (encodeFrame T C (.send f) [] (encodeSendSize S f version % 2 ^ 32)) version), none)) := by
  obtain ⟨h1, h2, h3, h4⟩ := send_ne T hT
  have key : ∀ w : Encoder, encodeFrameWithWriter T S C w (.send f) version =
      (if f.Payload.length > PayloadMaxSize then
        some (w, some (.payloadTooLarge PayloadMaxSize))
      else
        some (encodeSend S f (encodeFrame T C (.send f) w (encodeSendSize S f version % 2 ^ 32))
          version, none)) := by
    intro w
    simp only [encodeFrameWithWriter, Frame.GetFrameType, h1, h2, h3, h4, or_self, if_false,
      if_true]
  refine ⟨key w, ?_⟩
  unfold EncodeFrame
  rw [key []]
  by_cases hp : f.Payload.length > PayloadMaxSize
  · rw [if_pos hp, if_pos hp]
  · rw [if_neg hp, if_neg hp]

/-- Witness of C7: a payload of 32768 bytes is refused and nothing is written. -/
theorem encodeFrame_payload_cap_witness :
    exampleTypes.WellFormed ∧
    EncodeFrame exampleTypes exampleBits exampleCodecs
      (.send { exampleSend with Payload := List.replicate 32768 0 }) 4
      = some (none, some (.payloadTooLarge PayloadMaxSize)) :=
  ⟨by decide,
    ((encodeFrame_payload_cap exampleTypes exampleBits exampleCodecs (by decide)
      { exampleSend with Payload := List.replicate 32768 0 } 4 []).2).trans
      (if_pos (by rw [show ({ exampleSend with Payload := List.replicate 32768 0 } :
        SendPacket).Payload.length = 32768 from List.length_replicate 32768 0]; decide))⟩

/-- Counterexample to C8 as stated: on five bytes that all have the continuation bit
set `decodeLength` returns a value and no error, and a buffer with a SEND header, a
length field of five continuation bytes and twelve body bytes is decoded into a
SEND frame of 18 bytes. -/
theorem five_continuation_bytes_accepted :
    decodeLength [128, 128, 128, 128, 128] = .ok (0, 5) ∧
    DecodeFrame exampleTypes exampleBits exampleCodecs
        (48 :: 140 :: 128 :: 128 :: 128 :: 128 :: minimalSendBody) 1
      = some (some (.send (minimalSend (framerOf 48 12
          (48 :: 140 :: 128 :: 128 :: 128 :: 128 :: minimalSendBody)))), 18, none) := by
  constructor
  · exact decodeLength_four 128 128 128 128 [128] (by decide) (by decide) (by decide)
      (by decide)
  · rw [DecodeFrame_of_length exampleTypes exampleBits exampleCodecs 48
      (140 :: 128 :: 128 :: 128 :: 128 :: minimalSendBody) 1 12 5 (by decide) (by decide)
      (decodeLength_four 140 128 128 128 (128 :: minimalSendBody) (by decide) (by decide)
        (by decide) (by decide))]
    rfl

/-- C8 (amended): the bound of the length field. On every byte sequence whose first
four bytes have the continuation bit set (so also when five or more have it)
`decodeLength` stops at its bound and returns, without an error, the value of the low
seven bits of these four bytes; and `DecodeFrame`, on a buffer whose header byte
carries a frame type other than UNKNOWN, PING and PONG followed by such a length
field, returns the too-long error and no frame whenever that value is above
`MaxRemaingLength`. -/
theorem decodeLength_continuation_bound (b0 b1 b2 b3 : Nat) (tl : ByteSlice)
    (h0 : b0 &&& 128 ≠ 0) (h1 : b1 &&& 128 ≠ 0) (h2 : b2 &&& 128 ≠ 0) (h3 : b3 &&& 128 ≠ 0) :
    (∃ k, decodeLength (b0 :: b1 :: b2 :: b3 :: tl) = .ok (lengthOfFour b0 b1 b2 b3, k)) ∧
    ∀ (X : Type) (T : FrameTypes) (S : SettingBits) (C : PacketCodecs X) (b version : Nat),
      b >>> 4 ≠ T.UNKNOWN → b >>> 4 ≠ T.PING → b >>> 4 ≠ T.PONG →
      lengthOfFour b0 b1 b2 b3 > MaxRemaingLength →
      DecodeFrame T S C (b :: b0 :: b1 :: b2 :: b3 :: tl) version
        = some (none, 0, some (.tooLong MaxRemaingLength)) := by
  have hlen := decodeLength_four b0 b1 b2 b3 tl h0 h1 h2 h3
  refine ⟨⟨5, hlen⟩, ?_⟩
  intro X T S C b version hU hPi hPo hbig
  rw [DecodeFrame_of_length T S C b _ version _ 5 hPi hPo hlen, if_neg hU, if_pos hbig]

/-- Witness of C8 (amended): five bytes 0xFF after a SEND header. -/
theorem decodeLength_continuation_bound_witness :
    (255 &&& 128 ≠ 0) ∧
    (∃ k, decodeLength [255, 255, 255, 255, 255] = .ok (lengthOfFour 255 255 255 255, k)) ∧
    DecodeFrame exampleTypes exampleBits exampleCodecs [48, 255, 255, 255, 255, 255] 4
      = some (none, 0, some (.tooLong MaxRemaingLength)) :=
  ⟨by decide,
    (decodeLength_continuation_bound 255 255 255 255 [255] (by decide) (by decide) (by decide)
      (by decide)).1,
    (decodeLength_continuation_bound 255 255 255 255 [255] (by decide) (by decide) (by decide)
      (by decide)).2 Unit exampleTypes exampleBits exampleCodecs 48 4 (by decide) (by decide)
      (by decide) (by decide)⟩

/-- C9 (the code at the failing input): for the remaining length 0 both encoders of
the length field write no byte at all, and `decodeLength` cannot read the field they
wrote. -/
theorem encodeVariable_zero_writes_nothing :
    encodeVariable 0 = [] ∧ encodeVariable2 0 [] = [] ∧
    decodeLength (encodeVariable 0) = .error .errDecodeLength := by
  have h1 : encodeVariable 0 = [] := by
    unfold encodeVariable; rw [encodeVariableLoop]; simp
  have h2 : encodeVariable2 0 [] = [] := by
    rw [encodeVariable2]; simp
  exact ⟨h1, h2, by rw [h1]; exact decodeLength_nil⟩

/-- A buffer whose header byte carries UNKNOWN, and a buffer whose header byte carries
the unregistered discriminant 15 with an incomplete body, are both reported as no
frame, zero consumed and a nil error. -/
theorem unknown_type_reported_as_no_frame :
    DecodeFrame exampleTypes exampleBits exampleCodecs [0, 0] 4 = some (none, 0, none) ∧
    (packetDecodeMap exampleTypes exampleBits exampleCodecs (240 >>> 4)).isNone ∧
    DecodeFrame exampleTypes exampleBits exampleCodecs [240, 5] 4 = some (none, 0, none) := by
  refine ⟨?_, by decide, ?_⟩
  · rw [DecodeFrame_of_length exampleTypes exampleBits exampleCodecs 0 [0] 4 0 1 (by decide)
      (by decide) (decodeLength_one 0 [] (by decide))]
    rfl
  · rw [DecodeFrame_of_length exampleTypes exampleBits exampleCodecs 240 [5] 4 5 1 (by decide)
      (by decide) (decodeLength_one 5 [] (by decide))]
    rfl

/-- A frame type without a decoder, as `DecodeFrame` treats it. For a buffer whose
header byte carries neither PING nor PONG and a discriminant with no entry in
`packetDecodeMap`, whose length field decodes to `r ≤ MaxRemaingLength` in `k` bytes
and which holds at least `1 + k + r` bytes, `DecodeFrame` returns the
unsupported-frame-type error, no frame and `0` consumed, unless the discriminant is
UNKNOWN, for which it returns no frame, `0` consumed and a nil error. -/
theorem decodeFrame_unregistered {X : Type} (T : FrameTypes) (S : SettingBits)
    (C : PacketCodecs X) (b : Nat) (rest : ByteSlice) (version r k : Nat)
    (hPi : b >>> 4 ≠ T.PING) (hPo : b >>> 4 ≠ T.PONG)
    (hreg : packetDecodeMap T S C (b >>> 4) = none)
    (hlen : decodeLength rest = .ok (r, k)) (hr : r ≤ MaxRemaingLength)
    (hfull : (b :: rest).length ≥ 1 + k + r) :
    DecodeFrame T S C (b :: rest) version =
      if b >>> 4 = T.UNKNOWN then some (none, 0, none)
      else some (none, 0, some (.unsupported (b >>> 4))) := by
  rw [DecodeFrame_of_length T S C b rest version r k hPi hPo hlen]
  split
  · rfl
  · rw [if_neg (by omega), if_neg (by omega), hreg]

/-- An instance of `decodeFrame_unregistered`: the discriminant 15 with a complete
frame of 3 bytes. -/
theorem decodeFrame_unregistered_witness :
    240 >>> 4 ≠ exampleTypes.PING ∧ 240 >>> 4 ≠ exampleTypes.PONG ∧
    (packetDecodeMap exampleTypes exampleBits exampleCodecs (240 >>> 4)).isNone ∧
    decodeLength [1, 9] = .ok (1, 1) ∧ 1 ≤ MaxRemaingLength ∧
    [240, 1, 9].length ≥ 1 + 1 + 1 ∧
    DecodeFrame exampleTypes exampleBits exampleCodecs [240, 1, 9] 4
      = some (none, 0, some (.unsupported 15)) :=
  ⟨by decide, by decide, by decide, decodeLength_one 1 [9] (by decide), by decide, by decide,
    (decodeFrame_unregistered exampleTypes exampleBits exampleCodecs 240 [1, 9] 4 1 1
      (by decide) (by decide) rfl (decodeLength_one 1 [9] (by decide)) (by decide)
      (by decide)).trans rfl⟩

theorem low_digit_clear : ∀ x, x < 128 → x &&& 128 = 0 := by decide

theorem marked_digit_set : ∀ x, x < 128 → (x ||| 128) &&& 128 ≠ 0 := by decide

theorem encodeVariableLoop_append (size : Nat) (ret : ByteSlice) :
    encodeVariableLoop size ret = ret ++ encodeVariableLoop size [] := by
  induction size using Nat.strong_induction_on generalizing ret with
  | _ n ih =>
    rw [encodeVariableLoop, encodeVariableLoop.eq_1 n []]
    by_cases hn : n > 0
    · simp only [hn, if_true]
      rw [ih (n / 128) (by omega) (ret ++ _), ih (n / 128) (by omega) ([] ++ _)]
      simp
    · simp [hn]

theorem encodeVariable_pos (n : Nat) (hn : n > 0) :
    encodeVariable n =
      (if n / 128 > 0 then n % 128 ||| 128 else n % 128) :: encodeVariable (n / 128) := by
  unfold encodeVariable
  rw [encodeVariableLoop, if_pos hn, encodeVariableLoop_append]
  simp

/-- The two encoders of the length field write the same bytes. -/
theorem encodeVariable2_eq (n : Nat) (enc : Encoder) :
    encodeVariable2 n enc = enc ++ encodeVariable n := by
  induction n using Nat.strong_induction_on generalizing enc with
  | _ n ih =>
    rw [encodeVariable2]
    by_cases hn : n > 0
    · rw [if_pos hn, encodeVariable_pos n hn, ih (n / 128) (by omega)]
      have hd : (if n / 128 > 0 then n % 128 ||| 128 else n % 128) % 256
          = (if n / 128 > 0 then n % 128 ||| 128 else n % 128) := by
        apply Nat.mod_eq_of_lt
        split
        · exact Nat.or_lt_two_pow (n := 8) (by omega) (by norm_num)
        · omega
      simp [Encoder.WriteByte, hd]
    · have h0 : n = 0 := by omega
      subst h0
      rw [if_neg hn]
      unfold encodeVariable
      rw [encodeVariableLoop]
      simp

/-- For a remaining length from 1 below `128 ^ j` the length field has between 1 and
`j` bytes, every byte but the last with the continuation bit set and the last with it
clear. -/
theorem encodeVariable_shape (j n : Nat) (hn : 0 < n) (hj : n < 128 ^ j) :
    1 ≤ (encodeVariable n).length ∧ (encodeVariable n).length ≤ j ∧
    WellTerminated (encodeVariable n) := by
  induction j generalizing n with
  | zero => simp at hj; omega
  | succ j ih =>
    rw [encodeVariable_pos n hn]
    by_cases hq : n / 128 > 0
    · have hlt : n / 128 < 128 ^ j := by
        rw [Nat.div_lt_iff_lt_mul (by norm_num)]
        rw [pow_succ] at hj
        exact hj
      obtain ⟨h1, h2, init, last, he, hi, hl⟩ := ih (n / 128) hq hlt
      refine ⟨by simp, by simp; omega, (n % 128 ||| 128) :: init, last, ?_, ?_, hl⟩
      · rw [if_pos hq, he]; rfl
      · intro b hb
        rcases List.mem_cons.1 hb with h | h
        · rw [h]; exact marked_digit_set _ (Nat.mod_lt _ (by norm_num))
        · exact hi b h
    · have h0 : n / 128 = 0 := by omega
      have he : encodeVariable (n / 128) = [] := by
        rw [h0]; unfold encodeVariable; rw [encodeVariableLoop]; simp
      rw [if_neg hq, he]
      refine ⟨by simp, by simp, [], n % 128, rfl, by simp, ?_⟩
      exact low_digit_clear _ (Nat.mod_lt _ (by norm_num))

/-- For every remaining length from 1 to `MaxRemaingLength` the length field has
between 1 and 3 bytes and is well terminated. -/
theorem encodeVariable_within_cap (n : Nat) (hn : 0 < n) (hm : n ≤ MaxRemaingLength) :
    1 ≤ (encodeVariable n).length ∧ (encodeVariable n).length ≤ 3 ∧
    WellTerminated (encodeVariable n) :=
  encodeVariable_shape 3 n hn (by unfold MaxRemaingLength at hm; norm_num; omega)

/-! ## Encoding and decoding at the edges of the frame-type table -/

/-- A frame whose type is none of the eleven that `encodeFrameWithWriter` tests falls
through its `switch`: nothing is written and the error is nil. -/
theorem encodeFrameWithWriter_fallthrough {X : Type} (T : FrameTypes) (S : SettingBits)
    (C : PacketCodecs X) (w : Encoder) (frame : Frame X) (version : Nat)
    (h : frame.GetFrameType T C ∉ [T.PING, T.PONG, T.CONNECT, T.CONNACK, T.SEND, T.SENDACK,
      T.RECV, T.RECVACK, T.DISCONNECT, T.SUB, T.SUBACK]) :
    encodeFrameWithWriter T S C w frame version = some (w, none) := by
  simp only [List.mem_cons, List.mem_singleton, List.not_mem_nil, or_false, not_or] at h
  obtain ⟨h1, h2, h3, h4, h5, h6, h7, h8, h9, h10, h11⟩ := h
  simp only [encodeFrameWithWriter, h1, h2, h3, h4, h5, h6, h7, h8, h9, h10, h11, or_self,
    if_false]

/-- C11 (the code at the failing input): a bare `Framer` of type UNKNOWN is a frame
whose type is none of the eleven; `EncodeFrame` returns for it an empty output and a
nil error, and `WriteFrame` writes nothing and returns a nil error. -/
theorem encode_unknown_type_succeeds :
    Frame.GetFrameType exampleTypes exampleCodecs (Frame.framer Framer.zero)
      = exampleTypes.UNKNOWN ∧
    EncodeFrame exampleTypes exampleBits exampleCodecs (Frame.framer Framer.zero) 4
      = some (some [], none) ∧
    WriteFrame exampleTypes exampleBits exampleCodecs [] (Frame.framer Framer.zero) 4
      = some ([], none) := by
  have h := encodeFrameWithWriter_fallthrough exampleTypes exampleBits exampleCodecs []
    (Frame.framer Framer.zero) 4 (by decide)
  refine ⟨rfl, ?_, h⟩
  unfold EncodeFrame
  rw [h]

/-- C12: heartbeat frames. `EncodeFrame` of a Ping (of a Pong) frame yields the single
byte `PING << 4` (`PONG << 4`); on every buffer whose first byte has the frame-type
nibble PING (PONG), whatever follows, `DecodeFrame` returns a Ping (Pong) frame, the
consumed count 1 and a nil error; so on two PING bytes the first call returns Ping
with consumed 1 and the call on the remaining one-byte slice does so again. -/
theorem heartbeat_frames {X : Type} (T : FrameTypes) (S : SettingBits) (C : PacketCodecs X)
    (hT : T.WellFormed) (version : Nat) :
    (∀ f : Framer,
      EncodeFrame T S C (.ping f) version = some (some [(T.PING <<< 4) % 256], none) ∧
      EncodeFrame T S C (.pong f) version = some (some [(T.PONG <<< 4) % 256], none)) ∧
    (∀ (b : Nat) (rest : ByteSlice), b >>> 4 = T.PING →
      DecodeFrame T S C (b :: rest) version
        = some (some (.ping (framerOf b 0 (b :: rest))), 1, none)) ∧
    (∀ (b : Nat) (rest : ByteSlice), b >>> 4 = T.PONG →
      DecodeFrame T S C (b :: rest) version
        = some (some (.pong (framerOf b 0 (b :: rest))), 1, none)) ∧
    (∀ b1 b2 : Nat, b1 >>> 4 = T.PING → b2 >>> 4 = T.PING →
      DecodeFrame T S C [b1, b2] version = some (some (.ping (framerOf b1 0 [b1, b2])), 1, none) ∧
      DecodeFrame T S C ([b1, b2].drop 1) version
        = some (some (.ping (framerOf b2 0 [b2])), 1, none)) := by
  have hPU : T.PING ≠ T.UNKNOWN := T.ne_of_wellFormed hT 7 0 (by decide)
  have hOU : T.PONG ≠ T.UNKNOWN := T.ne_of_wellFormed hT 8 0 (by decide)
  have hOP : T.PONG ≠ T.PING := T.ne_of_wellFormed hT 8 7 (by decide)
  have hping : ∀ (b : Nat) (rest : ByteSlice), b >>> 4 = T.PING →
      DecodeFrame T S C (b :: rest) version
        = some (some (.ping (framerOf b 0 (b :: rest))), 1, none) := by
    intro b rest hb
    simp [DecodeFrame, decodeFramer, FramerFromUint8, framerOf, hb, hPU]
  refine ⟨?_, hping, ?_, ?_⟩
  · intro f
    constructor <;> simp [EncodeFrame, encodeFrameWithWriter, Frame.GetFrameType,
      Encoder.WriteByte]
  · intro b rest hb
    simp [DecodeFrame, decodeFramer, FramerFromUint8, framerOf, hb, hOU, hOP]
  · intro b1 b2 h1 h2
    exact ⟨hping b1 [b2] h1, hping b2 [] h2⟩

/-- Witness of C12: the discriminant 7 as PING, on the buffer of two bytes 0x70. -/
theorem heartbeat_frames_witness :
    exampleTypes.WellFormed ∧
    EncodeFrame exampleTypes exampleBits exampleCodecs (.ping Framer.zero) 4
      = some (some [112], none) ∧
    DecodeFrame exampleTypes exampleBits exampleCodecs [112, 112] 4
      = some (some (.ping (framerOf 112 0 [112, 112])), 1, none) ∧
    DecodeFrame exampleTypes exampleBits exampleCodecs [112] 4
      = some (some (.ping (framerOf 112 0 [112])), 1, none) :=
  ⟨by decide,
    ((heartbeat_frames exampleTypes exampleBits exampleCodecs (by decide) 4).1 Framer.zero).1,
    ((heartbeat_frames exampleTypes exampleBits exampleCodecs (by decide) 4).2.2.2 112 112
      (by decide) (by decide)).1,
    ((heartbeat_frames exampleTypes exampleBits exampleCodecs (by decide) 4).2.2.2 112 112
      (by decide) (by decide)).2⟩

/-- On a non-empty buffer `decodeFramer` returns normally. -/
theorem decodeFramer_nonempty_returns (T : FrameTypes) (b : Nat) (rest : ByteSlice) :
    ∃ x, decodeFramer T (b :: rest) = some x := by
  unfold decodeFramer
  simp only
  split_ifs
  · cases decodeLength (List.drop 1 (b :: rest)) with
    | error e => simp only; split_ifs <;> exact ⟨_, rfl⟩
    | ok rk => exact ⟨_, rfl⟩
  · exact ⟨_, rfl⟩

/-- On a non-empty buffer `DecodeFrame` returns normally. -/
theorem DecodeFrame_nonempty_returns {X : Type} (T : FrameTypes) (S : SettingBits)
    (C : PacketCodecs X) (b : Nat) (rest : ByteSlice) (version : Nat) :
    (DecodeFrame T S C (b :: rest) version).isSome := by
  obtain ⟨⟨framer, k, err⟩, hx⟩ := decodeFramer_nonempty_returns T b rest
  unfold DecodeFrame
  rw [hx]
  simp only
  repeat' (first | rfl | split)

/-- C13 (the code at the failing input): on the empty slice `decodeFramer` indexes
`data[0]`, so `DecodeFrame` panics instead of returning no frame, `0` and a nil
error. -/
theorem decodeFrame_empty_panics {X : Type} (T : FrameTypes) (S : SettingBits)
    (C : PacketCodecs X) (version : Nat) :
    decodeFramer T [] = none ∧ DecodeFrame T S C [] version = none :=
  ⟨rfl, rfl⟩

/-! ## The cursor reader in terms of the remaining bytes -/

theorem remaining_short_iff (d : Decoder) (w : Nat) (hw : 0 < w) :
    d.offset + w > d.p.length ↔ d.remaining.length < w := by
  unfold Decoder.remaining
  rw [List.length_drop]
  omega

theorem slice_eq_take (d : Decoder) (w : Nat) :
    slice d.p d.offset (d.offset + w) = d.remaining.take w := by
  unfold slice Decoder.remaining
  rw [Nat.add_sub_cancel_left]

theorem remaining_isBytes (d : Decoder) (hb : IsBytes d.p) : IsBytes d.remaining :=
  fun b h => hb b (List.mem_of_mem_drop h)

theorem take_isBytes (l : ByteSlice) (w : Nat) (hb : IsBytes l) : IsBytes (l.take w) :=
  fun b h => hb b (List.mem_of_mem_take h)

theorem pattern16_bigEndian (l : ByteSlice) (hl : l.length = 2) (hb : IsBytes l) :
    ((l.getD 0 0 <<< 8) % 2 ^ 16) ||| l.getD 1 0 = bigEndian l := by
  match l, hl, hb with
  | [b0, b1], _, hb =>
    have h0 : b0 < 256 := hb b0 (by simp)
    have h1 : b1 < 256 := hb b1 (by simp)
    simp only [List.getD_cons_zero, List.getD_cons_succ, bigEndian, List.foldl_cons,
      List.foldl_nil]
    rw [shl_mod b0 8 16 (by omega), orShift b0 b1 8 (by omega)]
    omega

theorem pattern32_bigEndian (l : ByteSlice) (hl : l.length = 4) (hb : IsBytes l) :
    pattern32 l = bigEndian l := by
  match l, hl, hb with
  | [b0, b1, b2, b3], _, hb =>
    rw [pattern32_bytes b0 b1 b2 b3 (hb b0 (by simp)) (hb b1 (by simp)) (hb b2 (by simp))
      (hb b3 (by simp))]
    simp only [bigEndian, List.foldl_cons, List.foldl_nil]
    omega

theorem pattern64_bigEndian (l : ByteSlice) (hl : l.length = 8) (hb : IsBytes l) :
    pattern64 l = bigEndian l := by
  match l, hl, hb with
  | [b0, b1, b2, b3, b4, b5, b6, b7], _, hb =>
    rw [pattern64_bytes b0 b1 b2 b3 b4 b5 b6 b7 (hb b0 (by simp)) (hb b1 (by simp))
      (hb b2 (by simp)) (hb b3 (by simp)) (hb b4 (by simp)) (hb b5 (by simp)) (hb b6 (by simp))
      (hb b7 (by simp))]
    simp only [bigEndian, List.foldl_cons, List.foldl_nil]
    omega

/-- The big-endian value of `w` bytes is below `256 ^ w`. -/
theorem bigEndian_lt (l : ByteSlice) (hb : IsBytes l) : bigEndian l < 256 ^ l.length := by
  induction l using List.reverseRecOn with
  | nil => simp [bigEndian]
  | append_singleton l b ih =>
    have h1 := ih (fun x hx => hb x (List.mem_append_left _ hx))
    have h2 : b < 256 := hb b (by simp)
    unfold bigEndian at h1 ⊢
    rw [List.foldl_append, List.length_append, List.length_singleton, pow_succ]
    simp only [List.foldl_cons, List.foldl_nil]
    have h3 : List.foldl (fun acc b => acc * 256 + b) 0 l + 1 ≤ 256 ^ l.length := h1
    calc List.foldl (fun acc b => acc * 256 + b) 0 l * 256 + b
        < (List.foldl (fun acc b => acc * 256 + b) 0 l + 1) * 256 := by omega
      _ ≤ 256 ^ l.length * 256 := Nat.mul_le_mul_right _ h3

theorem Decoder.Uint8_eq (d : Decoder) :
    d.Uint8 = if d.remaining.length < 1 then (.error (.underrun (d.offset + 1) d.p.length), d)
      else (.ok (bigEndian (d.remaining.take 1)), d.advance 1) := by
  unfold Decoder.Uint8
  by_cases h : d.offset + 1 > d.p.length
  · rw [if_pos h, if_pos ((remaining_short_iff d 1 (by norm_num)).1 h)]
  · rw [if_neg h, if_neg (fun hc => h ((remaining_short_iff d 1 (by norm_num)).2 hc))]
    have hlt : d.offset < d.p.length := by omega
    have : bigEndian (d.remaining.take 1) = d.p.getD d.offset 0 := by
      unfold Decoder.remaining
      rw [List.drop_eq_getElem_cons hlt]
      simp only [bigEndian, List.take_succ_cons, List.take_zero, List.foldl_cons,
        List.foldl_nil, Nat.zero_mul, Nat.zero_add, List.getD_eq_getElem?_getD,
        List.getElem?_eq_getElem hlt, Option.getD_some]
    rw [this]
    rfl

theorem Decoder.Int16_eq (d : Decoder) (hb : IsBytes d.p) :
    d.Int16 = if d.remaining.length < 2 then (.error (.underrun (d.offset + 2) d.p.length), d)
      else (.ok (toSigned 16 (bigEndian (d.remaining.take 2))), d.advance 2) := by
  unfold Decoder.Int16
  by_cases h : d.offset + 2 > d.p.length
  · rw [if_pos h, if_pos ((remaining_short_iff d 2 (by norm_num)).1 h)]
  · have h2 : ¬ d.remaining.length < 2 := fun hc => h ((remaining_short_iff d 2 (by norm_num)).2 hc)
    rw [if_neg h, if_neg h2]
    simp only [slice_eq_take]
    rw [pattern16_bigEndian _ (by rw [List.length_take]; omega)
      (take_isBytes _ _ (remaining_isBytes d hb))]
    rfl

theorem Decoder.Int32_eq (d : Decoder) (hb : IsBytes d.p) :
    d.Int32 = if d.remaining.length < 4 then (.error (.underrun (d.offset + 4) d.p.length), d)
      else (.ok (toSigned 32 (bigEndian (d.remaining.take 4))), d.advance 4) := by
  unfold Decoder.Int32
  by_cases h : d.offset + 4 > d.p.length
  · rw [if_pos h, if_pos ((remaining_short_iff d 4 (by norm_num)).1 h)]
  · have h2 : ¬ d.remaining.length < 4 := fun hc => h ((remaining_short_iff d 4 (by norm_num)).2 hc)
    rw [if_neg h, if_neg h2]
    simp only [slice_eq_take]
    rw [pattern32_bigEndian _ (by rw [List.length_take]; omega)
      (take_isBytes _ _ (remaining_isBytes d hb))]
    rfl

theorem Decoder.Int64_eq (d : Decoder) (hb : IsBytes d.p) :
    d.Int64 = if d.remaining.length < 8 then (.error (.underrun (d.offset + 8) d.p.length), d)
      else (.ok (toSigned 64 (bigEndian (d.remaining.take 8))), d.advance 8) := by
  unfold Decoder.Int64
  by_cases h : d.offset + 8 > d.p.length
  · rw [if_pos h, if_pos ((remaining_short_iff d 8 (by norm_num)).1 h)]
  · have h2 : ¬ d.remaining.length < 8 := fun hc => h ((remaining_short_iff d 8 (by norm_num)).2 hc)
    rw [if_neg h, if_neg h2]
    simp only [slice_eq_take]
    rw [pattern64_bigEndian _ (by rw [List.length_take]; omega)
      (take_isBytes _ _ (remaining_isBytes d hb))]
    rfl

theorem Decoder.Uint64_eq (d : Decoder) (hb : IsBytes d.p) :
    d.Uint64 = if d.remaining.length < 8 then (.error (.underrun (d.offset + 8) d.p.length), d)
      else (.ok (bigEndian (d.remaining.take 8)), d.advance 8) := by
  unfold Decoder.Uint64
  by_cases h : d.offset + 8 > d.p.length
  · rw [if_pos h, if_pos ((remaining_short_iff d 8 (by norm_num)).1 h)]
  · have h2 : ¬ d.remaining.length < 8 := fun hc => h ((remaining_short_iff d 8 (by norm_num)).2 hc)
    rw [if_neg h, if_neg h2]
    simp only [slice_eq_take]
    have hlen : (d.remaining.take 8).length = 8 := by rw [List.length_take]; omega
    have hbt := take_isBytes _ 8 (remaining_isBytes d hb)
    rw [pattern64_bigEndian _ hlen hbt]
    have hlt := bigEndian_lt _ hbt
    rw [hlen] at hlt
    rw [Nat.mod_eq_of_lt (by norm_num at hlt ⊢; exact hlt)]
    rfl

theorem toUnsigned_toSigned16 (u : Nat) : toUnsigned 16 (toSigned 16 u) = u % 2 ^ 16 := by
  unfold toUnsigned toSigned
  split <;> omega

theorem Decoder.Uint16_eq (d : Decoder) (hb : IsBytes d.p) :
    d.Uint16 = if d.remaining.length < 2 then (.error (.underrun (d.offset + 2) d.p.length), d)
      else (.ok (bigEndian (d.remaining.take 2)), d.advance 2) := by
  unfold Decoder.Uint16
  rw [Decoder.Int16_eq d hb]
  by_cases h : d.remaining.length < 2
  · simp only [h, if_true]
  · simp only [h, if_false]
    have hlen : (d.remaining.take 2).length = 2 := by rw [List.length_take]; omega
    have hlt := bigEndian_lt _ (take_isBytes _ 2 (remaining_isBytes d hb))
    rw [hlen] at hlt
    rw [toUnsigned_toSigned16, Nat.mod_eq_of_lt (by norm_num at hlt ⊢; exact hlt)]

theorem Decoder.Uint32_eq (d : Decoder) (hb : IsBytes d.p) :
    d.Uint32 = if d.remaining.length < 4 then (.error (.underrun (d.offset + 4) d.p.length), d)
      else (.ok (bigEndian (d.remaining.take 4)), d.advance 4) := by
  unfold Decoder.Uint32
  rw [Decoder.Int32_eq d hb]
  by_cases h : d.remaining.length < 4
  · simp only [h, if_true]
  · simp only [h, if_false]
    have hlen : (d.remaining.take 4).length = 4 := by rw [List.length_take]; omega
    have hlt := bigEndian_lt _ (take_isBytes _ 4 (remaining_isBytes d hb))
    rw [hlen] at hlt
    rw [toUnsigned_toSigned32, Nat.mod_eq_of_lt (by norm_num at hlt ⊢; exact hlt)]

theorem Decoder.Binary_eq (d : Decoder) (hb : IsBytes d.p) :
    d.Binary =
      if d.remaining.length < 2 then (.error (.underrun (d.offset + 2) d.p.length), d)
      else if toSigned 16 (bigEndian (d.remaining.take 2)) < 0 then
        (.error (.negativeSize (toSigned 16 (bigEndian (d.remaining.take 2)))), d.advance 2)
      else if (d.remaining.drop 2).length
          < (toSigned 16 (bigEndian (d.remaining.take 2))).toNat then
        (.error (.underrun
          (d.offset + 2 + (toSigned 16 (bigEndian (d.remaining.take 2))).toNat) d.p.length),
          d.advance 2)
      else
        (.ok ((d.remaining.drop 2).take (toSigned 16 (bigEndian (d.remaining.take 2))).toNat),
          d.advance (2 + (toSigned 16 (bigEndian (d.remaining.take 2))).toNat)) := by
  unfold Decoder.Binary
  rw [Decoder.Int16_eq d hb]
  by_cases h : d.remaining.length < 2
  · simp only [h, if_true]
  · simp only [h, if_false]
    generalize toSigned 16 (bigEndian (d.remaining.take 2)) = s
    by_cases hs : s < 0
    · simp only [hs, if_true]
    · simp only [hs, if_false]
      have hlen : (d.remaining.drop 2).length = d.p.length - d.offset - 2 := by
        unfold Decoder.remaining
        rw [List.length_drop, List.length_drop]
      have hroom : d.offset + 2 ≤ d.p.length := by
        have := (remaining_short_iff d 2 (by norm_num)).not.2 h
        omega
      by_cases hu : (d.remaining.drop 2).length < s.toNat
      · rw [if_pos hu, if_pos (by simp only [Decoder.advance]; omega)]
        rfl
      · rw [if_neg hu, if_neg (by simp only [Decoder.advance]; omega)]
        simp only [Decoder.advance, slice, Decoder.remaining, List.drop_drop,
          Nat.add_sub_cancel_left, Nat.add_assoc]
        rw [show d.offset + (2 + s.toNat) - (d.offset + 2) = s.toNat by omega]

theorem Decoder.String_eq_Binary (d : Decoder) : d.String = d.Binary := by
  unfold Decoder.String
  split <;> simp_all

/-- C14: the length-prefixed read. On a buffer of bytes, `Binary` fails (leaving the
cursor in place) when fewer than 2 bytes remain; otherwise, with `s` the big-endian
signed 16-bit value of the next two bytes, it fails with the negative-size error when
`s < 0`, taking no bytes, fails when fewer than `s` bytes remain after the prefix, and
otherwise returns exactly the next `s` bytes after the prefix with the offset advanced
by `2 + s`; and `String` does what `Binary` does. -/
theorem binary_read (d : Decoder) (hb : IsBytes d.p) :
    d.Binary =
      (if d.remaining.length < 2 then (.error (.underrun (d.offset + 2) d.p.length), d)
      else if toSigned 16 (bigEndian (d.remaining.take 2)) < 0 then
        (.error (.negativeSize (toSigned 16 (bigEndian (d.remaining.take 2)))), d.advance 2)
      else if (d.remaining.drop 2).length
          < (toSigned 16 (bigEndian (d.remaining.take 2))).toNat then
        (.error (.underrun
          (d.offset + 2 + (toSigned 16 (bigEndian (d.remaining.take 2))).toNat) d.p.length),
          d.advance 2)
      else
        (.ok ((d.remaining.drop 2).take (toSigned 16 (bigEndian (d.remaining.take 2))).toNat),
          d.advance (2 + (toSigned 16 (bigEndian (d.remaining.take 2))).toNat))) ∧
    d.String = d.Binary :=
  ⟨Decoder.Binary_eq d hb, Decoder.String_eq_Binary d⟩

/-- Witness of C14: the prefix 0x80 0x00 is the size -32768 and is refused. -/
theorem binary_read_witness :
    IsBytes [128, 0, 7, 8] ∧
    (NewDecoder [128, 0, 7, 8]).Binary
      = (.error (.negativeSize (-32768)), (NewDecoder [128, 0, 7, 8]).advance 2) :=
  ⟨by decide, (binary_read (NewDecoder [128, 0, 7, 8]) (by decide)).1.trans (by decide)⟩

/-- C16: the fixed-width reads. On a buffer of bytes each read of width `w` (1 for
`Uint8`, 2 for `Int16` and `Uint16`, 4 for `Int32` and `Uint32`, 8 for `Int64` and
`Uint64`) fails, leaving the cursor in place, exactly when fewer than `w` bytes
remain; otherwise it returns the big-endian value of the next `w` bytes, read in
two's complement by the signed forms, and advances the offset by `w`. -/
theorem fixed_width_reads (d : Decoder) (hb : IsBytes d.p) :
    (d.Uint8 =
      if d.remaining.length < 1 then (.error (.underrun (d.offset + 1) d.p.length), d)
      else (.ok (bigEndian (d.remaining.take 1)), d.advance 1)) ∧
    (d.Int16 =
      if d.remaining.length < 2 then (.error (.underrun (d.offset + 2) d.p.length), d)
      else (.ok (toSigned 16 (bigEndian (d.remaining.take 2))), d.advance 2)) ∧
    (d.Uint16 =
      if d.remaining.length < 2 then (.error (.underrun (d.offset + 2) d.p.length), d)
      else (.ok (bigEndian (d.remaining.take 2)), d.advance 2)) ∧
    (d.Int32 =
      if d.remaining.length < 4 then (.error (.underrun (d.offset + 4) d.p.length), d)
      else (.ok (toSigned 32 (bigEndian (d.remaining.take 4))), d.advance 4)) ∧
    (d.Uint32 =
      if d.remaining.length < 4 then (.error (.underrun (d.offset + 4) d.p.length), d)
      else (.ok (bigEndian (d.remaining.take 4)), d.advance 4)) ∧
    (d.Int64 =
      if d.remaining.length < 8 then (.error (.underrun (d.offset + 8) d.p.length), d)
      else (.ok (toSigned 64 (bigEndian (d.remaining.take 8))), d.advance 8)) ∧
    (d.Uint64 =
      if d.remaining.length < 8 then (.error (.underrun (d.offset + 8) d.p.length), d)
      else (.ok (bigEndian (d.remaining.take 8)), d.advance 8)) :=
  ⟨Decoder.Uint8_eq d, Decoder.Int16_eq d hb, Decoder.Uint16_eq d hb, Decoder.Int32_eq d hb,
    Decoder.Uint32_eq d hb, Decoder.Int64_eq d hb, Decoder.Uint64_eq d hb⟩

/-- Witness of C16: `Int16` of the bytes 0x80 0x00 is -32768. -/
theorem fixed_width_reads_witness :
    IsBytes [128, 0, 7] ∧
    (NewDecoder [128, 0, 7]).Int16 = (.ok (-32768), (NewDecoder [128, 0, 7]).advance 2) :=
  ⟨by decide, (fixed_width_reads (NewDecoder [128, 0, 7]) (by decide)).2.1.trans (by decide)⟩

/-! ## The general varint read -/

theorem varintSum_nil : varintSum [] = 0 := rfl

theorem varintSum_cons (b : Nat) (bs : ByteSlice) :
    varintSum (b :: bs) = (b &&& 0x7F) + 128 * varintSum bs := by
  unfold varintSum
  rw [List.length_cons, List.range_succ_eq_map, List.map_cons, List.sum_cons, List.map_map]
  simp only [List.getD_cons_zero, pow_zero, Nat.mul_one, Function.comp_def,
    List.getD_cons_succ, pow_succ]
  congr 1
  rw [← List.sum_map_mul_left]
  congr 1
  apply List.map_congr_left
  intro k _
  ring

theorem mod_step (size a m v M : Nat) :
    ((size + a % M) % M + (m % M) * v) % M = (size + a + m * v) % M := by
  rw [Nat.add_mod, Nat.mod_mod, Nat.mul_mod, Nat.mod_mod, ← Nat.mul_mod, ← Nat.add_mod,
    Nat.add_mod (size + a % M), Nat.add_mod size, Nat.mod_mod, ← Nat.add_mod size,
    ← Nat.add_mod]

/-- The loop of `Variable` on bytes that all have the continuation bit: it runs out of
bytes and fails, with the cursor at the end of what it read. -/
theorem VariableLoop_fails (l : ByteSlice) :
    ∀ (d : Decoder) (size mul : Nat), d.remaining = l → (∀ b ∈ l, b &&& 0x80 ≠ 0) →
      ∃ e, d.VariableLoop size mul = (.error e, d.advance l.length) := by
  induction l with
  | nil =>
    intro d size mul hl _
    have hshort : d.offset + 1 > d.p.length := by
      rw [remaining_short_iff d 1 (by norm_num), hl]; simp
    rw [Decoder.VariableLoop, dif_pos hshort]
    exact ⟨_, rfl⟩
  | cons b l ih =>
    intro d size mul hl hc
    have hlong : ¬ d.offset + 1 > d.p.length := by
      rw [remaining_short_iff d 1 (by norm_num), hl]; simp
    have hlt : d.offset < d.p.length := by omega
    have hb : d.p.getD d.offset 0 = b := by
      have := congrArg (fun l => l.getD 0 0) hl
      simpa [Decoder.remaining, List.getD_eq_getElem?_getD, List.getElem?_drop] using this
    have hrest : (d.advance 1).remaining = l := by
      unfold Decoder.remaining Decoder.advance
      simp only
      rw [← List.drop_drop, show List.drop d.offset d.p = b :: l from hl]
      rfl
    rw [Decoder.VariableLoop, dif_neg hlong]
    simp only [hb, hc b (List.mem_cons_self _ _), if_false]
    obtain ⟨e, he⟩ := ih (d.advance 1) _ _ hrest (fun x hx => hc x (List.mem_cons_of_mem _ hx))
    refine ⟨e, ?_⟩
    rw [show ({ p := d.p, offset := d.offset + 1 } : Decoder) = d.advance 1 from rfl, he]
    simp only [Decoder.advance, List.length_cons, Nat.add_assoc, Nat.add_comm 1]

/-- The loop of `Variable` on continuation bytes `pre` followed by a byte `last` with
the high bit clear: it returns the accumulated sum and stops after `last`. -/
theorem VariableLoop_ok (pre : ByteSlice) :
    ∀ (d : Decoder) (size mul last : Nat) (tl : ByteSlice),
      d.remaining = pre ++ last :: tl → (∀ b ∈ pre, b &&& 0x80 ≠ 0) → last &&& 0x80 = 0 →
      d.VariableLoop size mul =
        (.ok ((size + mul * varintSum (pre ++ [last])) % 2 ^ 64),
          d.advance (pre.length + 1)) := by
  induction pre with
  | nil =>
    intro d size mul last tl hl _ hlast
    simp only [List.nil_append] at hl
    have hlong : ¬ d.offset + 1 > d.p.length := by
      rw [remaining_short_iff d 1 (by norm_num), hl]; simp
    have hb : d.p.getD d.offset 0 = last := by
      have := congrArg (fun l => l.getD 0 0) hl
      simpa [Decoder.remaining, List.getD_eq_getElem?_getD, List.getElem?_drop] using this
    rw [Decoder.VariableLoop, dif_neg hlong]
    simp only [hb, hlast, if_true, List.nil_append, varintSum_cons, varintSum_nil,
      List.length_nil, Nat.zero_add, Nat.mul_zero, Nat.add_zero]
    rw [Nat.add_mod_mod, Nat.mul_comm]
    rfl
  | cons b pre ih =>
    intro d size mul last tl hl hc hlast
    simp only [List.cons_append] at hl
    have hlong : ¬ d.offset + 1 > d.p.length := by
      rw [remaining_short_iff d 1 (by norm_num), hl]; simp
    have hb : d.p.getD d.offset 0 = b := by
      have := congrArg (fun l => l.getD 0 0) hl
      simpa [Decoder.remaining, List.getD_eq_getElem?_getD, List.getElem?_drop] using this
    have hrest : (d.advance 1).remaining = pre ++ last :: tl := by
      unfold Decoder.remaining Decoder.advance
      simp only
      rw [← List.drop_drop, show List.drop d.offset d.p = b :: (pre ++ last :: tl) from hl]
      rfl
    rw [Decoder.VariableLoop, dif_neg hlong]
    simp only [hb, hc b (List.mem_cons_self _ _), if_false]
    rw [show ({ p := d.p, offset := d.offset + 1 } : Decoder) = d.advance 1 from rfl,
      ih (d.advance 1) _ _ last tl hrest (fun x hx => hc x (List.mem_cons_of_mem _ hx)) hlast]
    simp only [List.cons_append, varintSum_cons, List.length_cons]
    rw [mod_step]
    congr 1
    · congr 1
      congr 1
      ring
    · simp only [Decoder.advance, Nat.add_assoc, Nat.add_comm 1]

/-- A byte sequence either has the continuation bit on every byte, or splits at its
first byte with the high bit clear. -/
theorem split_at_first_clear (l : ByteSlice) :
    (∀ b ∈ l, b &&& 0x80 ≠ 0) ∨
    ∃ pre last tl, l = pre ++ last :: tl ∧ (∀ b ∈ pre, b &&& 0x80 ≠ 0) ∧ last &&& 0x80 = 0 := by
  induction l with
  | nil => left; simp
  | cons b l ih =>
    by_cases hb : b &&& 0x80 = 0
    · right; exact ⟨[], b, l, rfl, by simp, hb⟩
    · rcases ih with h | ⟨pre, last, tl, rfl, hpre, hlast⟩
      · left
        intro x hx
        rcases List.mem_cons.1 hx with rfl | hx
        · exact hb
        · exact h x hx
      · right
        refine ⟨b :: pre, last, tl, rfl, ?_, hlast⟩
        intro x hx
        rcases List.mem_cons.1 hx with rfl | hx
        · exact hb
        · exact hpre x hx

/-- C17: the general varint read. `Variable` fails exactly when no remaining byte has
the high bit clear; otherwise, with `pre ++ [last]` the remaining bytes up to and
including the first one whose high bit is clear, it returns the sum over `k` of
`(b_k & 0x7F) * 128 ^ k` reduced modulo `2 ^ 64` (the sum itself when it is below
`2 ^ 64`) and advances the offset by the number of these bytes, however many. -/
theorem variable_read (d : Decoder) :
    ((∃ e d1, d.Variable = (.error e, d1)) ↔ ∀ b ∈ d.remaining, b &&& 0x80 ≠ 0) ∧
    (∀ (pre : ByteSlice) (last : Nat) (tl : ByteSlice), d.remaining = pre ++ last :: tl →
      (∀ b ∈ pre, b &&& 0x80 ≠ 0) → last &&& 0x80 = 0 →
      d.Variable = (.ok (varintSum (pre ++ [last]) % 2 ^ 64), d.advance (pre.length + 1)) ∧
      (varintSum (pre ++ [last]) < 2 ^ 64 →
        d.Variable = (.ok (varintSum (pre ++ [last])), d.advance (pre.length + 1)))) := by
  have hok : ∀ (pre : ByteSlice) (last : Nat) (tl : ByteSlice),
      d.remaining = pre ++ last :: tl → (∀ b ∈ pre, b &&& 0x80 ≠ 0) → last &&& 0x80 = 0 →
      d.Variable = (.ok (varintSum (pre ++ [last]) % 2 ^ 64), d.advance (pre.length + 1)) := by
    intro pre last tl hl hpre hlast
    unfold Decoder.Variable
    rw [VariableLoop_ok pre d 0 1 last tl hl hpre hlast, Nat.zero_add, Nat.one_mul]
  refine ⟨⟨?_, ?_⟩, ?_⟩
  · rintro ⟨e, d1, he⟩
    rcases split_at_first_clear d.remaining with h | ⟨pre, last, tl, hl, hpre, hlast⟩
    · exact h
    · rw [hok pre last tl hl hpre hlast] at he
      cases he
  · intro h
    obtain ⟨e, he⟩ := VariableLoop_fails d.remaining d 0 1 rfl h
    exact ⟨e, _, he⟩
  · intro pre last tl hl hpre hlast
    refine ⟨hok pre last tl hl hpre hlast, fun hlt => ?_⟩
    rw [hok pre last tl hl hpre hlast, Nat.mod_eq_of_lt hlt]

/-- Counterexample to C15 as stated: `Binary` and `String` on the bytes 0x80 0x00 fail
with the offset moved from 0 to 2, and `Variable` on the byte 0x80 fails with the
offset moved from 0 to 1. -/
theorem failed_read_moves_cursor :
    (NewDecoder [128, 0]).Binary
      = (.error (.negativeSize (-32768)), { p := [128, 0], offset := 2 }) ∧
    (NewDecoder [128, 0]).String
      = (.error (.negativeSize (-32768)), { p := [128, 0], offset := 2 }) ∧
    (∃ e, (NewDecoder [128]).Variable = (.error e, { p := [128], offset := 1 })) ∧
    (NewDecoder [128, 0]).offset = 0 ∧ (NewDecoder [128]).offset = 0 := by
  refine ⟨by decide, by decide, ?_, rfl, rfl⟩
  obtain ⟨e, he⟩ := VariableLoop_fails [128] (NewDecoder [128]) 0 1 rfl (by decide)
  exact ⟨e, he⟩

/-- C15 (amended): a failed read and the cursor. Each of `Uint8`, `Int16`, `Uint16`,
`Int32`, `Uint32`, `Int64`, `Uint64` and `Bytes` leaves the cursor as it was when it
returns an error. `Binary` and `String` leave it as it was when they fail on the
prefix and two bytes further when they fail after reading the prefix; `Variable`
leaves it past every byte it read. -/
theorem failed_read_cursor (d : Decoder) (num : Nat) :
    (∀ e d1, d.Uint8 = (.error e, d1) → d1 = d) ∧
    (∀ e d1, d.Int16 = (.error e, d1) → d1 = d) ∧
    (∀ e d1, d.Uint16 = (.error e, d1) → d1 = d) ∧
    (∀ e d1, d.Int32 = (.error e, d1) → d1 = d) ∧
    (∀ e d1, d.Uint32 = (.error e, d1) → d1 = d) ∧
    (∀ e d1, d.Int64 = (.error e, d1) → d1 = d) ∧
    (∀ e d1, d.Uint64 = (.error e, d1) → d1 = d) ∧
    (∀ e d1, d.Bytes num = (.error e, d1) → d1 = d) ∧
    (∀ e d1, d.Binary = (.error e, d1) →
      (d.remaining.length < 2 ∧ d1 = d) ∨ (2 ≤ d.remaining.length ∧ d1 = d.advance 2)) ∧
    (∀ e d1, d.String = (.error e, d1) →
      (d.remaining.length < 2 ∧ d1 = d) ∨ (2 ≤ d.remaining.length ∧ d1 = d.advance 2)) ∧
    (∀ e d1, d.Variable = (.error e, d1) → d1 = d.advance d.remaining.length) := by
  have h8 : ∀ e d1, d.Uint8 = (.error e, d1) → d1 = d := by
    intro e d1 h
    unfold Decoder.Uint8 at h
    split at h <;> simp at h
    exact h.2.symm
  have h16 : ∀ e d1, d.Int16 = (.error e, d1) → d1 = d := by
    intro e d1 h
    unfold Decoder.Int16 at h
    split at h <;> simp at h
    exact h.2.symm
  have h32 : ∀ e d1, d.Int32 = (.error e, d1) → d1 = d := by
    intro e d1 h
    unfold Decoder.Int32 at h
    split at h <;> simp at h
    exact h.2.symm
  have hbin : ∀ e d1, d.Binary = (.error e, d1) →
      (d.remaining.length < 2 ∧ d1 = d) ∨ (2 ≤ d.remaining.length ∧ d1 = d.advance 2) := by
    intro e d1 h
    unfold Decoder.Binary Decoder.Int16 at h
    by_cases hs : d.offset + 2 > d.p.length
    · left
      simp only [hs, if_true] at h
      simp only [Prod.mk.injEq] at h
      exact ⟨(remaining_short_iff d 2 (by norm_num)).1 hs, h.2.symm⟩
    · right
      have hlen : 2 ≤ d.remaining.length := by
        have := (remaining_short_iff d 2 (by norm_num)).not.1 hs
        omega
      simp only [hs, if_false] at h
      refine ⟨hlen, ?_⟩
      split at h
      · simp only [Prod.mk.injEq] at h; exact h.2.symm
      · split at h
        · simp only [Prod.mk.injEq] at h; exact h.2.symm
        · simp at h
  refine ⟨h8, h16, ?_, h32, ?_, ?_, ?_, ?_, hbin, ?_, ?_⟩
  · intro e d1 h
    unfold Decoder.Uint16 at h
    split at h
    · rename_i err d2 heq
      simp only [Prod.mk.injEq] at h
      rw [← h.2]
      exact h16 err d2 heq
    · simp at h
  · intro e d1 h
    unfold Decoder.Uint32 at h
    split at h
    · rename_i err d2 heq
      simp only [Prod.mk.injEq] at h
      rw [← h.2]
      exact h32 err d2 heq
    · simp at h
  · intro e d1 h
    unfold Decoder.Int64 at h
    split at h <;> simp at h
    exact h.2.symm
  · intro e d1 h
    unfold Decoder.Uint64 at h
    split at h <;> simp at h
    exact h.2.symm
  · intro e d1 h
    unfold Decoder.Bytes at h
    split at h <;> simp at h
    exact h.2.symm
  · intro e d1 h
    rw [Decoder.String_eq_Binary] at h
    exact hbin e d1 h
  · intro e d1 h
    rcases split_at_first_clear d.remaining with hc | ⟨pre, last, tl, hl, hpre, hlast⟩
    · obtain ⟨e2, he⟩ := VariableLoop_fails d.remaining d 0 1 rfl hc
      unfold Decoder.Variable at h
      rw [he] at h
      simp only [Prod.mk.injEq] at h
      exact h.2.symm
    · unfold Decoder.Variable at h
      rw [VariableLoop_ok pre d 0 1 last tl hl hpre hlast] at h
      simp at h

/-! ## The expiry gate, the frame size and the length field -/

theorem sendBody_low (S : SettingBits) (f : SendPacket) (version : Nat)
    (hs : Setting.IsSet f.Setting S.SettingStream = false) (hv : ¬ version ≥ 3) :
    sendBody S f version = sendHead f ++ sendTail S f := by
  unfold sendBody sendHead sendTail
  simp only [hs, Bool.and_false, Bool.false_eq_true, if_false, hv, List.nil_append,
    List.cons_append, List.append_assoc, List.singleton_append]

theorem sendBody_high (S : SettingBits) (f : SendPacket) (version : Nat)
    (hs : Setting.IsSet f.Setting S.SettingStream = false) (hv : version ≥ 3) :
    sendBody S f version = sendHead f ++ Encoder.WriteUint32 [] f.Expire ++ sendTail S f := by
  unfold sendBody sendHead sendTail
  simp only [hs, Bool.and_false, Bool.false_eq_true, if_false, hv, if_true, List.nil_append,
    List.cons_append, List.append_assoc, List.singleton_append]

/-- C18: the expiry version gate. For a SendPacket with the stream bit clear the bytes
`encodeSend` writes at versions 1 and 2 are `sendHead f ++ sendTail S f`, which do not
depend on `f.Expire`; at versions 3 and 4 they are the same bytes with the four
big-endian bytes of `f.Expire` inserted between the two, right after the channel-type
byte and before the length prefix of the message key; so the body of version 3 is 4
bytes longer than the body of version 1. -/
theorem expire_version_gate (S : SettingBits) (f : SendPacket)
    (hs : Setting.IsSet f.Setting S.SettingStream = false) :
    encodeSend S f [] 1 = sendHead f ++ sendTail S f ∧
    encodeSend S f [] 2 = sendHead f ++ sendTail S f ∧
    encodeSend S f [] 3 = sendHead f ++ Encoder.WriteUint32 [] f.Expire ++ sendTail S f ∧
    encodeSend S f [] 4 = sendHead f ++ Encoder.WriteUint32 [] f.Expire ++ sendTail S f ∧
    (∀ e : Nat, encodeSend S { f with Expire := e } [] 1 = encodeSend S f [] 1 ∧
      encodeSend S { f with Expire := e } [] 2 = encodeSend S f [] 2) ∧
    Encoder.WriteUint32 [] f.Expire
      = [f.Expire / 2 ^ 24 % 256, f.Expire / 2 ^ 16 % 256, f.Expire / 2 ^ 8 % 256,
          f.Expire % 256] ∧
    (∃ before, sendHead f = before ++ [f.ChannelType % 256]) ∧
    (∃ after, sendTail S f = Encoder.WriteString [] f.MsgKey ++ after) ∧
    (encodeSend S f [] 3).length = (encodeSend S f [] 1).length + 4 := by
  have e1 := sendBody_low S f 1 hs (by decide)
  have e2 := sendBody_low S f 2 hs (by decide)
  have e3 := sendBody_high S f 3 hs (by decide)
  have e4 := sendBody_high S f 4 hs (by decide)
  simp only [encodeSend_eq, List.nil_append]
  refine ⟨e1, e2, e3, e4, ?_, rfl, ?_, ⟨_, rfl⟩, ?_⟩
  · intro e
    have hs2 : Setting.IsSet ({ f with Expire := e } : SendPacket).Setting S.SettingStream
        = false := hs
    rw [sendBody_low S _ 1 hs2 (by decide), sendBody_low S _ 2 hs2 (by decide), e1, e2]
    exact ⟨rfl, rfl⟩
  · refine ⟨(f.Setting % 256) :: (Encoder.WriteUint32 [] (f.ClientSeq % 2 ^ 32) ++
      (Encoder.WriteString [] f.ClientMsgNo ++ Encoder.WriteString [] f.ChannelID)), ?_⟩
    simp only [sendHead, List.cons_append, List.append_assoc]
  · rw [e3, e1]
    simp only [List.length_append, Encoder.WriteUint32, List.length_cons, List.length_nil]
    omega

/-- Witness of C18: `wideSeqSend`, whose setting has no bit set. -/
theorem expire_version_gate_witness :
    Setting.IsSet wideSeqSend.Setting exampleBits.SettingStream = false ∧
    encodeSend exampleBits wideSeqSend [] 1 = [0, 0, 0, 0, 0, 0, 0, 0, 0, 1, 0, 0] ∧
    encodeSend exampleBits { wideSeqSend with Expire := 258 } [] 3
      = [0, 0, 0, 0, 0, 0, 0, 0, 0, 1, 0, 0, 1, 2, 0, 0] :=
  ⟨by decide,
    (expire_version_gate exampleBits wideSeqSend (by decide)).1.trans (by decide),
    (expire_version_gate exampleBits { wideSeqSend with Expire := 258 } (by decide)).2.2.1.trans
      (by decide)⟩

theorem decodeSend_framer (S : SettingBits) (fr : Framer) (data : ByteSlice) (version : Nat)
    (p : SendPacket) (h : decodeSend S fr data version = .ok p) : p.Framer = fr := by
  unfold decodeSend at h
  simp only at h
  rcases h1 : (NewDecoder data).Uint8 with ⟨_ | setting, d1⟩ <;>
    simp only [h1, reduceCtorEq] at h
  rcases h2 : d1.Uint32 with ⟨_ | clientSeq, d2⟩ <;> simp only [h2, reduceCtorEq] at h
  rcases h3 : d2.String with ⟨_ | clientMsgNo, d3⟩ <;> simp only [h3, reduceCtorEq] at h
  rcases h4 : (if (decide (version ≥ 2) && Setting.IsSet setting S.SettingStream) = true then
      d3.String else (Except.ok [], d3)) with ⟨_ | streamNo, d4⟩ <;>
    simp only [h4, reduceCtorEq] at h
  rcases h5 : d4.String with ⟨_ | channelID, d5⟩ <;> simp only [h5, reduceCtorEq] at h
  rcases h6 : d5.Uint8 with ⟨_ | channelType, d6⟩ <;> simp only [h6, reduceCtorEq] at h
  rcases h7 : (if version ≥ 3 then d6.Uint32 else (Except.ok 0, d6)) with ⟨_ | expire, d7⟩ <;>
    simp only [h7, reduceCtorEq] at h
  rcases h8 : d7.String with ⟨_ | msgKey, d8⟩ <;> simp only [h8, reduceCtorEq] at h
  rcases h9 : (if Setting.IsSet setting S.SettingTopic = true then d8.String
      else (Except.ok [], d8)) with ⟨_ | topic, d9⟩ <;>
    simp only [h9, reduceCtorEq] at h
  rcases h10 : d9.BinaryAll with ⟨_ | payload, d10⟩ <;> simp only [h10, reduceCtorEq] at h
  injection h with h
  subst h
  rfl

theorem decodeRecvStream_keeps (S : SettingBits) (setting version : Nat) (d : Decoder) :
    (∃ e, decodeRecvStream S setting version d = .error e) ∨
    ∃ x d1, decodeRecvStream S setting version d = .ok (x, d1) := by
  cases h : decodeRecvStream S setting version d with
  | error e => exact Or.inl ⟨e, rfl⟩
  | ok x => exact Or.inr ⟨x.1, x.2, rfl⟩

theorem decodeRecv_framer (S : SettingBits) (fr : Framer) (data : ByteSlice) (version : Nat)
    (p : RecvPacket) (h : decodeRecv S fr data version = .ok p) : p.Framer = fr := by
  unfold decodeRecv at h
  simp only at h
  rcases h1 : (NewDecoder data).Uint8 with ⟨_ | setting, d1⟩ <;>
    simp only [h1, reduceCtorEq] at h
  rcases h2 : d1.String with ⟨_ | msgKey, d2⟩ <;> simp only [h2, reduceCtorEq] at h
  rcases h3 : d2.String with ⟨_ | fromUID, d3⟩ <;> simp only [h3, reduceCtorEq] at h
  rcases h4 : d3.String with ⟨_ | channelID, d4⟩ <;> simp only [h4, reduceCtorEq] at h
  rcases h5 : d4.Uint8 with ⟨_ | channelType, d5⟩ <;> simp only [h5, reduceCtorEq] at h
  rcases h6 : (if version ≥ 3 then d5.Uint32 else (Except.ok 0, d5)) with ⟨_ | expire, d6⟩ <;>
    simp only [h6, reduceCtorEq] at h
  rcases h7 : d6.String with ⟨_ | clientMsgNo, d7⟩ <;> simp only [h7, reduceCtorEq] at h
  rcases h8 : decodeRecvStream S setting version d7 with _ | ⟨⟨streamFlag, streamNo, streamId⟩, d8⟩ <;>
    simp only [h8, reduceCtorEq] at h
  rcases h9 : d8.Int64 with ⟨_ | messageID, d9⟩ <;> simp only [h9, reduceCtorEq] at h
  rcases h10 : d9.Uint32 with ⟨_ | messageSeq, d10⟩ <;> simp only [h10, reduceCtorEq] at h
  rcases h11 : d10.Int32 with ⟨_ | timestamp, d11⟩ <;> simp only [h11, reduceCtorEq] at h
  rcases h12 : (if Setting.IsSet setting S.SettingTopic = true then d11.String
      else (Except.ok [], d11)) with ⟨_ | topic, d12⟩ <;>
    simp only [h12, reduceCtorEq] at h
  rcases h13 : d12.BinaryAll with ⟨_ | payload, d13⟩ <;> simp only [h13, reduceCtorEq] at h
  injection h with h
  subst h
  rfl

theorem decodeLengthLoop_error (n : Nat) :
    ∀ (data : ByteSlice) (r m o : Nat) (e : Error), 27 - m ≤ n →
      decodeLengthLoop data r m o = .error e → e = Error.errDecodeLength := by
  induction n with
  | zero =>
    intro data r m o e hn h
    rw [decodeLengthLoop, if_neg (by omega)] at h
    cases h
  | succ n ih =>
    intro data r m o e hn h
    rw [decodeLengthLoop] at h
    split at h
    · split at h
      · injection h with h; exact h.symm
      · simp only at h
        split at h
        · cases h
        · exact ih data _ (m + 7) (o + 1) e (by omega) h
    · cases h

/-- The only error of `decodeLength` is the sentinel `errDecodeLength`. -/
theorem decodeLength_error (data : ByteSlice) (e : Error)
    (h : decodeLength data = .error e) : e = Error.errDecodeLength :=
  decodeLengthLoop_error 27 data 0 0 0 e (by omega) h

theorem except_map_ok {ε α β : Type} (g : α → β) (x : Except ε α) (y : β)
    (h : Except.map g x = .ok y) : ∃ a, x = .ok a ∧ y = g a := by
  cases x with
  | error e => cases h
  | ok a => exact ⟨a, rfl, by injection h with h; exact h.symm⟩

/-- A frame built by one of the codecs that are not under `src/` is opaque: it shows
no header. -/
theorem other_header {X : Type} (x : Except Error X) (frame : Frame X) (f : Framer)
    (h : Except.map Frame.other x = .ok frame) (hf : frame.header = some f) : False := by
  obtain ⟨a, -, rfl⟩ := except_map_ok Frame.other x frame h
  simp only [Frame.header, reduceCtorEq] at hf

/-- The decoders of `packetDecodeMap` that are under `src/` store the header they are
given in the frame they return. -/
theorem packetDecodeMap_header {X : Type} (T : FrameTypes) (S : SettingBits)
    (C : PacketCodecs X) (ft : Nat) (dec : PacketDecodeFunc X)
    (hm : packetDecodeMap T S C ft = some dec) (fr : Framer) (body : ByteSlice)
    (version : Nat) (frame : Frame X) (hd : dec fr body version = .ok frame) (f : Framer)
    (hf : frame.header = some f) : f = fr := by
  unfold packetDecodeMap at hm
  by_cases h1 : ft = T.CONNECT
  · rw [if_pos h1] at hm
    injection hm with hm
    subst hm
    exact (other_header _ _ _ hd hf).elim
  rw [if_neg h1] at hm
  by_cases h2 : ft = T.CONNACK
  · rw [if_pos h2] at hm
    injection hm with hm
    subst hm
    exact (other_header _ _ _ hd hf).elim
  rw [if_neg h2] at hm
  by_cases h3 : ft = T.SEND
  · rw [if_pos h3] at hm
    injection hm with hm
    subst hm
    obtain ⟨a, ha, rfl⟩ := except_map_ok Frame.send _ frame hd
    simp only [Frame.header, Option.some.injEq] at hf
    rw [← hf]
    exact decodeSend_framer S fr body version a ha
  rw [if_neg h3] at hm
  by_cases h4 : ft = T.SENDACK
  · rw [if_pos h4] at hm
    injection hm with hm
    subst hm
    exact (other_header _ _ _ hd hf).elim
  rw [if_neg h4] at hm
  by_cases h5 : ft = T.RECV
  · rw [if_pos h5] at hm
    injection hm with hm
    subst hm
    obtain ⟨a, ha, rfl⟩ := except_map_ok Frame.recv _ frame hd
    simp only [Frame.header, Option.some.injEq] at hf
    rw [← hf]
    exact decodeRecv_framer S fr body version a ha
  rw [if_neg h5] at hm
  by_cases h6 : ft = T.RECVACK
  · rw [if_pos h6] at hm
    injection hm with hm
    subst hm
    exact (other_header _ _ _ hd hf).elim
  rw [if_neg h6] at hm
  by_cases h7 : ft = T.DISCONNECT
  · rw [if_pos h7] at hm
    injection hm with hm
    subst hm
    exact (other_header _ _ _ hd hf).elim
  rw [if_neg h7] at hm
  by_cases h8 : ft = T.SUB
  · rw [if_pos h8] at hm
    injection hm with hm
    subst hm
    exact (other_header _ _ _ hd hf).elim
  rw [if_neg h8] at hm
  by_cases h9 : ft = T.SUBACK
  · rw [if_pos h9] at hm
    injection hm with hm
    subst hm
    exact (other_header _ _ _ hd hf).elim
  rw [if_neg h9] at hm
  cases hm

/-- The `FrameSize` of every frame `DecodeFrame` returns is the length of the whole
buffer it was given. -/
theorem DecodeFrame_frameSize {X : Type} (T : FrameTypes) (S : SettingBits)
    (C : PacketCodecs X) (hU : T.UNKNOWN = 0) (data : ByteSlice) (version : Nat)
    (frame : Frame X) (n : Nat) (err : Option Error)
    (h : DecodeFrame T S C data version = some (some frame, n, err)) (f : Framer)
    (hf : frame.header = some f) : f.FrameSize = (data.length : Int) := by
  match data with
  | [] => simp [DecodeFrame, decodeFramer] at h
  | b :: rest =>
    by_cases hPi : b >>> 4 = T.PING
    · by_cases hz : T.PING = T.UNKNOWN
      · simp [DecodeFrame, decodeFramer, FramerFromUint8, hPi, hz] at h
      · simp only [DecodeFrame, decodeFramer, FramerFromUint8, hPi, hz, ne_eq,
          not_true_eq_false, false_and, if_false, Option.isSome_none, Bool.false_eq_true,
          if_true, Option.some.injEq, Prod.mk.injEq] at h
        obtain ⟨rfl, -, -⟩ := h
        simp only [Frame.header, Option.some.injEq] at hf
        rw [← hf]
    · by_cases hPo : b >>> 4 = T.PONG
      · by_cases hz : T.PONG = T.UNKNOWN
        · simp [DecodeFrame, decodeFramer, FramerFromUint8, hPo, hz] at h
        · by_cases hy : T.PONG = T.PING
          · exact absurd (hPo.trans hy) hPi
          · simp only [DecodeFrame, decodeFramer, FramerFromUint8, hPo, hz, hy, ne_eq,
              not_true_eq_false, and_false, if_false, Option.isSome_none, Bool.false_eq_true,
              if_true, Option.some.injEq, Prod.mk.injEq] at h
            obtain ⟨rfl, -, -⟩ := h
            simp only [Frame.header, Option.some.injEq] at hf
            rw [← hf]
      · cases hl : decodeLength rest with
        | error e =>
          have he := decodeLength_error rest e hl
          subst he
          rw [DecodeFrame_of_lengthError T S C b rest version hU hPi hPo hl] at h
          simp at h
        | ok rk =>
          obtain ⟨r, k⟩ := rk
          rw [DecodeFrame_of_length T S C b rest version r k hPi hPo hl] at h
          by_cases c1 : b >>> 4 = T.UNKNOWN
          · rw [if_pos c1] at h
            simp at h
          rw [if_neg c1] at h
          by_cases c2 : r > MaxRemaingLength
          · rw [if_pos c2] at h
            simp at h
          rw [if_neg c2] at h
          by_cases c3 : (b :: rest).length < r + 1 + k
          · rw [if_pos c3] at h
            simp at h
          rw [if_neg c3] at h
          cases hm : packetDecodeMap T S C (b >>> 4) with
          | none =>
            rw [hm] at h
            simp at h
          | some dec =>
            rw [hm] at h
            cases hd : dec (framerOf b r (b :: rest)) (slice (b :: rest) (1 + k) (r + 1 + k))
                version with
            | error e =>
              simp only [hd] at h
              simp at h
            | ok fr0 =>
              simp only [hd, Option.some.injEq, Prod.mk.injEq] at h
              obtain ⟨rfl, -, -⟩ := h
              rw [packetDecodeMap_header T S C _ dec hm _ _ _ _ hd f hf]
              rfl

/-- C19 (the code at the failing input): on a SEND frame of 14 bytes followed by two
more bytes `DecodeFrame` returns the consumed count 14 and a frame whose `FrameSize`
is 16, the length of the whole buffer; and on two PING bytes it returns the consumed
count 1 and a Ping frame whose `FrameSize` is 2. -/
theorem frameSize_is_buffer_length :
    DecodeFrame exampleTypes exampleBits exampleCodecs
        (48 :: 12 :: (minimalSendBody ++ [112, 16])) 1
      = some (some (.send (minimalSend
          { FrameType := 3, Flags := 0, RemainingLength := 12, FrameSize := 16 })), 14, none) ∧
    DecodeFrame exampleTypes exampleBits exampleCodecs [112, 112] 1
      = some (some (.ping { FrameType := 7, Flags := 0, RemainingLength := 0, FrameSize := 2 }),
          1, none) := by
  constructor
  · rw [DecodeFrame_of_length exampleTypes exampleBits exampleCodecs 48
      (12 :: (minimalSendBody ++ [112, 16])) 1 12 1 (by decide) (by decide)
      (decodeLength_one 12 _ (by decide))]
    rfl
  · rfl

/-! ## The length field, written and read back -/

theorem encodeVariable_of_zero : encodeVariable 0 = [] := by
  unfold encodeVariable
  rw [encodeVariableLoop]
  simp

theorem marked_digit_value : ∀ x, x < 128 → (x ||| 128) &&& 127 = x := by decide

theorem low_digit_value : ∀ x, x < 128 → x &&& 127 = x := by decide

/-- The loop of `decodeLength`, started at the byte `i` of a buffer that holds there
the length field of `n`, with `acc` read so far: it adds `n` above `acc` and stops
after the last byte of the field, as long as the field ends by the fourth byte. -/
theorem decodeLengthLoop_encodeVariable (j : Nat) :
    ∀ (n i m acc : Nat) (pre rest : ByteSlice), 0 < n → n < 128 ^ j → m = 7 * i →
      i + j ≤ 4 → pre.length = i → acc < 2 ^ m →
      decodeLengthLoop (pre ++ (encodeVariable n ++ rest)) acc m i
        = .ok (acc + n * 2 ^ m, i + (encodeVariable n).length) := by
  induction j with
  | zero =>
    intro n i m acc pre rest hn hj
    simp only [pow_zero] at hj
    omega
  | succ j ih =>
    intro n i m acc pre rest hn hj hm hij hpre hacc
    have hm27 : m < 27 := by omega
    have hpow : 2 ^ m ≤ 2 ^ 21 := Nat.pow_le_pow_right (by norm_num) (by omega)
    have hdig : n % 128 < 128 := Nat.mod_lt _ (by norm_num)
    have hmod : ((n % 128) <<< m) % 2 ^ 32 = (n % 128) <<< m := by
      apply shl_mod
      calc n % 128 * 2 ^ m ≤ 127 * 2 ^ 21 := Nat.mul_le_mul (by omega) hpow
        _ < 2 ^ 32 := by norm_num
    have hor : acc ||| (n % 128) <<< m = acc + n % 128 * 2 ^ m := by
      rw [Nat.lor_comm, orShift _ _ _ hacc, Nat.add_comm]
    rw [encodeVariable_pos n hn, decodeLengthLoop, if_pos hm27]
    have hget : ∀ (x : Nat) (tl : ByteSlice), (pre ++ (x :: tl)).getD i 0 = x := by
      intro x tl
      rw [List.getD_append_right _ _ _ _ (by omega), hpre, Nat.sub_self]
      rfl
    by_cases hq : n / 128 > 0
    · have hlt : n / 128 < 128 ^ j := by
        rw [Nat.div_lt_iff_lt_mul (by norm_num)]
        rw [pow_succ] at hj
        exact hj
      have hacc2 : acc + n % 128 * 2 ^ m < 2 ^ (m + 7) := by
        rw [pow_add]
        have : n % 128 * 2 ^ m ≤ 127 * 2 ^ m := Nat.mul_le_mul (by omega) (le_refl _)
        omega
      have hrec := ih (n / 128) (i + 1) (m + 7) (acc + n % 128 * 2 ^ m)
        (pre ++ [n % 128 ||| 128]) rest hq hlt (by omega) (by omega) (by simp [hpre]) hacc2
      simp only [List.append_assoc, List.singleton_append] at hrec
      simp only [if_pos hq, List.cons_append, hget, marked_digit_value _ hdig, hmod, hor,
        if_neg (marked_digit_set _ hdig), List.length_append, List.length_cons, ge_iff_le]
      rw [if_neg (by omega), hrec]
      have hsum : n % 128 * 2 ^ m + n / 128 * 2 ^ (m + 7) = n * 2 ^ m := by
        rw [pow_add]
        have h := Nat.mod_add_div n 128
        calc n % 128 * 2 ^ m + n / 128 * (2 ^ m * 2 ^ 7)
            = (n % 128 + 128 * (n / 128)) * 2 ^ m := by ring
          _ = n * 2 ^ m := by rw [h]
      rw [Nat.add_assoc, hsum, Nat.add_assoc, Nat.add_comm 1]
    · have h0 : n / 128 = 0 := by omega
      have hn' : n % 128 = n := by omega
      rw [if_neg hq, h0, encodeVariable_of_zero]
      simp only [List.cons_append, List.nil_append, hget, low_digit_value _ hdig, hmod, hor,
        low_digit_clear _ hdig, if_true, List.length_append, List.length_cons, List.length_nil,
        ge_iff_le]
      rw [if_neg (by omega), hn']

/-- C20: the header varint round trip. For every `n` with `1 ≤ n < 2^28` and every
byte sequence `rest`, `decodeLength (encodeVariable n ++ rest)` returns the value `n`
and a length-field size equal to the number of bytes of `encodeVariable n`, without an
error; so the result is the same for any two continuations `rest` and `rest2`. -/
theorem header_varint_round_trip (n : Nat) (rest rest2 : ByteSlice) (h1 : 1 ≤ n)
    (h2 : n < 2 ^ 28) :
    decodeLength (encodeVariable n ++ rest) = .ok (n, (encodeVariable n).length) ∧
    decodeLength (encodeVariable n ++ rest) = decodeLength (encodeVariable n ++ rest2) := by
  have key : ∀ r : ByteSlice,
      decodeLength (encodeVariable n ++ r) = .ok (n, (encodeVariable n).length) := by
    intro r
    have h := decodeLengthLoop_encodeVariable 4 n 0 0 0 [] r h1 (by norm_num; omega) rfl
      (by norm_num) rfl (by norm_num)
    simpa [decodeLength] using h
  exact ⟨key rest, (key rest).trans (key rest2).symm⟩

/-- Witness of C20: the remaining length 300 is written as two bytes and read back,
here before two more bytes and before none. -/
theorem header_varint_round_trip_witness :
    (1 ≤ 300 ∧ 300 < 2 ^ 28) ∧
    decodeLength (encodeVariable 300 ++ [7, 9]) = .ok (300, (encodeVariable 300).length) ∧
    decodeLength (encodeVariable 300 ++ [7, 9]) = decodeLength (encodeVariable 300 ++ []) :=
  ⟨by decide, header_varint_round_trip 300 [7, 9] [] (by decide) (by decide)⟩

/-! ## The client sequence on the wire -/

/-- C21: the SEND client sequence is carried as 32 bits. For every SendPacket `f`
with fields of their Go types, whose length-prefixed strings are at most 32767 bytes
long and whose gated-off fields hold their zero value, and every version,
`decodeSend` applied to the bytes `encodeSend` writes succeeds and returns `f` with
`ClientSeq` replaced by `f.ClientSeq mod 2^32` and every other body field unchanged;
so it returns `f` itself exactly when `f.ClientSeq < 2^32`. -/
theorem send_clientSeq_32_bits (S : SettingBits) (fr : Framer) (f : SendPacket)
    (version : Nat) (hT : f.WellTyped) (hG : f.GatedZero S version) (hF : f.StringsFit) :
    decodeSend S fr (encodeSend S f [] version) version
      = .ok { f with Framer := fr, ClientSeq := f.ClientSeq % 2 ^ 32 } ∧
    (decodeSend S fr (encodeSend S f [] version) version = .ok { f with Framer := fr }
      ↔ f.ClientSeq < 2 ^ 32) := by
  have h : decodeSend S fr (encodeSend S f [] version) version
      = .ok { f with Framer := fr, ClientSeq := f.ClientSeq % 2 ^ 32 } := by
    rw [encodeSend_eq, List.nil_append, decodeSend_sendBody S fr f version hT hG hF]
  refine ⟨h, ?_, ?_⟩
  · intro h2
    rw [h] at h2
    injection h2 with h2
    have h3 := congrArg SendPacket.ClientSeq h2
    simp only at h3
    exact lt_of_eq_of_lt h3.symm (Nat.mod_lt _ (by norm_num))
  · intro hlt
    rw [h, Nat.mod_eq_of_lt hlt]

/-- Witness of C21: `wideSeqSend`, whose client sequence is `2^32`, comes back at
version 4 with the client sequence 0, and `exampleSend` comes back as it is. -/
theorem send_clientSeq_32_bits_witness :
    (wideSeqSend.WellTyped ∧ wideSeqSend.GatedZero exampleBits 4 ∧ wideSeqSend.StringsFit) ∧
    decodeSend exampleBits Framer.zero (encodeSend exampleBits wideSeqSend [] 4) 4
      = .ok { wideSeqSend with ClientSeq := 0 } ∧
    wideSeqSend.ClientSeq = 2 ^ 32 :=
  ⟨by decide,
    (send_clientSeq_32_bits exampleBits Framer.zero wideSeqSend 4 (by decide) (by decide)
      (by decide)).1.trans (by decide),
    by decide⟩

/-! ## What a successful read has read -/

theorem advance_remaining (d : Decoder) (n : Nat) :
    (d.advance n).remaining = d.remaining.drop n := by
  unfold Decoder.advance Decoder.remaining
  rw [List.drop_drop]

theorem reads_advance (d : Decoder) (n : Nat) : d.Reads (d.remaining.take n) (d.advance n) :=
  ⟨rfl, by rw [advance_remaining, List.take_append_drop]⟩

theorem Decoder.Reads.trans {d d1 d2 : Decoder} {a b : ByteSlice} (h1 : d.Reads a d1)
    (h2 : d1.Reads b d2) : d.Reads (a ++ b) d2 :=
  ⟨h2.1.trans h1.1, by rw [h1.2, h2.2, List.append_assoc]⟩

theorem Decoder.Reads.isBytes {d d1 : Decoder} {a : ByteSlice} (h : d.Reads a d1)
    (hb : IsBytes d.p) : IsBytes d1.p := by
  rw [h.1]
  exact hb

theorem reads_refl (d : Decoder) : d.Reads [] d := ⟨rfl, rfl⟩

theorem toUnsigned_toSigned64 (u : Nat) : toUnsigned 64 (toSigned 64 u) = u % 2 ^ 64 := by
  unfold toUnsigned toSigned
  split <;> omega

theorem bigEndian_one (l : ByteSlice) (hl : l.length = 1) (hb : IsBytes l) :
    [bigEndian l % 256] = l := by
  match l, hl, hb with
  | [b0], _, hb =>
    have h0 : b0 < 256 := hb b0 (by simp)
    simp only [bigEndian, List.foldl_cons, List.foldl_nil, Nat.zero_mul, Nat.zero_add]
    rw [Nat.mod_eq_of_lt h0]

theorem bigEndian_two (l : ByteSlice) (hl : l.length = 2) (hb : IsBytes l) :
    Encoder.WriteInt16 [] (toSigned 16 (bigEndian l)) = l := by
  match l, hl, hb with
  | [b0, b1], _, hb =>
    have h0 : b0 < 256 := hb b0 (by simp)
    have h1 : b1 < 256 := hb b1 (by simp)
    simp only [Encoder.WriteInt16, toUnsigned_toSigned16, List.nil_append, bigEndian,
      List.foldl_cons, List.foldl_nil, Nat.zero_mul, Nat.zero_add]
    congr 1
    · omega
    · congr 1
      omega

theorem bigEndian_four (l : ByteSlice) (hl : l.length = 4) (hb : IsBytes l) :
    Encoder.WriteUint32 [] (bigEndian l) = l := by
  match l, hl, hb with
  | [b0, b1, b2, b3], _, hb =>
    have h0 : b0 < 256 := hb b0 (by simp)
    have h1 : b1 < 256 := hb b1 (by simp)
    have h2 : b2 < 256 := hb b2 (by simp)
    have h3 : b3 < 256 := hb b3 (by simp)
    simp only [Encoder.WriteUint32, List.nil_append, bigEndian, List.foldl_cons,
      List.foldl_nil, Nat.zero_mul, Nat.zero_add]
    have e0 : (((b0 * 256 + b1) * 256 + b2) * 256 + b3) / 2 ^ 24 % 256 = b0 := by omega
    have e1 : (((b0 * 256 + b1) * 256 + b2) * 256 + b3) / 2 ^ 16 % 256 = b1 := by omega
    have e2 : (((b0 * 256 + b1) * 256 + b2) * 256 + b3) / 2 ^ 8 % 256 = b2 := by omega
    have e3 : (((b0 * 256 + b1) * 256 + b2) * 256 + b3) % 256 = b3 := by omega
    rw [e0, e1, e2, e3]

theorem bigEndian_eight (l : ByteSlice) (hl : l.length = 8) (hb : IsBytes l) :
    Encoder.WriteUint64 [] (bigEndian l) = l := by
  match l, hl, hb with
  | [b0, b1, b2, b3, b4, b5, b6, b7], _, hb =>
    have h0 : b0 < 256 := hb b0 (by simp)
    have h1 : b1 < 256 := hb b1 (by simp)
    have h2 : b2 < 256 := hb b2 (by simp)
    have h3 : b3 < 256 := hb b3 (by simp)
    have h4 : b4 < 256 := hb b4 (by simp)
    have h5 : b5 < 256 := hb b5 (by simp)
    have h6 : b6 < 256 := hb b6 (by simp)
    have h7 : b7 < 256 := hb b7 (by simp)
    simp only [Encoder.WriteUint64, List.nil_append, bigEndian, List.foldl_cons,
      List.foldl_nil, Nat.zero_mul, Nat.zero_add]
    generalize hv : (((((((b0 * 256 + b1) * 256 + b2) * 256 + b3) * 256 + b4) * 256 + b5) * 256
      + b6) * 256 + b7) = v
    have e0 : v / 2 ^ 56 % 256 = b0 := by omega
    have e1 : v / 2 ^ 48 % 256 = b1 := by omega
    have e2 : v / 2 ^ 40 % 256 = b2 := by omega
    have e3 : v / 2 ^ 32 % 256 = b3 := by omega
    have e4 : v / 2 ^ 24 % 256 = b4 := by omega
    have e5 : v / 2 ^ 16 % 256 = b5 := by omega
    have e6 : v / 2 ^ 8 % 256 = b6 := by omega
    have e7 : v % 256 = b7 := by omega
    rw [e0, e1, e2, e3, e4, e5, e6, e7]

theorem bigEndian_fourSigned (l : ByteSlice) (hl : l.length = 4) (hb : IsBytes l) :
    Encoder.WriteInt32 [] (toSigned 32 (bigEndian l)) = l := by
  have hlt := bigEndian_lt l hb
  rw [hl] at hlt
  unfold Encoder.WriteInt32
  rw [toUnsigned_toSigned32, Nat.mod_eq_of_lt (by norm_num at hlt ⊢; exact hlt)]
  exact bigEndian_four l hl hb

theorem bigEndian_eightSigned (l : ByteSlice) (hl : l.length = 8) (hb : IsBytes l) :
    Encoder.WriteInt64 [] (toSigned 64 (bigEndian l)) = l := by
  have hlt := bigEndian_lt l hb
  rw [hl] at hlt
  unfold Encoder.WriteInt64
  rw [toUnsigned_toSigned64, Nat.mod_eq_of_lt (by norm_num at hlt ⊢; exact hlt)]
  exact bigEndian_eight l hl hb

theorem Decoder.Uint8_reads {d d1 : Decoder} {v : Nat} (hb : IsBytes d.p)
    (h : d.Uint8 = (.ok v, d1)) : d.Reads [v % 256] d1 := by
  rw [Decoder.Uint8_eq] at h
  by_cases hs : d.remaining.length < 1
  · rw [if_pos hs] at h
    cases h
  · rw [if_neg hs] at h
    injection h with hv hd
    injection hv with hv
    subst hv hd
    have hr := reads_advance d 1
    rw [bigEndian_one _ (by rw [List.length_take]; omega)
      (take_isBytes _ _ (remaining_isBytes d hb))]
    exact hr

theorem Decoder.Uint32_reads {d d1 : Decoder} {v : Nat} (hb : IsBytes d.p)
    (h : d.Uint32 = (.ok v, d1)) : d.Reads (Encoder.WriteUint32 [] v) d1 := by
  rw [Decoder.Uint32_eq d hb] at h
  by_cases hs : d.remaining.length < 4
  · rw [if_pos hs] at h
    cases h
  · rw [if_neg hs] at h
    injection h with hv hd
    injection hv with hv
    subst hv hd
    rw [bigEndian_four _ (by rw [List.length_take]; omega)
      (take_isBytes _ _ (remaining_isBytes d hb))]
    exact reads_advance d 4

theorem Decoder.Int32_reads {d d1 : Decoder} {v : Int} (hb : IsBytes d.p)
    (h : d.Int32 = (.ok v, d1)) : d.Reads (Encoder.WriteInt32 [] v) d1 := by
  rw [Decoder.Int32_eq d hb] at h
  by_cases hs : d.remaining.length < 4
  · rw [if_pos hs] at h
    cases h
  · rw [if_neg hs] at h
    injection h with hv hd
    injection hv with hv
    subst hv hd
    rw [bigEndian_fourSigned _ (by rw [List.length_take]; omega)
      (take_isBytes _ _ (remaining_isBytes d hb))]
    exact reads_advance d 4

theorem Decoder.Uint64_reads {d d1 : Decoder} {v : Nat} (hb : IsBytes d.p)
    (h : d.Uint64 = (.ok v, d1)) : d.Reads (Encoder.WriteUint64 [] v) d1 := by
  rw [Decoder.Uint64_eq d hb] at h
  by_cases hs : d.remaining.length < 8
  · rw [if_pos hs] at h
    cases h
  · rw [if_neg hs] at h
    injection h with hv hd
    injection hv with hv
    subst hv hd
    rw [bigEndian_eight _ (by rw [List.length_take]; omega)
      (take_isBytes _ _ (remaining_isBytes d hb))]
    exact reads_advance d 8

theorem Decoder.Int64_reads {d d1 : Decoder} {v : Int} (hb : IsBytes d.p)
    (h : d.Int64 = (.ok v, d1)) : d.Reads (Encoder.WriteInt64 [] v) d1 := by
  rw [Decoder.Int64_eq d hb] at h
  by_cases hs : d.remaining.length < 8
  · rw [if_pos hs] at h
    cases h
  · rw [if_neg hs] at h
    injection h with hv hd
    injection hv with hv
    subst hv hd
    rw [bigEndian_eightSigned _ (by rw [List.length_take]; omega)
      (take_isBytes _ _ (remaining_isBytes d hb))]
    exact reads_advance d 8

/-- A string that `String` returns was read from its length prefix and its bytes, as
`WriteString` writes them; it is at most 32767 bytes long. -/
theorem Decoder.String_reads {d d1 : Decoder} {s : ByteSlice} (hb : IsBytes d.p)
    (h : d.String = (.ok s, d1)) :
    d.Reads (Encoder.WriteString [] s) d1 := by
  rw [Decoder.String_eq_Binary, Decoder.Binary_eq d hb] at h
  by_cases hs : d.remaining.length < 2
  · rw [if_pos hs] at h
    cases h
  rw [if_neg hs] at h
  have h2 := bigEndian_two (d.remaining.take 2) (by rw [List.length_take]; omega)
    (take_isBytes _ _ (remaining_isBytes d hb))
  generalize toSigned 16 (bigEndian (d.remaining.take 2)) = sz at h h2
  by_cases hn : sz < 0
  · rw [if_pos hn] at h
    cases h
  rw [if_neg hn] at h
  by_cases hu : (d.remaining.drop 2).length < sz.toNat
  · rw [if_pos hu] at h
    cases h
  rw [if_neg hu] at h
  injection h with hv hd
  injection hv with hv
  subst hv hd
  have hlen : (((d.remaining.drop 2).take sz.toNat).length : Int) = sz := by
    rw [List.length_take, Nat.min_eq_left (by omega)]
    omega
  refine ⟨rfl, ?_⟩
  unfold Encoder.WriteString Encoder.WriteBytes
  rw [hlen, h2, advance_remaining, List.append_assoc, ← List.drop_drop,
    List.take_append_drop, List.take_append_drop]

theorem optString_reads {d d1 : Decoder} {s : ByteSlice} (c : Bool) (hb : IsBytes d.p)
    (h : (if c = true then d.String else (Except.ok [], d)) = (.ok s, d1)) :
    d.Reads (if c = true then Encoder.WriteString [] s else []) d1 := by
  by_cases hc : c = true
  · rw [if_pos hc] at h ⊢
    exact Decoder.String_reads hb h
  · rw [if_neg hc] at h ⊢
    injection h with hv hd
    subst hd
    exact reads_refl d

theorem optUint32_reads {d d1 : Decoder} {v : Nat} (version : Nat) (hb : IsBytes d.p)
    (h : (if version ≥ 3 then d.Uint32 else (Except.ok 0, d)) = (.ok v, d1)) :
    d.Reads (if version ≥ 3 then Encoder.WriteUint32 [] v else []) d1 := by
  by_cases hc : version ≥ 3
  · rw [if_pos hc] at h ⊢
    exact Decoder.Uint32_reads hb h
  · rw [if_neg hc] at h ⊢
    injection h with hv hd
    subst hd
    exact reads_refl d

theorem decodeRecvStream_reads {S : SettingBits} {setting version : Nat} {d d1 : Decoder}
    {streamFlag streamId : Nat} {streamNo : ByteSlice} (hb : IsBytes d.p)
    (h : decodeRecvStream S setting version d = .ok ((streamFlag, streamNo, streamId), d1)) :
    d.Reads (if (decide (version ≥ 2) && Setting.IsSet setting S.SettingStream) = true then
      (streamFlag % 256) ::
        (Encoder.WriteString [] streamNo ++ Encoder.WriteUint64 [] streamId) else []) d1 := by
  unfold decodeRecvStream at h
  by_cases hc : (decide (version ≥ 2) && Setting.IsSet setting S.SettingStream) = true
  · rw [if_pos hc] at h ⊢
    rcases h1 : d.Uint8 with ⟨_ | flag, e1⟩ <;> simp only [h1, reduceCtorEq] at h
    rcases h2 : e1.String with ⟨_ | no, e2⟩ <;> simp only [h2, reduceCtorEq] at h
    rcases h3 : e2.Uint64 with ⟨_ | id, e3⟩ <;> simp only [h3, reduceCtorEq] at h
    simp only [Except.ok.injEq, Prod.mk.injEq] at h
    obtain ⟨⟨rfl, rfl, rfl⟩, rfl⟩ := h
    have r1 := Decoder.Uint8_reads hb h1
    have r2 := Decoder.String_reads (r1.isBytes hb) h2
    have r3 := Decoder.Uint64_reads (r2.isBytes (r1.isBytes hb)) h3
    exact r1.trans (r2.trans r3)
  · rw [if_neg hc] at h ⊢
    simp only [Except.ok.injEq, Prod.mk.injEq] at h
    obtain ⟨-, rfl⟩ := h
    exact reads_refl d

/-- The bytes of a body that `decodeRecv` accepts are the bytes `encodeRecv` writes
for the packet it returns. -/
theorem recvBody_of_decodeRecv (S : SettingBits) (fr : Framer) (body : ByteSlice)
    (version : Nat) (p : RecvPacket) (hb : IsBytes body)
    (h : decodeRecv S fr body version = .ok p) : recvBody S p version = body := by
  unfold decodeRecv at h
  simp only at h
  have hb0 : IsBytes (NewDecoder body).p := hb
  rcases h1 : (NewDecoder body).Uint8 with ⟨_ | setting, d1⟩ <;>
    simp only [h1, reduceCtorEq] at h
  have r1 := Decoder.Uint8_reads hb0 h1
  have b1 := r1.isBytes hb0
  rcases h2 : d1.String with ⟨_ | msgKey, d2⟩ <;> simp only [h2, reduceCtorEq] at h
  have r2 := Decoder.String_reads b1 h2
  have b2 := r2.isBytes b1
  rcases h3 : d2.String with ⟨_ | fromUID, d3⟩ <;> simp only [h3, reduceCtorEq] at h
  have r3 := Decoder.String_reads b2 h3
  have b3 := r3.isBytes b2
  rcases h4 : d3.String with ⟨_ | channelID, d4⟩ <;> simp only [h4, reduceCtorEq] at h
  have r4 := Decoder.String_reads b3 h4
  have b4 := r4.isBytes b3
  rcases h5 : d4.Uint8 with ⟨_ | channelType, d5⟩ <;> simp only [h5, reduceCtorEq] at h
  have r5 := Decoder.Uint8_reads b4 h5
  have b5 := r5.isBytes b4
  rcases h6 : (if version ≥ 3 then d5.Uint32 else (Except.ok 0, d5)) with ⟨_ | expire, d6⟩ <;>
    simp only [h6, reduceCtorEq] at h
  have r6 := optUint32_reads version b5 h6
  have b6 := r6.isBytes b5
  rcases h7 : d6.String with ⟨_ | clientMsgNo, d7⟩ <;> simp only [h7, reduceCtorEq] at h
  have r7 := Decoder.String_reads b6 h7
  have b7 := r7.isBytes b6
  rcases h8 : decodeRecvStream S setting version d7 with
    _ | ⟨⟨streamFlag, streamNo, streamId⟩, d8⟩ <;> simp only [h8, reduceCtorEq] at h
  have r8 := decodeRecvStream_reads b7 h8
  have b8 := r8.isBytes b7
  rcases h9 : d8.Int64 with ⟨_ | messageID, d9⟩ <;> simp only [h9, reduceCtorEq] at h
  have r9 := Decoder.Int64_reads b8 h9
  have b9 := r9.isBytes b8
  rcases h10 : d9.Uint32 with ⟨_ | messageSeq, d10⟩ <;> simp only [h10, reduceCtorEq] at h
  have r10 := Decoder.Uint32_reads b9 h10
  have b10 := r10.isBytes b9
  rcases h11 : d10.Int32 with ⟨_ | timestamp, d11⟩ <;> simp only [h11, reduceCtorEq] at h
  have r11 := Decoder.Int32_reads b10 h11
  have b11 := r11.isBytes b10
  rcases h12 : (if Setting.IsSet setting S.SettingTopic = true then d11.String
      else (Except.ok [], d11)) with ⟨_ | topic, d12⟩ <;>
    simp only [h12, reduceCtorEq] at h
  have r12 := optString_reads (Setting.IsSet setting S.SettingTopic) b11 h12
  rcases h13 : d12.BinaryAll with ⟨_ | payload, d13⟩ <;> simp only [h13, reduceCtorEq] at h
  have hpay : payload = d12.remaining := by
    unfold Decoder.BinaryAll at h13
    injection h13 with hv
    injection hv with hv
    exact hv.symm
  injection h with h
  subst h
  have hall := (r1.trans (r2.trans (r3.trans (r4.trans (r5.trans (r6.trans (r7.trans
    (r8.trans (r9.trans (r10.trans (r11.trans r12))))))))))).2
  have h0 : (NewDecoder body).remaining = body := rfl
  rw [h0, ← hpay] at hall
  rw [hall]
  unfold recvBody
  simp only [List.cons_append, List.nil_append, List.append_assoc, Bool.and_eq_true,
    decide_eq_true_eq]

/-- C22: canonical RECV bodies. For every sequence of bytes `body` and every version,
if `decodeRecv` succeeds on `body` with the packet `p`, then the bytes `encodeRecv`
writes for `p` at that version are exactly `body`; so a second body that decodes to
the same packet is the same body. -/
theorem recv_bodies_canonical (S : SettingBits) (fr : Framer) (body : ByteSlice)
    (version : Nat) (p : RecvPacket) (hb : IsBytes body)
    (h : decodeRecv S fr body version = .ok p) :
    encodeRecv S p [] version = body ∧
    (∀ body2 : ByteSlice, IsBytes body2 → decodeRecv S fr body2 version = .ok p →
      body2 = body) := by
  have e := recvBody_of_decodeRecv S fr body version p hb h
  refine ⟨by rw [encodeRecv_eq, List.nil_append, e], ?_⟩
  intro body2 hb2 h2
  rw [← recvBody_of_decodeRecv S fr body2 version p hb2 h2, e]

/-- Witness of C22: the body of `exampleRecv`, with the stream and topic bits set, at
version 4. -/
theorem recv_bodies_canonical_witness :
    IsBytes (recvBody exampleBits exampleRecv 4) ∧
    decodeRecv exampleBits Framer.zero (recvBody exampleBits exampleRecv 4) 4
      = .ok exampleRecv ∧
    encodeRecv exampleBits exampleRecv [] 4 = recvBody exampleBits exampleRecv 4 :=
  ⟨by decide, by decide,
    (recv_bodies_canonical exampleBits Framer.zero (recvBody exampleBits exampleRecv 4) 4
      exampleRecv (by decide) (by decide)).1⟩

/-! ## The two decode entry points -/

theorem ReadFull_enough (r : Reader) (n : Nat) (h : n ≤ r.length) :
    ReadFull r n = (r.take n, none, r.drop n) := by
  unfold ReadFull
  rw [if_pos h]

/-- The value `decodeLength` returns fits 32 bits. -/
theorem decodeLengthLoop_lt (n : Nat) :
    ∀ (data : ByteSlice) (acc m o r k : Nat), 27 - m ≤ n → acc < 2 ^ 32 →
      decodeLengthLoop data acc m o = .ok (r, k) → r < 2 ^ 32 := by
  induction n with
  | zero =>
    intro data acc m o r k hn hacc h
    rw [decodeLengthLoop, if_neg (by omega)] at h
    injection h with h
    injection h with h1 h2
    omega
  | succ n ih =>
    intro data acc m o r k hn hacc h
    have hor : ∀ x : Nat, acc ||| (x % 2 ^ 32) < 2 ^ 32 := fun x =>
      Nat.or_lt_two_pow hacc (Nat.mod_lt _ (by norm_num))
    rw [decodeLengthLoop] at h
    split at h
    · split at h
      · cases h
      · simp only at h
        split at h
        · injection h with h
          injection h with h1 h2
          rw [← h1]
          exact hor _
        · exact ih data _ (m + 7) (o + 1) r k (by omega) (hor _) h
    · injection h with h
      injection h with h1 h2
      omega

/-- On a length field that ends within its first four bytes the two readers of the
length agree: `decodeLengthWithConn` returns the value `decodeLength` returns and
leaves the stream after the bytes `decodeLength` counts. -/
theorem decodeLengthWithConnLoop_eq (fuel : Nat) :
    ∀ (data : ByteSlice) (acc m off r k : Nat), m = 7 * off → off + fuel = 4 →
      (∃ j, off ≤ j ∧ j < 4 ∧ data.getD j 128 &&& 128 = 0) →
      decodeLengthLoop data acc m off = .ok (r, k) →
      decodeLengthWithConnLoop (data.drop off) acc m = (r, data.drop k) := by
  induction fuel with
  | zero =>
    intro data acc m off r k hm hf hj h
    obtain ⟨j, h1, h2, -⟩ := hj
    omega
  | succ fuel ih =>
    intro data acc m off r k hm hf hj h
    have hm27 : m < 27 := by omega
    rw [decodeLengthLoop, if_pos hm27] at h
    by_cases hlen : off ≥ data.length
    · rw [if_pos hlen] at h
      cases h
    rw [if_neg hlen] at h
    have hlt : off < data.length := by omega
    have hdrop : data.drop off = data.getD off 0 :: data.drop (off + 1) := by
      rw [List.drop_eq_getElem_cons hlt, List.getD_eq_getElem?_getD,
        List.getElem?_eq_getElem hlt, Option.getD_some]
    rw [decodeLengthWithConnLoop, if_pos hm27, hdrop,
      ReadFull_enough _ 1 (by simp)]
    simp only [List.take_succ_cons, List.take_zero, List.drop_succ_cons, List.drop_zero,
      List.getD_cons_zero] at h ⊢
    by_cases hd : data.getD off 0 &&& 128 = 0
    · rw [if_pos hd] at h ⊢
      injection h with h
      injection h with h1 h2
      rw [h1, h2]
    · rw [if_neg hd] at h ⊢
      refine ih data _ (m + 7) (off + 1) r k (by omega) (by omega) ?_ h
      obtain ⟨j, h1, h2, h3⟩ := hj
      refine ⟨j, ?_, h2, h3⟩
      rcases Nat.eq_or_lt_of_le h1 with he | hl
      · exfalso
        apply hd
        rw [← he, List.getD_eq_getElem?_getD, List.getElem?_eq_getElem hlt,
          Option.getD_some] at h3
        rw [List.getD_eq_getElem?_getD, List.getElem?_eq_getElem hlt, Option.getD_some]
        exact h3
      · exact hl

theorem decodeLengthWithConn_eq (rest : ByteSlice) (r k : Nat)
    (hterm : ∃ x ∈ rest.take 4, x &&& 128 = 0) (h : decodeLength rest = .ok (r, k)) :
    decodeLengthWithConn rest = (r, rest.drop k) ∧ r < 2 ^ 32 := by
  refine ⟨?_, decodeLengthLoop_lt 27 rest 0 0 0 r k (by omega) (by norm_num) h⟩
  obtain ⟨x, hx, hc⟩ := hterm
  obtain ⟨j, hj, rfl⟩ := List.getElem_of_mem hx
  rw [List.length_take] at hj
  have hj4 : j < 4 := by omega
  have hjl : j < rest.length := by omega
  have h3 := decodeLengthWithConnLoop_eq 4 rest 0 0 0 r k rfl rfl
    ⟨j, Nat.zero_le _, hj4, by
      rw [List.getD_eq_getElem?_getD, List.getElem?_eq_getElem hjl, Option.getD_some]
      rw [List.getElem_take] at hc
      exact hc⟩ h
  exact h3

/-- What `decodeSend` reads does not depend on the framer it is given: the framer is
only stored in the packet. -/
theorem decodeSend_reframe (S : SettingBits) (fr fr2 : Framer) (data : ByteSlice)
    (version : Nat) (p : SendPacket) (h : decodeSend S fr data version = .ok p) :
    decodeSend S fr2 data version = .ok { p with Framer := fr2 } := by
  unfold decodeSend at h ⊢
  simp only at h ⊢
  rcases h1 : (NewDecoder data).Uint8 with ⟨_ | setting, d1⟩ <;>
    simp only [h1, reduceCtorEq] at h ⊢
  rcases h2 : d1.Uint32 with ⟨_ | clientSeq, d2⟩ <;> simp only [h2, reduceCtorEq] at h ⊢
  rcases h3 : d2.String with ⟨_ | clientMsgNo, d3⟩ <;> simp only [h3, reduceCtorEq] at h ⊢
  rcases h4 : (if (decide (version ≥ 2) && Setting.IsSet setting S.SettingStream) = true then
      d3.String else (Except.ok [], d3)) with ⟨_ | streamNo, d4⟩ <;>
    simp only [h4, reduceCtorEq] at h ⊢
  rcases h5 : d4.String with ⟨_ | channelID, d5⟩ <;> simp only [h5, reduceCtorEq] at h ⊢
  rcases h6 : d5.Uint8 with ⟨_ | channelType, d6⟩ <;> simp only [h6, reduceCtorEq] at h ⊢
  rcases h7 : (if version ≥ 3 then d6.Uint32 else (Except.ok 0, d6)) with ⟨_ | expire, d7⟩ <;>
    simp only [h7, reduceCtorEq] at h ⊢
  rcases h8 : d7.String with ⟨_ | msgKey, d8⟩ <;> simp only [h8, reduceCtorEq] at h ⊢
  rcases h9 : (if Setting.IsSet setting S.SettingTopic = true then d8.String
      else (Except.ok [], d8)) with ⟨_ | topic, d9⟩ <;>
    simp only [h9, reduceCtorEq] at h ⊢
  rcases h10 : d9.BinaryAll with ⟨_ | payload, d10⟩ <;> simp only [h10, reduceCtorEq] at h ⊢
  injection h with h
  subst h
  rfl

/-- What `decodeRecv` reads does not depend on the framer it is given. -/
theorem decodeRecv_reframe (S : SettingBits) (fr fr2 : Framer) (data : ByteSlice)
    (version : Nat) (p : RecvPacket) (h : decodeRecv S fr data version = .ok p) :
    decodeRecv S fr2 data version = .ok { p with Framer := fr2 } := by
  unfold decodeRecv at h ⊢
  simp only at h ⊢
  rcases h1 : (NewDecoder data).Uint8 with ⟨_ | setting, d1⟩ <;>
    simp only [h1, reduceCtorEq] at h ⊢
  rcases h2 : d1.String with ⟨_ | msgKey, d2⟩ <;> simp only [h2, reduceCtorEq] at h ⊢
  rcases h3 : d2.String with ⟨_ | fromUID, d3⟩ <;> simp only [h3, reduceCtorEq] at h ⊢
  rcases h4 : d3.String with ⟨_ | channelID, d4⟩ <;> simp only [h4, reduceCtorEq] at h ⊢
  rcases h5 : d4.Uint8 with ⟨_ | channelType, d5⟩ <;> simp only [h5, reduceCtorEq] at h ⊢
  rcases h6 : (if version ≥ 3 then d5.Uint32 else (Except.ok 0, d5)) with ⟨_ | expire, d6⟩ <;>
    simp only [h6, reduceCtorEq] at h ⊢
  rcases h7 : d6.String with ⟨_ | clientMsgNo, d7⟩ <;> simp only [h7, reduceCtorEq] at h ⊢
  rcases h8 : decodeRecvStream S setting version d7 with
    _ | ⟨⟨streamFlag, streamNo, streamId⟩, d8⟩ <;> simp only [h8, reduceCtorEq] at h ⊢
  rcases h9 : d8.Int64 with ⟨_ | messageID, d9⟩ <;> simp only [h9, reduceCtorEq] at h ⊢
  rcases h10 : d9.Uint32 with ⟨_ | messageSeq, d10⟩ <;> simp only [h10, reduceCtorEq] at h ⊢
  rcases h11 : d10.Int32 with ⟨_ | timestamp, d11⟩ <;> simp only [h11, reduceCtorEq] at h ⊢
  rcases h12 : (if Setting.IsSet setting S.SettingTopic = true then d11.String
      else (Except.ok [], d11)) with ⟨_ | topic, d12⟩ <;>
    simp only [h12, reduceCtorEq] at h ⊢
  rcases h13 : d12.BinaryAll with ⟨_ | payload, d13⟩ <;> simp only [h13, reduceCtorEq] at h ⊢
  injection h with h
  subst h
  rfl

/-- The frame with its `FrameSize` set to zero, for the packets that show a header
(the framer of a SEND or RECV packet). -/
theorem packetDecodeMap_reframe {X : Type} (T : FrameTypes) (S : SettingBits)
    (C : PacketCodecs X) (ft : Nat) (dec : PacketDecodeFunc X)
    (hm : packetDecodeMap T S C ft = some dec) (fr fr2 : Framer) (body : ByteSlice)
    (version : Nat) (frame : Frame X) (hd : dec fr body version = .ok frame) :
    (∀ p, frame = .send p → dec fr2 body version = .ok (.send { p with Framer := fr2 })) ∧
    (∀ p, frame = .recv p → dec fr2 body version = .ok (.recv { p with Framer := fr2 })) := by
  have other : ∀ x : Except Error X, Except.map Frame.other x = .ok frame →
      (∀ p, frame ≠ .send p) ∧ (∀ p, frame ≠ .recv p) := by
    intro x hx
    obtain ⟨a, -, rfl⟩ := except_map_ok Frame.other x frame hx
    exact ⟨fun p hp => (by cases hp), fun p hp => (by cases hp)⟩
  unfold packetDecodeMap at hm
  by_cases h1 : ft = T.CONNECT
  · rw [if_pos h1] at hm
    injection hm with hm
    subst hm
    exact ⟨fun p hp => absurd hp ((other _ hd).1 p), fun p hp => absurd hp ((other _ hd).2 p)⟩
  rw [if_neg h1] at hm
  by_cases h2 : ft = T.CONNACK
  · rw [if_pos h2] at hm
    injection hm with hm
    subst hm
    exact ⟨fun p hp => absurd hp ((other _ hd).1 p), fun p hp => absurd hp ((other _ hd).2 p)⟩
  rw [if_neg h2] at hm
  by_cases h3 : ft = T.SEND
  · rw [if_pos h3] at hm
    injection hm with hm
    subst hm
    obtain ⟨a, ha, rfl⟩ := except_map_ok Frame.send _ frame hd
    constructor
    · intro p hp
      injection hp with hp
      subst hp
      simp only [decodeSend_reframe S fr fr2 body version a ha, Except.map]
    · intro p hp
      cases hp
  rw [if_neg h3] at hm
  by_cases h4 : ft = T.SENDACK
  · rw [if_pos h4] at hm
    injection hm with hm
    subst hm
    exact ⟨fun p hp => absurd hp ((other _ hd).1 p), fun p hp => absurd hp ((other _ hd).2 p)⟩
  rw [if_neg h4] at hm
  by_cases h5 : ft = T.RECV
  · rw [if_pos h5] at hm
    injection hm with hm
    subst hm
    obtain ⟨a, ha, rfl⟩ := except_map_ok Frame.recv _ frame hd
    constructor
    · intro p hp
      cases hp
    · intro p hp
      injection hp with hp
      subst hp
      simp only [decodeRecv_reframe S fr fr2 body version a ha, Except.map]
  rw [if_neg h5] at hm
  by_cases h6 : ft = T.RECVACK
  · rw [if_pos h6] at hm
    injection hm with hm
    subst hm
    exact ⟨fun p hp => absurd hp ((other _ hd).1 p), fun p hp => absurd hp ((other _ hd).2 p)⟩
  rw [if_neg h6] at hm
  by_cases h7 : ft = T.DISCONNECT
  · rw [if_pos h7] at hm
    injection hm with hm
    subst hm
    exact ⟨fun p hp => absurd hp ((other _ hd).1 p), fun p hp => absurd hp ((other _ hd).2 p)⟩
  rw [if_neg h7] at hm
  by_cases h8 : ft = T.SUB
  · rw [if_pos h8] at hm
    injection hm with hm
    subst hm
    exact ⟨fun p hp => absurd hp ((other _ hd).1 p), fun p hp => absurd hp ((other _ hd).2 p)⟩
  rw [if_neg h8] at hm
  by_cases h9 : ft = T.SUBACK
  · rw [if_pos h9] at hm
    injection hm with hm
    subst hm
    exact ⟨fun p hp => absurd hp ((other _ hd).1 p), fun p hp => absurd hp ((other _ hd).2 p)⟩
  rw [if_neg h9] at hm
  cases hm

/-- The method `DecodePacketWithConn` on a stream whose first byte is no heartbeat and
whose length field gives `r`: the checks it makes, in their order. -/
theorem DecodePacketWithConn_of_length {X : Type} (T : FrameTypes) (S : SettingBits)
    (C : PacketCodecs X) (b : Nat) (rest rest2 : ByteSlice) (version r : Nat)
    (hPi : b >>> 4 ≠ T.PING) (hPo : b >>> 4 ≠ T.PONG)
    (hlen : decodeLengthWithConn rest = (r, rest2)) (hr : r < 2 ^ 32) :
    DecodePacketWithConn T S C (b :: rest) version =
      if r > MaxRemaingLength then (none, some (.tooLong MaxRemaingLength), rest2)
      else if (ReadFull rest2 r).2.1.isSome then
        (none, (ReadFull rest2 r).2.1, (ReadFull rest2 r).2.2)
      else
        match packetDecodeMap T S C (b >>> 4) with
        | none => (none, some (.unsupported (b >>> 4)), (ReadFull rest2 r).2.2)
        | some decodeFunc =>
          match decodeFunc (framerOf b r []) (ReadFull rest2 r).1 version with
          | .error err => (none, some (.packet (b >>> 4) err), (ReadFull rest2 r).2.2)
          | .ok frame => (some frame, none, (ReadFull rest2 r).2.2) := by
  have h1 : ReadFull (b :: rest) 1 = ([b], none, rest) := by
    rw [ReadFull_enough _ 1 (by simp)]
    rfl
  simp only [DecodePacketWithConn, decodeFramerWithConn, h1, FramerFromUint8, hPi, hPo, hlen,
    Nat.mod_eq_of_lt hr, List.getD_cons_zero, ne_eq, not_false_eq_true, and_self, if_true,
    Option.isSome_none, Bool.false_eq_true, if_false, framerOf, List.length_nil,
    Nat.cast_zero]

/-- Where the two decode entry points do agree: on a length field that ends within
four bytes. For every buffer `data` and version on which `DecodeFrame` returns a SEND or
RECV frame with the consumed count `n`, and in which one of the first four bytes after
the header byte has its high bit clear, `DecodePacketWithConn` reading from a stream
that yields the bytes of `data` returns, without an error, the same frame with its
`FrameSize` zero: the same type, flag bits, remaining length and body fields; and it
leaves the stream at the bytes after the first `n`. -/
theorem entry_points_agree {X : Type} (T : FrameTypes) (S : SettingBits)
    (C : PacketCodecs X) (hT : T.WellFormed) (data : ByteSlice) (version : Nat)
    (frame : Frame X) (n : Nat) (err : Option Error)
    (h : DecodeFrame T S C data version = some (some frame, n, err))
    (hterm : ∃ x ∈ (data.drop 1).take 4, x &&& 128 = 0) :
    (∀ p, frame = .send p →
      DecodePacketWithConn T S C data version
        = (some (.send { p with Framer := { p.Framer with FrameSize := 0 } }), none,
            data.drop n)) ∧
    (∀ p, frame = .recv p →
      DecodePacketWithConn T S C data version
        = (some (.recv { p with Framer := { p.Framer with FrameSize := 0 } }), none,
            data.drop n)) := by
  have hU : T.UNKNOWN = 0 := hT.1
  have hPU : T.PING ≠ T.UNKNOWN := T.ne_of_wellFormed hT 7 0 (by decide)
  have hOU : T.PONG ≠ T.UNKNOWN := T.ne_of_wellFormed hT 8 0 (by decide)
  have hOP : T.PONG ≠ T.PING := T.ne_of_wellFormed hT 8 7 (by decide)
  match data with
  | [] => simp [DecodeFrame, decodeFramer] at h
  | b :: rest =>
    simp only [List.drop_succ_cons, List.drop_zero] at hterm
    by_cases hPi : b >>> 4 = T.PING
    · simp only [DecodeFrame, decodeFramer, FramerFromUint8, hPi, hPU, ne_eq,
        not_true_eq_false, false_and, if_false, Option.isSome_none, Bool.false_eq_true,
        if_true, Option.some.injEq, Prod.mk.injEq] at h
      obtain ⟨rfl, -, -⟩ := h
      exact ⟨fun p hp => (by cases hp), fun p hp => (by cases hp)⟩
    by_cases hPo : b >>> 4 = T.PONG
    · simp only [DecodeFrame, decodeFramer, FramerFromUint8, hPo, hOU, hOP, ne_eq,
        not_true_eq_false, and_false, if_false, Option.isSome_none, Bool.false_eq_true,
        if_true, Option.some.injEq, Prod.mk.injEq] at h
      obtain ⟨rfl, -, -⟩ := h
      exact ⟨fun p hp => (by cases hp), fun p hp => (by cases hp)⟩
    cases hl : decodeLength rest with
    | error e =>
      have he := decodeLength_error rest e hl
      subst he
      rw [DecodeFrame_of_lengthError T S C b rest version hU hPi hPo hl] at h
      simp at h
    | ok rk =>
      obtain ⟨r, k⟩ := rk
      rw [DecodeFrame_of_length T S C b rest version r k hPi hPo hl] at h
      by_cases c1 : b >>> 4 = T.UNKNOWN
      · rw [if_pos c1] at h
        simp at h
      rw [if_neg c1] at h
      by_cases c2 : r > MaxRemaingLength
      · rw [if_pos c2] at h
        simp at h
      rw [if_neg c2] at h
      by_cases c3 : (b :: rest).length < r + 1 + k
      · rw [if_pos c3] at h
        simp at h
      rw [if_neg c3] at h
      cases hm : packetDecodeMap T S C (b >>> 4) with
      | none =>
        rw [hm] at h
        simp at h
      | some dec =>
        rw [hm] at h
        cases hd : dec (framerOf b r (b :: rest)) (slice (b :: rest) (1 + k) (r + 1 + k))
            version with
        | error e =>
          simp only [hd] at h
          simp at h
        | ok fr0 =>
          simp only [hd, Option.some.injEq, Prod.mk.injEq] at h
          obtain ⟨rfl, rfl, -⟩ := h
          obtain ⟨hconn, hr⟩ := decodeLengthWithConn_eq rest r k hterm hl
          have hroom : r ≤ (rest.drop k).length := by
            rw [List.length_drop]
            simp only [List.length_cons] at c3
            omega
          have hbody : slice (b :: rest) (1 + k) (r + 1 + k) = (rest.drop k).take r := by
            unfold slice
            rw [Nat.add_comm 1 k, List.drop_succ_cons,
              show r + 1 + k - (k + 1) = r by omega]
          have hleft : (rest.drop k).drop r = (b :: rest).drop (1 + k + r) := by
            rw [List.drop_drop, show 1 + k + r = (k + r) + 1 by omega, List.drop_succ_cons]
          rw [hbody] at hd
          obtain ⟨hs, hv⟩ := packetDecodeMap_reframe T S C _ dec hm (framerOf b r (b :: rest))
            (framerOf b r []) _ version fr0 hd
          rw [DecodePacketWithConn_of_length T S C b rest (rest.drop k) version r hPi hPo
            hconn hr, if_neg c2, ReadFull_enough _ r hroom]
          simp only [Option.isSome_none, Bool.false_eq_true, if_false, hm]
          constructor
          · intro p hp
            have hf : p.Framer = framerOf b r (b :: rest) :=
              packetDecodeMap_header T S C _ dec hm _ _ _ _ hd p.Framer (by rw [hp]; rfl)
            rw [hs p hp, hleft, hf]
            rfl
          · intro p hp
            have hf : p.Framer = framerOf b r (b :: rest) :=
              packetDecodeMap_header T S C _ dec hm _ _ _ _ hd p.Framer (by rw [hp]; rfl)
            rw [hv p hp, hleft, hf]
            rfl

/-- Four bytes of a length field from a stream, the first three with the continuation
bit: `decodeLengthWithConn` reads the four of them and no more, whatever the bit of
the fourth. -/
theorem decodeLengthWithConn_four (b0 b1 b2 b3 : Nat) (tl : ByteSlice) (h0 : b0 &&& 128 ≠ 0)
    (h1 : b1 &&& 128 ≠ 0) (h2 : b2 &&& 128 ≠ 0) :
    decodeLengthWithConn (b0 :: b1 :: b2 :: b3 :: tl) = (lengthOfFour b0 b1 b2 b3, tl) := by
  have hr : ∀ (x : Nat) (l : ByteSlice), ReadFull (x :: l) 1 = ([x], none, l) := by
    intro x l
    rw [ReadFull_enough _ 1 (by simp)]
    rfl
  unfold decodeLengthWithConn lengthOfFour
  rw [decodeLengthWithConnLoop]
  simp only [show (0 : Nat) < 27 by norm_num, if_true, hr, List.getD_cons_zero, h0, if_false,
    Nat.zero_or, digit_shift_mod b0 0 (by norm_num), Nat.shiftLeft_zero]
  rw [decodeLengthWithConnLoop]
  simp only [show (0 + 7 : Nat) < 27 by norm_num, if_true, hr, List.getD_cons_zero, h1,
    if_false, digit_shift_mod b1 7 (by norm_num), Nat.zero_add]
  rw [decodeLengthWithConnLoop]
  simp only [show (7 + 7 : Nat) < 27 by norm_num, if_true, hr, List.getD_cons_zero, h2,
    if_false, digit_shift_mod b2 14 (by norm_num), Nat.reduceAdd]
  rw [decodeLengthWithConnLoop]
  simp only [show (14 + 7 : Nat) < 27 by norm_num, if_true, hr, List.getD_cons_zero,
    digit_shift_mod b3 21 (by norm_num), Nat.reduceAdd]
  have hb : (b0 &&& 127) % 2 ^ 32 = b0 &&& 127 :=
    Nat.mod_eq_of_lt (lt_of_le_of_lt Nat.and_le_right (by norm_num))
  by_cases h3 : b3 &&& 128 = 0
  · rw [if_pos h3, hb]
  · rw [if_neg h3, decodeLengthWithConnLoop, if_neg (by norm_num), hb]

/-- C23 (the code at the failing input): a SEND header, a length field of four
continuation bytes, one more byte and twelve body bytes. `decodeLength` stops at its
bound after reading four bytes and returns 5 as the size of the field, so
`DecodeFrame` takes the body from byte 6 on and returns a SEND frame with the
consumed count 18; `DecodePacketWithConn` reads four bytes for the field, takes the
twelve bytes from byte 5 on as the body and returns an error and no frame, where the
claim asks for the same frame without an error. -/
theorem entry_points_disagree :
    DecodeFrame exampleTypes exampleBits exampleCodecs
        (48 :: 140 :: 128 :: 128 :: 128 :: 0 :: minimalSendBody) 1
      = some (some (.send (minimalSend (framerOf 48 12
          (48 :: 140 :: 128 :: 128 :: 128 :: 0 :: minimalSendBody)))), 18, none) ∧
    DecodePacketWithConn exampleTypes exampleBits exampleCodecs
        (48 :: 140 :: 128 :: 128 :: 128 :: 0 :: minimalSendBody) 1
      = (none, some (.packet 3 (.wrap (.underrun 1799 12) "解码ClientMsgNo失败！")), [0]) := by
  constructor
  · rw [DecodeFrame_of_length exampleTypes exampleBits exampleCodecs 48
      (140 :: 128 :: 128 :: 128 :: 0 :: minimalSendBody) 1 12 5 (by decide) (by decide)
      (decodeLength_four 140 128 128 128 (0 :: minimalSendBody) (by decide) (by decide)
        (by decide) (by decide))]
    rfl
  · rw [DecodePacketWithConn_of_length exampleTypes exampleBits exampleCodecs 48
      (140 :: 128 :: 128 :: 128 :: 0 :: minimalSendBody) (0 :: minimalSendBody) 1 12
      (by decide) (by decide)
      (decodeLengthWithConn_four 140 128 128 128 (0 :: minimalSendBody) (by decide)
        (by decide) (by decide)) (by norm_num)]
    rfl

/-- An instance of `entry_points_agree`: a SEND frame of 14 bytes followed by two more
bytes, at version 1. -/
theorem entry_points_agree_witness :
    exampleTypes.WellFormed ∧
    (∃ x ∈ ((48 :: 12 :: (minimalSendBody ++ [112, 16])).drop 1).take 4, x &&& 128 = 0) ∧
    DecodeFrame exampleTypes exampleBits exampleCodecs
        (48 :: 12 :: (minimalSendBody ++ [112, 16])) 1
      = some (some (.send (minimalSend
          { FrameType := 3, Flags := 0, RemainingLength := 12, FrameSize := 16 })), 14, none) ∧
    DecodePacketWithConn exampleTypes exampleBits exampleCodecs
        (48 :: 12 :: (minimalSendBody ++ [112, 16])) 1
      = (some (.send (minimalSend
          { FrameType := 3, Flags := 0, RemainingLength := 12, FrameSize := 0 })), none,
          [112, 16]) := by
  have hd : DecodeFrame exampleTypes exampleBits exampleCodecs
        (48 :: 12 :: (minimalSendBody ++ [112, 16])) 1
      = some (some (.send (minimalSend
          { FrameType := 3, Flags := 0, RemainingLength := 12, FrameSize := 16 })), 14, none) := by
    rw [DecodeFrame_of_length exampleTypes exampleBits exampleCodecs 48
      (12 :: (minimalSendBody ++ [112, 16])) 1 12 1 (by decide) (by decide)
      (decodeLength_one 12 _ (by decide))]
    rfl
  exact ⟨by decide, by decide, hd,
    (entry_points_agree exampleTypes exampleBits exampleCodecs (by decide)
      (48 :: 12 :: (minimalSendBody ++ [112, 16])) 1 _ 14 none hd (by decide)).1 _ rfl⟩

/-! ## The UNKNOWN discriminant on the two decode entry points -/

/-- A length field of one byte from a stream: `decodeLengthWithConn` reads that byte
and no more. -/
theorem decodeLengthWithConn_one (b : Nat) (tl : ByteSlice) (h : b &&& 128 = 0) :
    decodeLengthWithConn (b :: tl) = (b &&& 127, tl) := by
  have hr : ReadFull (b :: tl) 1 = ([b], none, tl) := by
    rw [ReadFull_enough _ 1 (by simp)]
    rfl
  have hb : (b &&& 127) % 2 ^ 32 = b &&& 127 :=
    Nat.mod_eq_of_lt (lt_of_le_of_lt Nat.and_le_right (by norm_num))
  unfold decodeLengthWithConn
  rw [decodeLengthWithConnLoop]
  simp only [show (0 : Nat) < 27 by norm_num, if_true, hr, List.getD_cons_zero, h,
    Nat.zero_or, Nat.shiftLeft_zero, hb]

/-- C10 (the code at the failing input): the two bytes 0x00 0x00 are a complete frame
whose header byte carries the discriminant UNKNOWN, which has no entry in
`packetDecodeMap`. `DecodeFrame` reports it as no frame, zero consumed and a nil
error, at every version, where the claim asks for the unsupported-frame-type error;
`DecodePacketWithConn`, reading the same two bytes from a stream, returns that
error. -/
theorem unknown_type_swallowed (version : Nat) :
    (packetDecodeMap exampleTypes exampleBits exampleCodecs (0 >>> 4)).isNone ∧
    0 >>> 4 ≠ exampleTypes.PING ∧ 0 >>> 4 ≠ exampleTypes.PONG ∧
    DecodeFrame exampleTypes exampleBits exampleCodecs [0, 0] version = some (none, 0, none) ∧
    DecodePacketWithConn exampleTypes exampleBits exampleCodecs [0, 0] version
      = (none, some (.unsupported 0), []) := by
  refine ⟨by decide, by decide, by decide, ?_, ?_⟩
  · rw [DecodeFrame_of_length exampleTypes exampleBits exampleCodecs 0 [0] version 0 1
      (by decide) (by decide) (decodeLength_one 0 [] (by decide))]
    rfl
  · rw [DecodePacketWithConn_of_length exampleTypes exampleBits exampleCodecs 0 [0] []
      version 0 (by decide) (by decide) (decodeLengthWithConn_one 0 [] (by decide))
      (by norm_num)]
    rfl

end msproto
